import Mathlib

/-!
# bittorrentdht: address and identifier helpers (`utils.go`)

A shallow embedding of `utils.go` together with the parts of the Go standard
library it calls (`net/netip`, `net`, `strconv`, `encoding/hex`, `crypto/sha1`,
`crypto/rand`, as of Go 1.23), followed by theorems about the embedded functions.

Conventions of the embedding:

* a Go `string` / `[]byte` is a list of bytes, each byte a `Nat`;
* a Go function returning `(T, error)` returns a Lean pair whose second
  component is `none` for a `nil` error;
* a `[]byte` result that may be `nil` is an `Option`, `none` standing for `nil`;
* unsigned machine words are `Nat`, `int` is `Int`;
* the operating system (DNS resolver, entropy source) is a parameter.
-/

namespace BittorrentDHT

/-! ## Strings and errors -/

/-- A Go string: a finite sequence of bytes. -/
abbrev GoString := List Nat

/-- The bytes of a string literal written in ASCII. -/
def str (s : String) : GoString := s.toList.map Char.toNat

/-- Go's `<` on strings: lexicographic order on the bytes. -/
def stringLess : GoString → GoString → Bool
  | [], [] => false
  | [], _ :: _ => true
  | _ :: _, [] => false
  | x :: xs, y :: ys => if x < y then true else if y < x then false else stringLess xs ys

/-- The error values that the embedded functions can return. -/
inductive GoError where
  /-- `errors.New(msg)`. -/
  | errorsNew (msg : String)
  /-- `hex.InvalidByteError(b)`. -/
  | hexInvalidByte (b : Nat)
  /-- `hex.ErrLength`. -/
  | hexErrLength
  /-- `netip.parseAddrError{in, msg, at}`. -/
  | parseAddrError (input : GoString) (msg : String) (rest : GoString)
  /-- `&net.AddrError{Err, Addr}`. -/
  | addrError (err : String) (addr : GoString)
  /-- `&net.DNSError{Err, Name}`. -/
  | dnsError (err : String) (name : GoString)
  /-- `&strconv.NumError{Func, Num, Err}` with `Err` one of `ErrSyntax`, `ErrRange`. -/
  | numError (func : String) (num : GoString) (err : String)
  /-- `errors.New` of a message assembled from `msg` and the quoted strings `args`. -/
  | errorsNewQuoted (msg : String) (args : List GoString)
  /-- An error reported by the operating system (resolver, entropy source). -/
  | external (code : Nat)
  deriving DecidableEq, Repr

/-! ## `net/netip`: addresses -/

namespace netip

/-- The 128-bit address word, `uint128{hi, lo}`. -/
structure uint128 where
  hi : Nat
  lo : Nat
  deriving DecidableEq, Repr

/-- The interned detail record behind `Addr.z`. -/
structure addrDetail where
  isV6 : Bool
  zoneV6 : GoString
  deriving DecidableEq, Repr

/-- An IP address. `z` is the handle to the interned detail record; handles are
equal exactly when the records are, and `none` is the zero handle. -/
structure Addr where
  addr : uint128
  z : Option addrDetail
  deriving DecidableEq, Repr

/-- Zero handle: the zero `Addr`. -/
def z0 : Option addrDetail := none

/-- Handle of every IPv4 address. -/
def z4 : Option addrDetail := some { isV6 := false, zoneV6 := [] }

/-- Handle of every IPv6 address without a zone. -/
def z6noz : Option addrDetail := some { isV6 := true, zoneV6 := [] }

/-- The zero value `Addr{}`. -/
def Addr.zero : Addr := { addr := { hi := 0, lo := 0 }, z := z0 }

/-- `ip.IsValid()`. -/
def Addr.IsValid (ip : Addr) : Bool := ip.z != z0

/-- `ip.Is4()`. -/
def Addr.Is4 (ip : Addr) : Bool := ip.z == z4

/-- `ip.Is6()`. -/
def Addr.Is6 (ip : Addr) : Bool := ip.z != z0 && ip.z != z4

/-- `ip.Is4In6()`. -/
def Addr.Is4In6 (ip : Addr) : Bool :=
  ip.Is6 && ip.addr.hi == 0 && ip.addr.lo >>> 32 == 0xffff

/-- `ip.BitLen()`. -/
def Addr.BitLen (ip : Addr) : Nat :=
  if ip.z = z0 then 0 else if ip.z = z4 then 32 else 128

/-- `ip.Zone()`. -/
def Addr.Zone (ip : Addr) : GoString :=
  match ip.z with
  | none => []
  | some d => d.zoneV6

/-- `ip.Unmap()`. -/
def Addr.Unmap (ip : Addr) : Addr :=
  if ip.Is4In6 then { ip with z := z4 } else ip

/-- `ip.WithZone(zone)`. -/
def Addr.WithZone (ip : Addr) (zone : GoString) : Addr :=
  if !ip.Is6 then ip
  else if zone = [] then { ip with z := z6noz }
  else { ip with z := some { isV6 := true, zoneV6 := zone } }

/-- `ip.Compare(ip2)`. -/
def Addr.Compare (ip ip2 : Addr) : Int :=
  let f1 := ip.BitLen
  let f2 := ip2.BitLen
  if f1 < f2 then -1
  else if f1 > f2 then 1
  else
    let hi1 := ip.addr.hi
    let hi2 := ip2.addr.hi
    if hi1 < hi2 then -1
    else if hi1 > hi2 then 1
    else
      let lo1 := ip.addr.lo
      let lo2 := ip2.addr.lo
      if lo1 < lo2 then -1
      else if lo1 > lo2 then 1
      else if ip.Is6 then
        let za := ip.Zone
        let zb := ip2.Zone
        if stringLess za zb then -1
        else if stringLess zb za then 1
        else 0
      else 0

/-- `AddrFrom4([4]byte{a, b, c, d})`. -/
def AddrFrom4 (a b c d : Nat) : Addr :=
  { addr := { hi := 0, lo := 0xffff00000000 ||| a <<< 24 ||| b <<< 16 ||| c <<< 8 ||| d },
    z := z4 }

/-- `byteorder.BeUint64`: the big-endian word of eight bytes. -/
def beUint64 (b0 b1 b2 b3 b4 b5 b6 b7 : Nat) : Nat :=
  b7 ||| b6 <<< 8 ||| b5 <<< 16 ||| b4 <<< 24 ||| b3 <<< 32 ||| b2 <<< 40 ||| b1 <<< 48 |||
    b0 <<< 56

/-- `AddrFrom16(addr)` for the array `addr` of sixteen bytes, given as a list. -/
def AddrFrom16 (addr : List Nat) : Addr :=
  { addr :=
      { hi := beUint64 (addr.getD 0 0) (addr.getD 1 0) (addr.getD 2 0) (addr.getD 3 0)
          (addr.getD 4 0) (addr.getD 5 0) (addr.getD 6 0) (addr.getD 7 0),
        lo := beUint64 (addr.getD 8 0) (addr.getD 9 0) (addr.getD 10 0) (addr.getD 11 0)
          (addr.getD 12 0) (addr.getD 13 0) (addr.getD 14 0) (addr.getD 15 0) },
    z := z6noz }

/-- The values of `Addr` that the package can construct: the words fit 64 bits, the
zero handle goes with the zero word, and the IPv4 handle goes with a word of the
form `::ffff:a.b.c.d` and no zone. -/
def Addr.WF (ip : Addr) : Prop :=
  ip.addr.hi < 2 ^ 64 ∧ ip.addr.lo < 2 ^ 64 ∧
  match ip.z with
  | none => ip.addr.hi = 0 ∧ ip.addr.lo = 0
  | some d => d.isV6 = false → d.zoneV6 = [] ∧ ip.addr.hi = 0 ∧ ip.addr.lo >>> 32 = 0xffff

instance Addr.decWF (ip : Addr) : Decidable ip.WF :=
  match ip with
  | ⟨a, none⟩ =>
    inferInstanceAs (Decidable (a.hi < 2 ^ 64 ∧ a.lo < 2 ^ 64 ∧ (a.hi = 0 ∧ a.lo = 0)))
  | ⟨a, some d⟩ =>
    inferInstanceAs (Decidable (a.hi < 2 ^ 64 ∧ a.lo < 2 ^ 64 ∧
      (d.isV6 = false → d.zoneV6 = [] ∧ a.hi = 0 ∧ a.lo >>> 32 = 0xffff)))

/-- An address with a port, `netip.AddrPort`. -/
structure AddrPort where
  ip : Addr
  port : Nat
  deriving DecidableEq, Repr

/-- The zero value `AddrPort{}`. -/
def AddrPort.zero : AddrPort := { ip := Addr.zero, port := 0 }

/-- `AddrPortFrom(ip, port)`. -/
def AddrPortFrom (ip : Addr) (port : Nat) : AddrPort := { ip := ip, port := port }

/-- `p.Addr()`. -/
def AddrPort.Addr (p : AddrPort) : Addr := p.ip

/-- `p.Port()`. -/
def AddrPort.Port (p : AddrPort) : Nat := p.port

/-- The values of `AddrPort` that the package can construct. -/
def AddrPort.WF (p : AddrPort) : Prop := p.ip.WF ∧ p.port < 2 ^ 16

instance AddrPort.decWF (p : AddrPort) : Decidable p.WF :=
  inferInstanceAs (Decidable (p.ip.WF ∧ p.port < 2 ^ 16))

end netip

/-! ## `internal/bytealg` -/

/-- `bytealg.IndexByteString(s, c)`, `none` for `-1`. -/
def indexByte (s : GoString) (c : Nat) : Option Nat :=
  match s with
  | [] => none
  | x :: xs => if x = c then some 0 else (indexByte xs c).map (· + 1)

/-- `bytealg.LastIndexByteString(s, c)`, `none` for `-1`. -/
def lastIndexByte (s : GoString) (c : Nat) : Option Nat :=
  match s with
  | [] => none
  | x :: xs =>
    match lastIndexByte xs c with
    | some j => some (j + 1)
    | none => if x = c then some 0 else none

/-! ## `strconv` -/

namespace strconv

/-- Decimal digits of `n`, most significant first, as `formatBits` writes them in
base 10. The first argument bounds the number of digits. -/
def formatBits : Nat → Nat → List Nat
  | 0, _ => []
  | fuel + 1, n =>
    if n < 10 then [0x30 + n] else formatBits fuel (n / 10) ++ [0x30 + n % 10]

/-- `strconv.FormatUint(n, 10)`. -/
def FormatUint (n : Nat) : GoString := formatBits (n + 1) n

/-- `strconv.Itoa(i)`: a minus sign for a negative number, then the digits. -/
def Itoa (i : Int) : GoString :=
  if i < 0 then 0x2d :: FormatUint (-i).toNat else FormatUint i.toNat

/-- The loop of `strconv.ParseUint(s, 10, bitSize)` over the bytes of `s`, with
`n` the value read so far. `lower(c)` is `c | ('x' - 'X')`. -/
def ParseUint.loop (s0 : GoString) (cutoff maxVal : Nat) : List Nat → Nat → Nat × Option GoError
  | [], n => (n, none)
  | c :: cs, n =>
    if 0x30 ≤ c ∧ c ≤ 0x39 then
      let d := c - 0x30
      if d ≥ 10 then (0, some (GoError.numError "ParseUint" s0 "invalid syntax"))
      else if n ≥ cutoff then (maxVal, some (GoError.numError "ParseUint" s0 "value out of range"))
      else
        let n10 := n * 10 % 2 ^ 64
        let n1 := (n10 + d) % 2 ^ 64
        if n1 < n10 ∨ n1 > maxVal then
          (maxVal, some (GoError.numError "ParseUint" s0 "value out of range"))
        else ParseUint.loop s0 cutoff maxVal cs n1
    else if 0x61 ≤ (c ||| 0x20) ∧ (c ||| 0x20) ≤ 0x7a then
      let d := (c ||| 0x20) - 0x61 + 10
      if d ≥ 10 then (0, some (GoError.numError "ParseUint" s0 "invalid syntax"))
      else if n ≥ cutoff then (maxVal, some (GoError.numError "ParseUint" s0 "value out of range"))
      else
        let n10 := n * 10 % 2 ^ 64
        let n1 := (n10 + d) % 2 ^ 64
        if n1 < n10 ∨ n1 > maxVal then
          (maxVal, some (GoError.numError "ParseUint" s0 "value out of range"))
        else ParseUint.loop s0 cutoff maxVal cs n1
    else (0, some (GoError.numError "ParseUint" s0 "invalid syntax"))

/-- `strconv.ParseUint(s, 10, 16)`. -/
def ParseUint16 (s : GoString) : Nat × Option GoError :=
  if s = [] then (0, some (GoError.numError "ParseUint" s "invalid syntax"))
  else ParseUint.loop s ((2 ^ 64 - 1) / 10 + 1) (2 ^ 16 - 1) s 0

end strconv

/-! ## `net/netip`: parsing -/

namespace netip

/-- `IPv6Unspecified()`. -/
def IPv6Unspecified : Addr := { addr := { hi := 0, lo := 0 }, z := z6noz }

/-- The loop of `parseIPv4Fields` at index `i` of `s`, the bytes from `i` on being the
first list argument; at the end of `s` the last field is stored. -/
def parseIPv4Fields.loop (input s : GoString) :
    List Nat → Nat → Nat → Nat → Nat → List Nat → List Nat × Option GoError
  | [], _, val, pos, _, fields =>
    if pos < 3 then
      (fields, some (GoError.parseAddrError input "IPv4 address too short" []))
    else (fields.set 3 (val % 256), none)
  | c :: cs, i, val, pos, digLen, fields =>
    if 0x30 ≤ c ∧ c ≤ 0x39 then
      if digLen = 1 ∧ val = 0 then
        (fields, some (GoError.parseAddrError input "IPv4 field has octet with leading zero" []))
      else
        let val := val * 10 + c - 0x30
        let digLen := digLen + 1
        if val > 255 then
          (fields, some (GoError.parseAddrError input "IPv4 field has value >255" []))
        else parseIPv4Fields.loop input s cs (i + 1) val pos digLen fields
    else if c = 0x2e then
      if i = 0 ∨ i = s.length - 1 ∨ s.getD (i - 1) 0 = 0x2e then
        (fields, some (GoError.parseAddrError input "IPv4 field must have at least one digit"
          (c :: cs)))
      else if pos = 3 then
        (fields, some (GoError.parseAddrError input "IPv4 address too long" []))
      else parseIPv4Fields.loop input s cs (i + 1) 0 (pos + 1) 0 (fields.set pos (val % 256))
    else (fields, some (GoError.parseAddrError input "unexpected character" (c :: cs)))

/-- `parseIPv4Fields(in, off, end, fields)`: the fields after the call and the error. -/
def parseIPv4Fields (input : GoString) (off stop : Nat) (fields : List Nat) :
    List Nat × Option GoError :=
  let s := (input.take stop).drop off
  parseIPv4Fields.loop input s s 0 0 0 0 fields

/-- `parseIPv4(s)`. -/
def parseIPv4 (s : GoString) : Addr × Option GoError :=
  let r := parseIPv4Fields s 0 s.length [0, 0, 0, 0]
  match r.2 with
  | some err => (Addr.zero, some err)
  | none => (AddrFrom4 (r.1.getD 0 0) (r.1.getD 1 0) (r.1.getD 2 0) (r.1.getD 3 0), none)

/-- The inner loop of `parseIPv6` reading one hexadecimal group of `s`: the offset
reached and the accumulated value, from the bytes from `off` on. -/
def parseIPv6.hexLoop (input s : GoString) : List Nat → Nat → Nat → (Nat × Nat) × Option GoError
  | [], off, acc => ((off, acc), none)
  | c :: cs, off, acc =>
    let step (acc : Nat) : (Nat × Nat) × Option GoError :=
      if off > 3 then
        ((off, acc), some (GoError.parseAddrError input "each group must have 4 or less digits" s))
      else if acc > 0xffff then
        ((off, acc), some (GoError.parseAddrError input "IPv6 field has value >=2^16" s))
      else parseIPv6.hexLoop input s cs (off + 1) acc
    if 0x30 ≤ c ∧ c ≤ 0x39 then step ((acc <<< 4 + (c - 0x30)) % 2 ^ 32)
    else if 0x61 ≤ c ∧ c ≤ 0x66 then step ((acc <<< 4 + (c - 0x61 + 10)) % 2 ^ 32)
    else if 0x41 ≤ c ∧ c ≤ 0x46 then step ((acc <<< 4 + (c - 0x41 + 10)) % 2 ^ 32)
    else ((off, acc), none)

/-- The state of the main loop of `parseIPv6`. -/
structure parseIPv6.State where
  s : GoString
  i : Nat
  ellipsis : Int
  ip : List Nat
  deriving DecidableEq, Repr

/-- The main loop of `parseIPv6`, `for i < 16`: the state on leaving the loop, or the
error returned from inside it. Every round adds at least 2 to `i`, so 8 rounds are
enough; the first argument counts the rounds left. -/
def parseIPv6.loop (input zone : GoString) :
    Nat → parseIPv6.State → parseIPv6.State × Option GoError
  | 0, st => (st, none)
  | fuel + 1, st =>
    if ¬ st.i < 16 then (st, none)
    else
      let r := parseIPv6.hexLoop input st.s st.s 0 0
      match r.2 with
      | some err => (st, some err)
      | none =>
        let off := r.1.1
        let acc := r.1.2
        if off = 0 then
          (st, some (GoError.parseAddrError input
            "each colon-separated field must have at least one digit" st.s))
        else if off < st.s.length ∧ st.s.getD off 0 = 0x2e then
          if st.ellipsis < 0 ∧ st.i ≠ 12 then
            (st, some (GoError.parseAddrError input
              "embedded IPv4 address must replace the final 2 fields of the address" st.s))
          else if st.i + 4 > 16 then
            (st, some (GoError.parseAddrError input
              "too many hex fields to fit an embedded IPv4 at the end of the address" st.s))
          else
            let stop := if zone.length > 0 then input.length - (zone.length + 1) else input.length
            let r4 := parseIPv4Fields input (stop - st.s.length) stop ((st.ip.drop st.i).take 4)
            match r4.2 with
            | some err => (st, some err)
            | none =>
              ({ st with s := [], i := st.i + 4,
                         ip := st.ip.take st.i ++ r4.1 ++ st.ip.drop (st.i + 4) }, none)
        else
          let ip := (st.ip.set st.i (acc >>> 8 % 256)).set (st.i + 1) (acc % 256)
          let i := st.i + 2
          let s := st.s.drop off
          if s.length = 0 then ({ st with s := s, i := i, ip := ip }, none)
          else if s.getD 0 0 ≠ 0x3a then
            (st, some (GoError.parseAddrError input "unexpected character, want colon" s))
          else if s.length = 1 then
            (st, some (GoError.parseAddrError input
              "colon must be followed by more characters" s))
          else
            let s := s.drop 1
            if s.getD 0 0 = 0x3a then
              if st.ellipsis ≥ 0 then
                (st, some (GoError.parseAddrError input "multiple :: in address" s))
              else
                let s := s.drop 1
                if s.length = 0 then ({ s := s, i := i, ellipsis := i, ip := ip }, none)
                else parseIPv6.loop input zone fuel { s := s, i := i, ellipsis := i, ip := ip }
            else parseIPv6.loop input zone fuel { st with s := s, i := i, ip := ip }

/-- The state of `parseIPv6` on entering the main loop: a leading `::` is the
ellipsis at position 0 and is skipped. -/
def parseIPv6.start (s : GoString) : parseIPv6.State :=
  if s.length ≥ 2 ∧ s.getD 0 0 = 0x3a ∧ s.getD 1 0 = 0x3a then
    { s := s.drop 2, i := 0, ellipsis := 0, ip := List.replicate 16 0 }
  else { s := s, i := 0, ellipsis := -1, ip := List.replicate 16 0 }

/-- The part of `parseIPv6` after the main loop. The expansion of the ellipsis moves
the `i - ellipsis` bytes after it to the end of the sixteen and clears the gap. -/
def parseIPv6.finish (input zone : GoString) (st : parseIPv6.State) : Addr × Option GoError :=
  if st.s.length ≠ 0 then
    (Addr.zero, some (GoError.parseAddrError input "trailing garbage after address" st.s))
  else if st.i < 16 then
    if st.ellipsis < 0 then
      (Addr.zero, some (GoError.parseAddrError input "address string too short" []))
    else
      let e := st.ellipsis.toNat
      let n := 16 - st.i
      let ip := st.ip.take e ++ List.replicate n 0 ++ (st.ip.drop e).take (st.i - e)
      ((AddrFrom16 ip).WithZone zone, none)
  else if st.ellipsis ≥ 0 then
    (Addr.zero, some (GoError.parseAddrError input
      "the :: must expand to at least one field of zeros" []))
  else ((AddrFrom16 st.ip).WithZone zone, none)

/-- The part of `parseIPv6` after the zone is split off: `s` is the address text and
`zone` the zone. -/
def parseIPv6.run (input s zone : GoString) : Addr × Option GoError :=
  let st0 := parseIPv6.start s
  if st0.ellipsis = 0 ∧ st0.s.length = 0 then (IPv6Unspecified.WithZone zone, none)
  else
    let r := parseIPv6.loop input zone 8 st0
    match r.2 with
    | some err => (Addr.zero, some err)
    | none => parseIPv6.finish input zone r.1

/-- `parseIPv6(in)`. -/
def parseIPv6 (input : GoString) : Addr × Option GoError :=
  match indexByte input 0x25 with
  | some k =>
    let zone := input.drop (k + 1)
    if zone = [] then
      (Addr.zero, some (GoError.parseAddrError input "zone must be a non-empty string" []))
    else parseIPv6.run input (input.take k) zone
  | none => parseIPv6.run input input []

/-- The loop of `ParseAddr` looking for the first `.`, `:` or `%` of `s`. -/
def ParseAddr.scan (s : GoString) : List Nat → Addr × Option GoError
  | [] => (Addr.zero, some (GoError.parseAddrError s "unable to parse IP" []))
  | c :: cs =>
    if c = 0x2e then parseIPv4 s
    else if c = 0x3a then parseIPv6 s
    else if c = 0x25 then
      (Addr.zero, some (GoError.parseAddrError s "missing IPv6 address" []))
    else ParseAddr.scan s cs

/-- `netip.ParseAddr(s)`. -/
def ParseAddr (s : GoString) : Addr × Option GoError := ParseAddr.scan s s

/-- `splitAddrPort(s)`: `ip`, `port`, `v6` and the error. -/
def splitAddrPort (s : GoString) : (GoString × GoString × Bool) × Option GoError :=
  match lastIndexByte s 0x3a with
  | none => (([], [], false), some (GoError.errorsNew "not an ip:port"))
  | some i =>
    let ip := s.take i
    let port := s.drop (i + 1)
    if ip.length = 0 then (([], [], false), some (GoError.errorsNew "no IP"))
    else if port.length = 0 then (([], [], false), some (GoError.errorsNew "no port"))
    else if ip.getD 0 0 = 0x5b then
      if ip.length < 2 ∨ ip.getD (ip.length - 1) 0 ≠ 0x5d then
        (([], [], false), some (GoError.errorsNew "missing ]"))
      else (((ip.take (ip.length - 1)).drop 1, port, true), none)
    else ((ip, port, false), none)

/-- `netip.ParseAddrPort(s)`. -/
def ParseAddrPort (s : GoString) : AddrPort × Option GoError :=
  let r := splitAddrPort s
  match r.2 with
  | some err => (AddrPort.zero, some err)
  | none =>
    let ip := r.1.1
    let port := r.1.2.1
    let v6 := r.1.2.2
    let p16 := strconv.ParseUint16 port
    match p16.2 with
    | some _ => (AddrPort.zero, some (GoError.errorsNewQuoted "invalid port" [port, s]))
    | none =>
      let a := ParseAddr ip
      match a.2 with
      | some err => (AddrPort.zero, some err)
      | none =>
        if v6 ∧ a.1.Is4 then
          (AddrPort.zero, some (GoError.errorsNewQuoted
            "invalid ip:port, square brackets can only be used with IPv6 addresses" [s]))
        else if ¬ v6 ∧ a.1.Is6 then
          (AddrPort.zero, some (GoError.errorsNewQuoted
            "invalid ip:port, IPv6 addresses must be surrounded by square brackets" [s]))
        else ({ ip := a.1, port := p16.1 % 2 ^ 16 }, none)

end netip

/-! ## `encoding/hex` -/

namespace hex

/-- The constant `hextable = "0123456789abcdef"`, indexed. -/
def hextable (i : Nat) : Nat := (str "0123456789abcdef").getD i 0

/-- The 256-entry constant `reverseHexTable`, indexed: the value of a hexadecimal
digit, and `0xff` for every other byte. -/
def reverseHexTable (c : Nat) : Nat :=
  if 0x30 ≤ c ∧ c ≤ 0x39 then c - 0x30
  else if 0x41 ≤ c ∧ c ≤ 0x46 then c - 0x41 + 10
  else if 0x61 ≤ c ∧ c ≤ 0x66 then c - 0x61 + 10
  else 0xff

/-- `hex.Encode` through `hex.EncodeToString(src)`: two digits for each byte. -/
def EncodeToString : List Nat → GoString
  | [] => []
  | v :: rest => hextable (v >>> 4) :: hextable (v &&& 0x0f) :: EncodeToString rest

/-- `hex.Decode(dst, src)`: the bytes written to `dst` (that is `dst[:i]`) and the
error. The loop reads `src` two bytes at a time; an odd trailing byte is checked
for validity before the length error is reported. -/
def Decode : List Nat → List Nat × Option GoError
  | [] => ([], none)
  | [p] =>
    if reverseHexTable p > 0x0f then ([], some (GoError.hexInvalidByte p))
    else ([], some GoError.hexErrLength)
  | p :: q :: rest =>
    let a := reverseHexTable p
    let b := reverseHexTable q
    if a > 0x0f then ([], some (GoError.hexInvalidByte p))
    else if b > 0x0f then ([], some (GoError.hexInvalidByte q))
    else
      let r := Decode rest
      ((a <<< 4 ||| b) :: r.1, r.2)

/-- `hex.DecodeString(s)`: returns `dst[:n], err`. -/
def DecodeString (s : GoString) : List Nat × Option GoError := Decode s

end hex

/-! ## `net/netip`: text form -/

namespace netip

/-- The constant `digits = "0123456789abcdef"`, indexed. -/
def digits (i : Nat) : Nat := (str "0123456789abcdef").getD i 0

/-- `ip.v4(i)`: byte `i` of an IPv4 address. -/
def Addr.v4 (ip : Addr) (i : Nat) : Nat := ip.addr.lo >>> ((3 - i) * 8) % 256

/-- `ip.v6u16(i)`: 16-bit group `i` of an IPv6 address. -/
def Addr.v6u16 (ip : Addr) (i : Nat) : Nat :=
  (if i / 4 % 2 = 0 then ip.addr.hi else ip.addr.lo) >>> ((3 - i % 4) * 16) % 2 ^ 16

/-- `appendDecimal(b, x)`. -/
def appendDecimal (b : List Nat) (x : Nat) : List Nat :=
  let b := if x ≥ 100 then b ++ [digits (x / 100)] else b
  let b := if x ≥ 10 then b ++ [digits (x / 10 % 10)] else b
  b ++ [digits (x % 10)]

/-- `appendHex(b, x)`. -/
def appendHex (b : List Nat) (x : Nat) : List Nat :=
  let b := if x ≥ 0x1000 then b ++ [digits (x >>> 12)] else b
  let b := if x ≥ 0x100 then b ++ [digits (x >>> 8 &&& 0xf)] else b
  let b := if x ≥ 0x10 then b ++ [digits (x >>> 4 &&& 0xf)] else b
  b ++ [digits (x &&& 0xf)]

/-- `ip.appendTo4(ret)`. -/
def Addr.appendTo4 (ip : Addr) (ret : List Nat) : List Nat :=
  let ret := appendDecimal ret (ip.v4 0)
  let ret := ret ++ [0x2e]
  let ret := appendDecimal ret (ip.v4 1)
  let ret := ret ++ [0x2e]
  let ret := appendDecimal ret (ip.v4 2)
  let ret := ret ++ [0x2e]
  appendDecimal ret (ip.v4 3)

/-- `ip.string4()`. -/
def Addr.string4 (ip : Addr) : GoString := ip.appendTo4 []

/-- The inner loop of `appendTo6`, `for j < 8 && ip.v6u16(j) == 0 { j++ }`. -/
def Addr.zeroRun (ip : Addr) : Nat → Nat → Nat
  | 0, j => j
  | fuel + 1, j => if j < 8 ∧ ip.v6u16 j = 0 then Addr.zeroRun ip fuel (j + 1) else j

/-- The first loop of `appendTo6`: the longest run of at least two zero groups, as
`(zeroStart, zeroEnd)`, both 255 when there is none. -/
def Addr.zeroSpan (ip : Addr) : Nat × Nat :=
  (List.range 8).foldl
    (fun (z : Nat × Nat) i =>
      let j := ip.zeroRun 8 i
      let l := j - i
      if l ≥ 2 ∧ l > z.2 - z.1 then (i, j) else z)
    (255, 255)

/-- The second loop of `appendTo6`, `for i < 8`. The loop variable grows in every
round, so 8 rounds are enough; the first argument counts the rounds left. -/
def Addr.appendTo6.loop (ip : Addr) (zeroStart zeroEnd : Nat) : Nat → Nat → List Nat → List Nat
  | 0, _, ret => ret
  | fuel + 1, i, ret =>
    if ¬ i < 8 then ret
    else if i = zeroStart then
      let ret := ret ++ [0x3a, 0x3a]
      let i := zeroEnd
      if i ≥ 8 then ret
      else Addr.appendTo6.loop ip zeroStart zeroEnd fuel (i + 1) (appendHex ret (ip.v6u16 i))
    else
      let ret := if i > 0 then ret ++ [0x3a] else ret
      Addr.appendTo6.loop ip zeroStart zeroEnd fuel (i + 1) (appendHex ret (ip.v6u16 i))

/-- `ip.appendTo6(ret)`. -/
def Addr.appendTo6 (ip : Addr) (ret : List Nat) : List Nat :=
  let z := ip.zeroSpan
  let ret := Addr.appendTo6.loop ip z.1 z.2 8 0 ret
  if ip.z ≠ z6noz then ret ++ [0x25] ++ ip.Zone else ret

/-- `ip.string6()`. -/
def Addr.string6 (ip : Addr) : GoString := ip.appendTo6 []

/-- `ip.appendTo4In6(ret)`. -/
def Addr.appendTo4In6 (ip : Addr) (ret : List Nat) : List Nat :=
  let ret := ret ++ str "::ffff:"
  let ret := ip.Unmap.appendTo4 ret
  if ip.z ≠ z6noz then ret ++ [0x25] ++ ip.Zone else ret

/-- `ip.string4In6()`. -/
def Addr.string4In6 (ip : Addr) : GoString := ip.appendTo4In6 []

/-- `ip.String()`. -/
def Addr.String (ip : Addr) : GoString :=
  if ip.z = z0 then str "invalid IP"
  else if ip.z = z4 then ip.string4
  else if ip.Is4In6 then ip.string4In6
  else ip.string6

/-- `p.String()`. -/
def AddrPort.String (p : AddrPort) : GoString :=
  if p.ip.z = z0 then str "invalid AddrPort"
  else if p.ip.z = z4 then p.ip.appendTo4 [] ++ [0x3a] ++ strconv.FormatUint p.port
  else if p.ip.Is4In6 then
    p.ip.appendTo4In6 [0x5b] ++ [0x5d] ++ [0x3a] ++ strconv.FormatUint p.port
  else p.ip.appendTo6 [0x5b] ++ [0x5d] ++ [0x3a] ++ strconv.FormatUint p.port

/-- `byteorder.BePutUint64`: the eight bytes of a word, most significant first. -/
def bePutUint64 (v : Nat) : List Nat :=
  [v >>> 56 % 256, v >>> 48 % 256, v >>> 40 % 256, v >>> 32 % 256,
   v >>> 24 % 256, v >>> 16 % 256, v >>> 8 % 256, v % 256]

/-- `ip.As16()`. -/
def Addr.As16 (ip : Addr) : List Nat := bePutUint64 ip.addr.hi ++ bePutUint64 ip.addr.lo

/-- `ip.AsSlice()`, the nil slice being `[]`. -/
def Addr.AsSlice (ip : Addr) : List Nat :=
  if ip.z = z0 then []
  else if ip.z = z4 then
    [ip.addr.lo >>> 24 % 256, ip.addr.lo >>> 16 % 256, ip.addr.lo >>> 8 % 256, ip.addr.lo % 256]
  else bePutUint64 ip.addr.hi ++ bePutUint64 ip.addr.lo

end netip

/-! ## The operating system -/

/-- A Go call returns, or panics, or is stopped together with the process by a fatal
error of the runtime (`fatal error: out of memory`), which is not a panic and cannot
be recovered. -/
inductive Outcome (α : Type) where
  | returns (v : α)
  | panics
  | aborts
  deriving DecidableEq, Repr

namespace net

/-- An IP address as a byte slice, `net.IP`; the nil slice is `[]`. -/
abbrev IP := List Nat

/-- The address `net.IPAddr{IP, Zone}`. -/
structure IPAddr where
  IP : IP
  Zone : GoString
  deriving DecidableEq, Repr

/-- The address `net.UDPAddr{IP, Port, Zone}`. -/
structure UDPAddr where
  IP : IP
  Port : Int
  Zone : GoString
  deriving DecidableEq, Repr

end net

/-- What the functions obtain from the operating system. -/
structure Env where
  /-- The function `net.LookupIP(host)`. -/
  LookupIP : GoString → List net.IP × Option GoError
  /-- The name lookup of the resolver for a host that is not a literal address. -/
  lookupHost : GoString → List net.IPAddr × Option GoError
  /-- The service lookup of the resolver for a port that is not a number. -/
  lookupPort : GoString → Int × Option GoError
  /-- The bytes the entropy source supplies to a read of the given length, and its
  error. -/
  entropy : Nat → List Nat × Option GoError
  /-- The size in bytes of the largest large object that the operating system still
  has memory for. -/
  memory : Nat

/-! ## `net` -/

namespace net

/-- `net.JoinHostPort(host, port)`. -/
def JoinHostPort (host port : GoString) : GoString :=
  if (indexByte host 0x3a).isSome then [0x5b] ++ host ++ [0x5d, 0x3a] ++ port
  else host ++ [0x3a] ++ port

/-- The last checks of `net.SplitHostPort`, for brackets after positions `j` and `k`. -/
def SplitHostPort.finish (hostport host : GoString) (i j k : Nat) :
    (GoString × GoString) × Option GoError :=
  if (indexByte (hostport.drop j) 0x5b).isSome then
    (([], []), some (GoError.addrError "unexpected '[' in address" hostport))
  else if (indexByte (hostport.drop k) 0x5d).isSome then
    (([], []), some (GoError.addrError "unexpected ']' in address" hostport))
  else ((host, hostport.drop (i + 1)), none)

/-- `net.SplitHostPort(hostport)`: `host`, `port` and the error. -/
def SplitHostPort (hostport : GoString) : (GoString × GoString) × Option GoError :=
  match lastIndexByte hostport 0x3a with
  | none => (([], []), some (GoError.addrError "missing port in address" hostport))
  | some i =>
    if hostport.getD 0 0 = 0x5b then
      match indexByte hostport 0x5d with
      | none => (([], []), some (GoError.addrError "missing ']' in address" hostport))
      | some e =>
        if e + 1 = hostport.length then
          (([], []), some (GoError.addrError "missing port in address" hostport))
        else if e + 1 = i then
          SplitHostPort.finish hostport ((hostport.take e).drop 1) i 1 (e + 1)
        else if hostport.getD (e + 1) 0 = 0x3a then
          (([], []), some (GoError.addrError "too many colons in address" hostport))
        else (([], []), some (GoError.addrError "missing port in address" hostport))
    else
      let host := hostport.take i
      if (indexByte host 0x3a).isSome then
        (([], []), some (GoError.addrError "too many colons in address" hostport))
      else SplitHostPort.finish hostport host i 0 0

/-- The loop of `parsePort` over the digits: the value `n`, or `none` when a byte
that is no digit asks for a lookup. -/
def parsePort.loop : List Nat → Nat → Option Nat
  | [], n => some n
  | d :: ds, n =>
    if 0x30 ≤ d ∧ d ≤ 0x39 then
      let d := d - 0x30
      if n ≥ 2 ^ 30 then some (2 ^ 32 - 1)
      else
        let n10 := n * 10 % 2 ^ 32
        let nn := (n10 + d) % 2 ^ 32
        if nn < n10 ∨ nn > 2 ^ 32 - 1 then some (2 ^ 32 - 1)
        else parsePort.loop ds nn
    else none

/-- `parsePort(service)`: `port` and `needsLookup`. -/
def parsePort (service : GoString) : Int × Bool :=
  match service with
  | [] => (0, false)
  | c :: rest =>
    let neg := decide (c ≠ 0x2b ∧ c = 0x2d)
    let service := if c = 0x2b then rest else if c = 0x2d then rest else c :: rest
    match parsePort.loop service 0 with
    | none => (0, true)
    | some n =>
      let port : Int :=
        if ¬ neg ∧ n ≥ 2 ^ 30 then 2 ^ 30 - 1
        else if neg ∧ n > 2 ^ 30 then 2 ^ 30
        else n
      (if neg then -port else port, false)

/-- `(*Resolver).LookupPort(ctx, "udp", service)`. -/
def LookupPort (env : Env) (service : GoString) : Int × Option GoError :=
  let r := parsePort service
  let looked : Int × Option GoError := if r.2 then env.lookupPort service else (r.1, none)
  match looked.2 with
  | some err => (0, some err)
  | none =>
    if 0 > looked.1 ∨ looked.1 > 65535 then
      (0, some (GoError.addrError "invalid port" service))
    else (looked.1, none)

/-- `ip.To4()`, the nil slice being `[]`. -/
def IP.To4 (ip : IP) : IP :=
  if ip.length = 4 then ip
  else if ip.length = 16 ∧ (ip.take 10).all (· == 0) ∧ ip.getD 10 0 = 0xff ∧
      ip.getD 11 0 = 0xff then ip.drop 12
  else []

/-- `net.IPv4(a, b, c, d)`: the 16-byte form of an IPv4 address. -/
def IPv4 (a b c d : Nat) : IP := [0, 0, 0, 0, 0, 0, 0, 0, 0, 0, 0xff, 0xff, a, b, c, d]

/-- `ip.To16()`, the nil slice being `[]`. -/
def IP.To16 (ip : IP) : IP :=
  if ip.length = 4 then IPv4 (ip.getD 0 0) (ip.getD 1 0) (ip.getD 2 0) (ip.getD 3 0)
  else if ip.length = 16 then ip
  else []

/-- `ip.Equal(x)`. -/
def IP.Equal (ip x : IP) : Bool :=
  if ip.length = x.length then ip == x
  else if ip.length = 4 ∧ x.length = 16 then
    x.take 12 == [0, 0, 0, 0, 0, 0, 0, 0, 0, 0, 0xff, 0xff] && ip == x.drop 12
  else if ip.length = 16 ∧ x.length = 4 then
    ip.take 12 == [0, 0, 0, 0, 0, 0, 0, 0, 0, 0, 0xff, 0xff] && ip.drop 12 == x
  else false

/-- `ip.String()`. -/
def IP.String (ip : IP) : GoString :=
  if ip.length = 0 then str "<nil>"
  else if ip.length ≠ 4 ∧ ip.length ≠ 16 then 0x3f :: hex.EncodeToString ip
  else if ip.To4.length = 4 then
    (netip.AddrFrom4 (ip.To4.getD 0 0) (ip.To4.getD 1 0) (ip.To4.getD 2 0)
      (ip.To4.getD 3 0)).String
  else (netip.AddrFrom16 ip).String

/-- `net.ParseIP(s)`, `none` for the nil result. -/
def ParseIP (s : GoString) : Option IP :=
  let r := netip.ParseAddr s
  if r.2.isSome ∨ r.1.Zone ≠ [] then none else some r.1.As16

/-- `(*Resolver).lookupIPAddr(ctx, "udp", host)`: a literal address is returned
without a lookup. -/
def lookupIPAddr (env : Env) (host : GoString) : List IPAddr × Option GoError :=
  if host = [] then ([], some (GoError.dnsError "no such host" host))
  else
    let r := netip.ParseAddr host
    match r.2 with
    | none => ([{ IP := IP.To16 r.1.AsSlice, Zone := r.1.Zone }], none)
    | some _ => env.lookupHost host

/-- `(*Resolver).internetAddrList(ctx, "udp", addr)`. -/
def internetAddrList (env : Env) (addr : GoString) : List UDPAddr × Option GoError :=
  let split : (GoString × GoString) × Option GoError :=
    if addr ≠ [] then SplitHostPort addr else (([], []), none)
  match split.2 with
  | some err => ([], some err)
  | none =>
    let host := split.1.1
    let port : Int × Option GoError := if addr ≠ [] then LookupPort env split.1.2 else (0, none)
    match port.2 with
    | some err => ([], some err)
    | none =>
      let portnum := port.1
      let inetaddr (ip : IPAddr) : UDPAddr := { IP := ip.IP, Port := portnum, Zone := ip.Zone }
      if host = [] then ([inetaddr { IP := [], Zone := [] }], none)
      else
        let r := lookupIPAddr env host
        match r.2 with
        | some err => ([], some err)
        | none =>
          let ips :=
            if r.1.length = 1 ∧ (r.1.map (fun a => a.IP.Equal (List.replicate 16 0))) = [true]
            then r.1 ++ [{ IP := IPv4 0 0 0 0, Zone := [] }]
            else r.1
          let addrs := ips.map inetaddr
          if addrs.length = 0 then
            ([], some (GoError.addrError "no suitable address found" host))
          else (addrs, none)

/-- `isIPv4(addr)` for a `*UDPAddr`. -/
def isIPv4 (a : UDPAddr) : Bool := a.IP.To4.length ≠ 0

/-- `addrs.first(strategy)`; `none` stands for the panic of `addrs[0]` on an empty
list. -/
def first (addrs : List UDPAddr) (strategy : UDPAddr → Bool) : Option UDPAddr :=
  match addrs.find? strategy with
  | some a => some a
  | none => addrs.head?

/-- `addrs.forResolve("udp", addr)`. -/
def forResolve (addrs : List UDPAddr) (addr : GoString) : Option UDPAddr :=
  let want6 := (indexByte addr 0x5b).isSome
  if want6 then first addrs (fun a => !isIPv4 a) else first addrs isIPv4

/-- `net.ResolveUDPAddr("udp", address)`. -/
def ResolveUDPAddr (env : Env) (address : GoString) : Option UDPAddr × Option GoError :=
  let r := internetAddrList env address
  match r.2 with
  | some err => (none, some err)
  | none => (forResolve r.1 address, none)

/-- `a.String()` for a non-nil `*UDPAddr`. -/
def UDPAddr.String (a : UDPAddr) : GoString :=
  let ip := if a.IP.length = 0 then [] else IP.String a.IP
  if a.Zone ≠ [] then JoinHostPort (ip ++ [0x25] ++ a.Zone) (strconv.Itoa a.Port)
  else JoinHostPort ip (strconv.Itoa a.Port)

end net

/-! ## `crypto/sha1` and `crypto/rand` -/

namespace sha1

/-- The state of a hash in progress, `sha1.digest`: the five words of `h`, the
pending bytes `x[:nx]` and the number of bytes written. -/
structure digest where
  h0 : Nat
  h1 : Nat
  h2 : Nat
  h3 : Nat
  h4 : Nat
  x : List Nat
  len : Nat
  deriving DecidableEq, Repr

/-- `sha1.New()`, that is `Reset` on a fresh digest. -/
def New : digest :=
  { h0 := 0x67452301, h1 := 0xEFCDAB89, h2 := 0x98BADCFE, h3 := 0x10325476, h4 := 0xC3D2E1F0,
    x := [], len := 0 }

/-- `bits.RotateLeft32(x, k)`. -/
def rotateLeft32 (x k : Nat) : Nat := (x <<< k ||| x >>> (32 - k)) % 2 ^ 32

/-- The working variables of one block: the sixteen-word window `w` and `a` to `e`. -/
structure vars where
  w : List Nat
  a : Nat
  b : Nat
  c : Nat
  d : Nat
  e : Nat

/-- Round `i` of `blockGeneric`, one of eighty. -/
def round (v : vars) (i : Nat) : vars :=
  let w :=
    if i ≥ 16 then
      let tmp := v.w.getD ((i - 3) &&& 0xf) 0 ^^^ v.w.getD ((i - 8) &&& 0xf) 0 ^^^
        v.w.getD ((i - 14) &&& 0xf) 0 ^^^ v.w.getD (i &&& 0xf) 0
      v.w.set (i &&& 0xf) (rotateLeft32 tmp 1)
    else v.w
  let f :=
    if i < 20 then v.b &&& v.c ||| (v.b ^^^ 0xffffffff) &&& v.d
    else if i < 40 then v.b ^^^ v.c ^^^ v.d
    else if i < 60 then (v.b ||| v.c) &&& v.d ||| v.b &&& v.c
    else v.b ^^^ v.c ^^^ v.d
  let k :=
    if i < 20 then 0x5A827999
    else if i < 40 then 0x6ED9EBA1
    else if i < 60 then 0x8F1BBCDC
    else 0xCA62C1D6
  let t := (rotateLeft32 v.a 5 + f + v.e + w.getD (i &&& 0xf) 0 + k) % 2 ^ 32
  { w := w, a := t, b := v.a, c := rotateLeft32 v.b 30, d := v.c, e := v.d }

/-- The sixteen big-endian words of a 64-byte chunk. -/
def words : Nat → List Nat → List Nat
  | 0, _ => []
  | n + 1, p =>
    (p.getD 0 0 <<< 24 ||| p.getD 1 0 <<< 16 ||| p.getD 2 0 <<< 8 ||| p.getD 3 0) ::
      words n (p.drop 4)

/-- One pass of the loop of `blockGeneric` over a 64-byte chunk. -/
def blockOne (d : digest) (p : List Nat) : digest :=
  let v := (List.range 80).foldl round
    { w := words 16 p, a := d.h0, b := d.h1, c := d.h2, d := d.h3, e := d.h4 }
  { d with h0 := (d.h0 + v.a) % 2 ^ 32, h1 := (d.h1 + v.b) % 2 ^ 32,
           h2 := (d.h2 + v.c) % 2 ^ 32, h3 := (d.h3 + v.d) % 2 ^ 32,
           h4 := (d.h4 + v.e) % 2 ^ 32 }

/-- `blockGeneric(dig, p)`: `for len(p) >= chunk`, at most `len(p)` rounds. -/
def block : Nat → digest → List Nat → digest
  | 0, d, _ => d
  | fuel + 1, d, p => if p.length ≥ 64 then block fuel (blockOne d (p.take 64)) (p.drop 64) else d

/-- `d.Write(p)`. -/
def digest.Write (d : digest) (p : List Nat) : digest :=
  let d := { d with len := (d.len + p.length) % 2 ^ 64 }
  let r : digest × List Nat :=
    if d.x.length > 0 then
      let n := min (64 - d.x.length) p.length
      let x := d.x ++ p.take n
      if x.length = 64 then ({ block 1 d x with x := [] }, p.drop n)
      else ({ d with x := x }, p.drop n)
    else (d, p)
  let d := r.1
  let p := r.2
  let r : digest × List Nat :=
    if p.length ≥ 64 then
      let n := p.length / 64 * 64
      (block n d (p.take n), p.drop n)
    else (d, p)
  let d := r.1
  let p := r.2
  if p.length > 0 then { d with x := p } else d

/-- `byteorder.BePutUint32`: the four bytes of a word, most significant first. -/
def bePutUint32 (v : Nat) : List Nat := [v >>> 24 % 256, v >>> 16 % 256, v >>> 8 % 256, v % 256]

/-- `d.checkSum()`: the padding, the length in bits, and the five words as bytes. -/
def digest.checkSum (d : digest) : List Nat :=
  let len := d.len
  let t := if len % 64 < 56 then 56 - len % 64 else 64 + 56 - len % 64
  let padlen := (0x80 :: List.replicate (t - 1) 0) ++ netip.bePutUint64 (len <<< 3 % 2 ^ 64)
  let d := d.Write padlen
  bePutUint32 d.h0 ++ bePutUint32 d.h1 ++ bePutUint32 d.h2 ++ bePutUint32 d.h3 ++
    bePutUint32 d.h4

/-- `d.Sum(nil)`. -/
def digest.Sum (d : digest) : List Nat := d.checkSum

end sha1

namespace rand

/-- The buffer after a read: the supplied bytes overwrite it from the start. -/
def fill : List Nat → List Nat → List Nat
  | [], _ => []
  | b :: bs, [] => b :: bs
  | _ :: bs, x :: xs => x % 256 :: fill bs xs

/-- `rand.Read(b)`: the buffer after the call and the error. -/
def Read (env : Env) (b : List Nat) : List Nat × Option GoError :=
  let r := env.entropy b.length
  (fill b r.1, r.2)

end rand

/-! ## `runtime`: the allocation of a byte slice -/

namespace runtime

/-- `runtime.maxAlloc`, the largest size of an allocation, on a 64-bit platform such as
linux/amd64: `1 << heapAddrBits` with `heapAddrBits = 48`. -/
def maxAlloc : Nat := 2 ^ 48

/-- `maxSmallSize - mallocHeaderSize`: an object of at most this size is a small object
of the allocator, a larger one is a large object that `mallocgc` obtains through
`allocLarge`. -/
def maxSmallObject : Nat := 32768 - 8

/-- `make([]byte, n)`, compiled to `runtime.makeslice`: the zeroed slice of `n` bytes.
`makeslice` panics with `makeslice: len out of range` for a negative `n` and for
`n > maxAlloc`. A large object that the operating system has no memory for stops the
process with `fatal error: out of memory`. Small objects are taken to fit: that memory
runs out on them is not modelled, here as where strings and slices are built. -/
def makeslice (env : Env) (n : Int) : Outcome (List Nat) :=
  if n < 0 ∨ n > (maxAlloc : Int) then Outcome.panics
  else if n.toNat > maxSmallObject ∧ n.toNat > env.memory then Outcome.aborts
  else Outcome.returns (List.replicate n.toNat 0)

end runtime

/-! ## `utils.go` -/

/-- `CreateUDPAddr(host, port)`. -/
def CreateUDPAddr (env : Env) (host : GoString) (port : Int) :
    Option net.UDPAddr × Option GoError :=
  if host.length = 0 then
    (none, some (GoError.errorsNew "Invalid host"))
  else if port ≤ 0 ∨ port > 65535 then
    (none, some (GoError.errorsNew "Invalid port"))
  else
    net.ResolveUDPAddr env (net.JoinHostPort host (strconv.Itoa port))

/-- `CreateAddrPort(host, port)`. The index `ip[0]` panics on an empty list. -/
def CreateAddrPort (env : Env) (host : GoString) (port : Int) :
    Outcome (netip.AddrPort × Option GoError) :=
  let addrPort := netip.AddrPort.zero
  if host.length = 0 then
    Outcome.returns (addrPort, some (GoError.errorsNew "Invalid host"))
  else if port ≤ 0 ∨ port > 65535 then
    Outcome.returns (addrPort, some (GoError.errorsNew "Invalid port"))
  else if (net.ParseIP host).isNone then
    let r := env.LookupIP host
    match r.2 with
    | some err => Outcome.returns (addrPort, some err)
    | none =>
      match r.1 with
      | [] => Outcome.panics
      | ip0 :: _ =>
        Outcome.returns
          (netip.ParseAddrPort (net.JoinHostPort (net.IP.String ip0) (strconv.Itoa port)))
  else
    Outcome.returns (netip.ParseAddrPort (net.JoinHostPort host (strconv.Itoa port)))

/-- `CompareAddrPorts(a, b)`. -/
def CompareAddrPorts (a b : netip.AddrPort) : Bool :=
  if a.Addr.Unmap.Compare b.Addr.Unmap == 0 && a.Port == b.Port then
    true
  else
    false

/-- `DecodeId(id)`. -/
def DecodeId (id : GoString) : Option (List Nat) × Option GoError :=
  if id.length = 0 then
    (none, some (GoError.errorsNew "Invalid ID"))
  else
    let r := hex.DecodeString id
    match r.2 with
    | some err => (none, some err)
    | none => (some r.1, none)

/-- `GenerateRandomBytes(n)`; `n` is a Go `int`, and every integer outside the range of
`int` is among those for which `make` panics. -/
def GenerateRandomBytes (env : Env) (n : Int) : Outcome (Option (List Nat) × Option GoError) :=
  match runtime.makeslice env n with
  | Outcome.panics => Outcome.panics
  | Outcome.aborts => Outcome.aborts
  | Outcome.returns b =>
    let r := rand.Read env b
    match r.2 with
    | some err => Outcome.returns (none, some err)
    | none => Outcome.returns (some r.1, none)

/-- `GenerateId()`. -/
def GenerateId (env : Env) : Outcome (Option (List Nat) × Option GoError) :=
  match GenerateRandomBytes env 20 with
  | Outcome.panics => Outcome.panics
  | Outcome.aborts => Outcome.aborts
  | Outcome.returns (_, some err) => Outcome.returns (none, some err)
  | Outcome.returns (b, none) =>
    let h := sha1.New
    let h := h.Write (b.getD [])
    Outcome.returns (some h.Sum, none)

/-! ## Two operating systems for concrete runs -/

/-- An operating system whose resolver and entropy source fail on every request. -/
def Env.offline : Env :=
  { LookupIP := fun _ => ([], some (GoError.external 1)),
    lookupHost := fun _ => ([], some (GoError.external 1)),
    lookupPort := fun _ => (0, some (GoError.external 2)),
    entropy := fun _ => ([], some (GoError.external 3)),
    memory := 2 ^ 20 }

/-- An operating system whose entropy source supplies the bytes `0, 1, 2, ...` and
whose resolver fails on every request. -/
def Env.counting : Env :=
  { Env.offline with entropy := fun n => (List.range n, none) }

/-- An operating system whose resolver answers every name with `127.0.0.1` and whose
entropy source fails. -/
def Env.localhost : Env :=
  { Env.offline with LookupIP := fun _ => ([[127, 0, 0, 1]], none) }

/-- An operating system whose resolver answers every name with an empty list and no
error. -/
def Env.emptyAnswer : Env :=
  { Env.offline with LookupIP := fun _ => ([], none) }

/-! ## Predicates of the statements -/

/-- The byte is a hexadecimal digit: one of `0-9`, `a-f`, `A-F`. -/
def isHexDigit (c : Nat) : Bool :=
  (0x30 ≤ c && c ≤ 0x39) || (0x61 ≤ c && c ≤ 0x66) || (0x41 ≤ c && c ≤ 0x46)

namespace netip

/-- A byte of an IPv4 literal: a decimal digit or the dot. -/
def isV4Byte (c : Nat) : Prop := (0x30 ≤ c ∧ c ≤ 0x39) ∨ c = 0x2e

/-- A byte of an IPv6 literal without zone: a hex digit, the colon or the dot. -/
def isV6Byte (c : Nat) : Prop := isHexDigit c = true ∨ c = 0x3a ∨ c = 0x2e

end netip

/-- The error is one of the two errors of `encoding/hex`. -/
def GoError.isHexError : GoError → Bool
  | GoError.hexInvalidByte _ => true
  | GoError.hexErrLength => true
  | _ => false

/-- The value `hexval` of the statements: `0-9`, `a-f` and `A-F` go to 0..15. -/
def hexval (c : Nat) : Nat :=
  if 0x30 ≤ c ∧ c ≤ 0x39 then c - 0x30
  else if 0x61 ≤ c ∧ c ≤ 0x66 then c - 0x61 + 10
  else if 0x41 ≤ c ∧ c ≤ 0x46 then c - 0x41 + 10
  else 0

/-- The byte with an ASCII capital letter `A-Z` replaced by its small letter. -/
def asciiLower (c : Nat) : Nat := if 0x41 ≤ c ∧ c ≤ 0x5a then c + 0x20 else c

/-- The text of the groups `gs` in lower-case hexadecimal, each preceded by a colon. -/
def netip.colonHex : List Nat → GoString
  | [] => []
  | g :: gs => 0x3a :: (netip.appendHex [] g ++ netip.colonHex gs)

/-- The text of the groups `gs` in lower-case hexadecimal, separated by colons. -/
def netip.joinHex : List Nat → GoString
  | [] => []
  | g :: gs => netip.appendHex [] g ++ netip.colonHex gs

/-- The bytes of the 16-bit groups `gs`, most significant byte first. -/
def netip.groupBytes : List Nat → List Nat
  | [] => []
  | g :: gs => (g >>> 8 % 256) :: (g % 256) :: netip.groupBytes gs

/-- The `n` groups of `ip` from group `i` on, `ip.v6u16(i), ..., ip.v6u16(i+n-1)`. -/
def netip.Addr.groups (ip : netip.Addr) (i n : Nat) : List Nat :=
  (List.range' i n).map ip.v6u16

/-- What `appendTo6` knows of the span of groups it prints as `::`: there is none, or
it is a run of zero groups. -/
def netip.Addr.SpanOK (ip : netip.Addr) (z : Nat × Nat) : Prop :=
  z = (255, 255) ∨ (z.1 < z.2 ∧ z.2 ≤ 8 ∧ ∀ j, z.1 ≤ j → j < z.2 → ip.v6u16 j = 0)

/-- `netip.AddrFromSlice(slice)`: the address of a slice of four or sixteen bytes, and
`ok`. -/
def netip.AddrFromSlice (slice : List Nat) : netip.Addr × Bool :=
  if slice.length = 4 then
    (netip.AddrFrom4 (slice.getD 0 0) (slice.getD 1 0) (slice.getD 2 0) (slice.getD 3 0), true)
  else if slice.length = 16 then (netip.AddrFrom16 slice, true)
  else (netip.Addr.zero, false)

/-- The values of `net.IP` that are addresses: four or sixteen bytes. -/
def net.IP.WF (ip : net.IP) : Prop :=
  (ip.length = 4 ∨ ip.length = 16) ∧ ∀ b ∈ ip, b < 256

instance net.IP.decWF (ip : net.IP) : Decidable ip.WF :=
  inferInstanceAs (Decidable ((ip.length = 4 ∨ ip.length = 16) ∧ ∀ b ∈ ip, b < 256))

/-! ## Theorems -/

theorem stringLess_irrefl (s : GoString) : stringLess s s = false := by
  induction s with
  | nil => rfl
  | cons x xs ih => simp [stringLess, ih]

theorem stringLess_total (s t : GoString) (h1 : stringLess s t = false)
    (h2 : stringLess t s = false) : s = t := by
  induction s generalizing t with
  | nil =>
    cases t with
    | nil => rfl
    | cons y ys => simp [stringLess] at h1
  | cons x xs ih =>
    cases t with
    | nil => simp [stringLess] at h2
    | cons y ys =>
      simp only [stringLess] at h1 h2
      by_cases hxy : x < y
      · simp [hxy] at h1
      · by_cases hyx : y < x
        · simp [hyx] at h2
        · simp only [hxy, hyx, if_false] at h1 h2
          have : x = y := by omega
          rw [this, ih ys h1 h2]

namespace netip

theorem Addr.Unmap_WF (ip : Addr) (h : ip.WF) : ip.Unmap.WF := by
  unfold Addr.Unmap
  split
  · rename_i h46
    simp only [Addr.Is4In6, Bool.and_eq_true, beq_iff_eq] at h46
    obtain ⟨h1, h2, _⟩ := h
    exact ⟨h1, h2, fun _ => ⟨rfl, h46.1.2, h46.2⟩⟩
  · exact h

/-- A zero result of `Compare` means that every field it inspects agrees. -/
theorem Addr.Compare_eq_zero (ip ip2 : Addr) (h : ip.Compare ip2 = 0) :
    ip.BitLen = ip2.BitLen ∧ ip.addr.hi = ip2.addr.hi ∧ ip.addr.lo = ip2.addr.lo ∧
      (ip.Is6 = true → ip.Zone = ip2.Zone) := by
  unfold Addr.Compare at h
  simp only at h
  split_ifs at h with h1 h2 h3 h4 h5 h6 h7 h8 h9 <;> try (exact absurd h (by decide))
  · refine ⟨by omega, by omega, by omega, fun _ => ?_⟩
    exact stringLess_total _ _ (by simpa using h8) (by simpa using h9)
  · exact ⟨by omega, by omega, by omega, fun h6 => absurd h6 h7⟩

theorem Addr.Compare_self (ip : Addr) : ip.Compare ip = 0 := by
  unfold Addr.Compare
  simp [stringLess_irrefl]

/-- On constructible addresses `Compare` returns zero exactly for identical values. -/
theorem Addr.Compare_eq_zero_iff (ip ip2 : Addr) (h : ip.WF) (h2 : ip2.WF) :
    ip.Compare ip2 = 0 ↔ ip = ip2 := by
  constructor
  · intro hc
    obtain ⟨hb, hhi, hlo, hz⟩ := Addr.Compare_eq_zero ip ip2 hc
    obtain ⟨⟨hi1, lo1⟩, zz1⟩ := ip
    obtain ⟨⟨hi2, lo2⟩, zz2⟩ := ip2
    simp only at hhi hlo
    subst hhi hlo
    obtain ⟨_, _, w1⟩ := h
    obtain ⟨_, _, w2⟩ := h2
    simp only [Addr.BitLen, z0, z4] at hb
    simp only [Addr.Is6, Addr.Zone, z0, z4] at hz
    congr 1
    cases zz1 with
    | none =>
      cases zz2 with
      | none => rfl
      | some d2 =>
        exfalso
        simp only [reduceCtorEq, if_false, if_true] at hb
        split_ifs at hb
    | some d1 =>
      cases zz2 with
      | none =>
        exfalso
        simp only [reduceCtorEq, if_false, if_true] at hb
        split_ifs at hb
      | some d2 =>
        obtain ⟨v1, s1⟩ := d1
        obtain ⟨v2, s2⟩ := d2
        simp only at w1 w2
        cases v1 <;> cases v2
        · rw [(w1 rfl).1, (w2 rfl).1]
        · have := (w1 rfl).1
          subst this
          simp at hb
        · have := (w2 rfl).1
          subst this
          simp at hb
        · simp at hz
          rw [hz]
  · intro he
    subst he
    exact Addr.Compare_self ip

theorem shiftRight_or (x y k : Nat) : (x ||| y) >>> k = x >>> k ||| y >>> k := by
  apply Nat.eq_of_testBit_eq
  intro i
  simp [Nat.testBit_shiftRight, Nat.testBit_or]

theorem shiftLeft_shiftRight_small (x j k : Nat) (h : x < 2 ^ (k - j)) (hjk : j ≤ k) :
    (x <<< j) >>> k = 0 := by
  rw [Nat.shiftLeft_eq, Nat.shiftRight_eq_div_pow]
  apply Nat.div_eq_of_lt
  calc x * 2 ^ j < 2 ^ (k - j) * 2 ^ j := Nat.mul_lt_mul_of_pos_right h (Nat.two_pow_pos j)
    _ = 2 ^ k := by rw [← Nat.pow_add, Nat.sub_add_cancel hjk]

/-- The address word built by `AddrFrom4` carries the `::ffff:` marker above bit 32. -/
theorem v4word_shiftRight (a b c d : Nat) (ha : a < 256) (hb : b < 256) (hc : c < 256)
    (hd : d < 256) :
    (0xffff00000000 ||| a <<< 24 ||| b <<< 16 ||| c <<< 8 ||| d) >>> 32 = 0xffff := by
  simp only [shiftRight_or]
  have h1 : (a <<< 24) >>> 32 = 0 := shiftLeft_shiftRight_small a 24 32 (by omega) (by omega)
  have h2 : (b <<< 16) >>> 32 = 0 := shiftLeft_shiftRight_small b 16 32 (by omega) (by omega)
  have h3 : (c <<< 8) >>> 32 = 0 := shiftLeft_shiftRight_small c 8 32 (by omega) (by omega)
  have h4 : d >>> 32 = 0 := by
    rw [Nat.shiftRight_eq_div_pow]; omega
  rw [h1, h2, h3, h4]
  decide

theorem v4word_lt (a b c d : Nat) (ha : a < 256) (hb : b < 256) (hc : c < 256)
    (hd : d < 256) :
    (0xffff00000000 ||| a <<< 24 ||| b <<< 16 ||| c <<< 8 ||| d) < 2 ^ 64 := by
  have h1 : a <<< 24 < 2 ^ 64 := by rw [Nat.shiftLeft_eq]; omega
  have h2 : b <<< 16 < 2 ^ 64 := by rw [Nat.shiftLeft_eq]; omega
  have h3 : c <<< 8 < 2 ^ 64 := by rw [Nat.shiftLeft_eq]; omega
  have h4 : d < 2 ^ 64 := by omega
  exact Nat.or_lt_two_pow (Nat.or_lt_two_pow (Nat.or_lt_two_pow
    (Nat.or_lt_two_pow (by norm_num) h1) h2) h3) h4

/-- The low word of the sixteen bytes `0 0 ff ff a b c d` is the word of `AddrFrom4`. -/
theorem beUint64_mapped (a b c d : Nat) :
    beUint64 0 0 0xff 0xff a b c d =
      (0xffff00000000 ||| a <<< 24 ||| b <<< 16 ||| c <<< 8 ||| d) := by
  unfold beUint64
  have h : (0xffff00000000 : Nat) = 0xff <<< 32 ||| 0xff <<< 40 := by decide
  rw [h]
  simp only [Nat.zero_shiftLeft, Nat.or_zero]
  generalize (0xff <<< 32) = u
  generalize (0xff <<< 40) = v
  generalize a <<< 24 = a'
  generalize b <<< 16 = b'
  generalize c <<< 8 = c'
  ac_rfl

theorem AddrFrom4_WF (a b c d : Nat) (ha : a < 256) (hb : b < 256) (hc : c < 256)
    (hd : d < 256) : (AddrFrom4 a b c d).WF :=
  ⟨by simp [AddrFrom4], v4word_lt a b c d ha hb hc hd,
    fun _ => ⟨rfl, rfl, v4word_shiftRight a b c d ha hb hc hd⟩⟩

theorem AddrFrom4_Unmap (a b c d : Nat) : (AddrFrom4 a b c d).Unmap = AddrFrom4 a b c d := by
  simp [Addr.Unmap, Addr.Is4In6, Addr.Is6, AddrFrom4]

/-- Unmapping the IPv4-mapped IPv6 form of `a.b.c.d` gives the IPv4 address itself. -/
theorem AddrFrom16_mapped_Unmap (a b c d : Nat) (ha : a < 256) (hb : b < 256)
    (hc : c < 256) (hd : d < 256) :
    (AddrFrom16 [0, 0, 0, 0, 0, 0, 0, 0, 0, 0, 0xff, 0xff, a, b, c, d]).Unmap =
      AddrFrom4 a b c d := by
  have hhi : beUint64 0 0 0 0 0 0 0 0 = 0 := by decide
  have h46 : (AddrFrom16 [0, 0, 0, 0, 0, 0, 0, 0, 0, 0, 0xff, 0xff, a, b, c, d]).Is4In6
      = true := by
    simp only [Addr.Is4In6, Addr.Is6, AddrFrom16, List.getD_cons_zero, List.getD_cons_succ,
      hhi, beUint64_mapped, v4word_shiftRight a b c d ha hb hc hd]
    decide
  simp only [Addr.Unmap, h46, if_true]
  simp only [AddrFrom16, AddrFrom4, List.getD_cons_zero, List.getD_cons_succ, hhi,
    beUint64_mapped]

end netip

/-! ### `CompareAddrPorts` -/

/-- C1: for constructible endpoints `a` and `b`, `CompareAddrPorts a b` is true exactly
when the ports are equal and the addresses are identical after `Unmap`; in every other
case it is false. -/
theorem CompareAddrPorts_iff (a b : netip.AddrPort) (ha : a.WF) (hb : b.WF) :
    (CompareAddrPorts a b = true ↔ a.Port = b.Port ∧ a.Addr.Unmap = b.Addr.Unmap) ∧
    (¬(a.Port = b.Port ∧ a.Addr.Unmap = b.Addr.Unmap) → CompareAddrPorts a b = false) := by
  have key : CompareAddrPorts a b = true ↔
      a.Port = b.Port ∧ a.Addr.Unmap = b.Addr.Unmap := by
    unfold CompareAddrPorts
    have hu := netip.Addr.Compare_eq_zero_iff a.Addr.Unmap b.Addr.Unmap
      (netip.Addr.Unmap_WF _ ha.1) (netip.Addr.Unmap_WF _ hb.1)
    simp only [Bool.and_eq_true, beq_iff_eq, Bool.if_true_left, Bool.or_false,
      Bool.decide_and, decide_eq_true_eq, hu]
    tauto
  refine ⟨key, fun hn => ?_⟩
  cases hc : CompareAddrPorts a b
  · rfl
  · exact absurd (key.mp hc) hn

/-- C10: every endpoint, valid ones in particular, compares equal to itself. -/
theorem CompareAddrPorts_refl (x : netip.AddrPort) : CompareAddrPorts x x = true := by
  simp [CompareAddrPorts, netip.Addr.Compare_self]

/-- C2: an IPv4 endpoint and the IPv4-mapped IPv6 endpoint of the same address and
port compare equal, in either argument order. -/
theorem CompareAddrPorts_v4_mapped (a b c d p : Nat) (ha : a < 256) (hb : b < 256)
    (hc : c < 256) (hd : d < 256) :
    CompareAddrPorts (netip.AddrPortFrom (netip.AddrFrom4 a b c d) p)
      (netip.AddrPortFrom
        (netip.AddrFrom16 [0, 0, 0, 0, 0, 0, 0, 0, 0, 0, 0xff, 0xff, a, b, c, d]) p) = true ∧
    CompareAddrPorts
      (netip.AddrPortFrom
        (netip.AddrFrom16 [0, 0, 0, 0, 0, 0, 0, 0, 0, 0, 0xff, 0xff, a, b, c, d]) p)
      (netip.AddrPortFrom (netip.AddrFrom4 a b c d) p) = true := by
  simp only [CompareAddrPorts, netip.AddrPort.Addr, netip.AddrPort.Port, netip.AddrPortFrom,
    netip.AddrFrom16_mapped_Unmap a b c d ha hb hc hd, netip.AddrFrom4_Unmap,
    netip.Addr.Compare_self]
  simp

theorem CompareAddrPorts_v4_mapped_witness :
    CompareAddrPorts (netip.AddrPortFrom (netip.AddrFrom4 127 0 0 1) 6881)
      (netip.AddrPortFrom
        (netip.AddrFrom16 [0, 0, 0, 0, 0, 0, 0, 0, 0, 0, 0xff, 0xff, 127, 0, 0, 1]) 6881)
        = true ∧
    CompareAddrPorts
      (netip.AddrPortFrom
        (netip.AddrFrom16 [0, 0, 0, 0, 0, 0, 0, 0, 0, 0, 0xff, 0xff, 127, 0, 0, 1]) 6881)
      (netip.AddrPortFrom (netip.AddrFrom4 127 0 0 1) 6881) = true :=
  CompareAddrPorts_v4_mapped 127 0 0 1 6881 (by decide) (by decide) (by decide) (by decide)

/-- C9, as stated, fails: two unset endpoints compare equal. -/
theorem CompareAddrPorts_zero_zero :
    CompareAddrPorts netip.AddrPort.zero netip.AddrPort.zero = true := by
  decide

/-- C9, amended: the unset endpoint compares unequal, in either argument order, to
every endpoint other than the unset endpoint itself. -/
theorem CompareAddrPorts_zero_ne (b : netip.AddrPort) (hb : b ≠ netip.AddrPort.zero) :
    CompareAddrPorts netip.AddrPort.zero b = false ∧
    CompareAddrPorts b netip.AddrPort.zero = false := by
  have hz : netip.AddrPort.zero.Addr.Unmap = netip.Addr.zero := by decide
  have hzb : netip.Addr.zero.BitLen = 0 := by decide
  -- an address whose unmapped form has bit length 0 carries the zero handle
  have hbit : b.Addr.Unmap.BitLen = 0 → b.ip.z = none ∧ b.Addr.Unmap = b.ip := by
    intro h0
    unfold netip.Addr.Unmap at h0 ⊢
    by_cases h46 : b.Addr.Is4In6 = true
    · simp [h46, netip.Addr.BitLen, netip.z0, netip.z4] at h0
    · rw [if_neg h46] at h0 ⊢
      simp only [netip.Addr.BitLen, netip.AddrPort.Addr, netip.z0] at h0
      refine ⟨?_, rfl⟩
      by_contra hne
      simp only [hne, if_false] at h0
      split_ifs at h0
  have hfields : b.Addr.Unmap.BitLen = 0 → b.Addr.Unmap.addr.hi = 0 →
      b.Addr.Unmap.addr.lo = 0 → b.port = 0 → False := by
    intro h0 hhi hlo hp
    obtain ⟨hzn, hu⟩ := hbit h0
    rw [hu] at hhi hlo
    apply hb
    obtain ⟨⟨⟨hi, lo⟩, z⟩, port⟩ := b
    simp only at hzn hhi hlo hp
    subst hzn hhi hlo hp
    rfl
  constructor
  · cases hc : CompareAddrPorts netip.AddrPort.zero b
    · rfl
    · exfalso
      simp only [CompareAddrPorts, hz, Bool.and_eq_true, beq_iff_eq, Bool.if_true_left,
        Bool.or_false, decide_eq_true_eq, Bool.decide_and] at hc
      obtain ⟨h1, h2, h3, _⟩ := netip.Addr.Compare_eq_zero _ _ hc.1
      exact hfields (by rw [← h1, hzb]) h2.symm h3.symm hc.2.symm
  · cases hc : CompareAddrPorts b netip.AddrPort.zero
    · rfl
    · exfalso
      simp only [CompareAddrPorts, hz, Bool.and_eq_true, beq_iff_eq, Bool.if_true_left,
        Bool.or_false, decide_eq_true_eq, Bool.decide_and] at hc
      obtain ⟨h1, h2, h3, _⟩ := netip.Addr.Compare_eq_zero _ _ hc.1
      exact hfields (by rw [h1, hzb]) h2 h3 hc.2

theorem CompareAddrPorts_zero_ne_witness :
    CompareAddrPorts netip.AddrPort.zero
        (netip.AddrPortFrom (netip.AddrFrom4 127 0 0 1) 6881) = false ∧
    CompareAddrPorts (netip.AddrPortFrom (netip.AddrFrom4 127 0 0 1) 6881)
        netip.AddrPort.zero = false :=
  CompareAddrPorts_zero_ne (netip.AddrPortFrom (netip.AddrFrom4 127 0 0 1) 6881) (by decide)

theorem CompareAddrPorts_iff_witness :
    (CompareAddrPorts (netip.AddrPortFrom (netip.AddrFrom4 127 0 0 1) 6881)
        (netip.AddrPortFrom (netip.AddrFrom4 1 1 1 1) 6881) = true ↔
      (netip.AddrPortFrom (netip.AddrFrom4 127 0 0 1) 6881).Port =
          (netip.AddrPortFrom (netip.AddrFrom4 1 1 1 1) 6881).Port ∧
        (netip.AddrPortFrom (netip.AddrFrom4 127 0 0 1) 6881).Addr.Unmap =
          (netip.AddrPortFrom (netip.AddrFrom4 1 1 1 1) 6881).Addr.Unmap) ∧
    (¬((netip.AddrPortFrom (netip.AddrFrom4 127 0 0 1) 6881).Port =
          (netip.AddrPortFrom (netip.AddrFrom4 1 1 1 1) 6881).Port ∧
        (netip.AddrPortFrom (netip.AddrFrom4 127 0 0 1) 6881).Addr.Unmap =
          (netip.AddrPortFrom (netip.AddrFrom4 1 1 1 1) 6881).Addr.Unmap) →
      CompareAddrPorts (netip.AddrPortFrom (netip.AddrFrom4 127 0 0 1) 6881)
        (netip.AddrPortFrom (netip.AddrFrom4 1 1 1 1) 6881) = false) :=
  CompareAddrPorts_iff _ _ (by decide) (by decide)

/-! ### `DecodeId` -/

namespace hex

theorem reverseHexTable_gt_iff (c : Nat) : reverseHexTable c > 0x0f ↔ isHexDigit c = false := by
  unfold reverseHexTable isHexDigit
  split_ifs <;> simp <;> omega

/-- Induction over a text two bytes at a time, as the loop of `Decode` reads it. -/
theorem pairs_induction {P : List Nat → Prop} (h0 : P []) (h1 : ∀ p, P [p])
    (h2 : ∀ p q rest, P rest → P (p :: q :: rest)) : ∀ l, P l
  | [] => h0
  | [p] => h1 p
  | p :: q :: rest => h2 p q rest (pairs_induction h0 h1 h2 rest)

/-- `Decode` reports no error exactly on texts of even length made of hex digits. -/
theorem Decode_err_none_iff (s : GoString) :
    (Decode s).2 = none ↔ s.length % 2 = 0 ∧ ∀ c ∈ s, isHexDigit c = true := by
  induction s using pairs_induction with
  | h0 => simp [Decode]
  | h1 p =>
    by_cases h : reverseHexTable p > 0x0f <;> simp [Decode, h]
  | h2 p q rest ih =>
    by_cases hp : reverseHexTable p > 0x0f
    · simp only [Decode, hp, if_true]
      rw [reverseHexTable_gt_iff] at hp
      simp [hp]
    · by_cases hq : reverseHexTable q > 0x0f
      · simp only [Decode, hp, hq, if_true, if_false]
        rw [reverseHexTable_gt_iff] at hq
        simp [hq]
      · simp only [Decode, hp, hq, if_false, ih]
        rw [reverseHexTable_gt_iff, Bool.not_eq_false] at hp hq
        simp only [List.length_cons, List.mem_cons, forall_eq_or_imp, hp, hq, true_and]
        constructor
        · rintro ⟨h3, h4⟩
          exact ⟨by omega, h4⟩
        · rintro ⟨h3, h4⟩
          exact ⟨by omega, h4⟩

/-- Every error of `Decode` is one of the two errors of the package. -/
theorem Decode_err_isHexError (s : GoString) (e : GoError) (h : (Decode s).2 = some e) :
    e.isHexError = true := by
  induction s using pairs_induction with
  | h0 => simp [Decode] at h
  | h1 p =>
    by_cases hp : reverseHexTable p > 0x0f
    · simp only [Decode, hp, if_true, Option.some.injEq] at h
      subst h; rfl
    · simp only [Decode, hp, if_false, Option.some.injEq] at h
      subst h; rfl
  | h2 p q rest ih =>
    by_cases hp : reverseHexTable p > 0x0f
    · simp only [Decode, hp, if_true, Option.some.injEq] at h
      subst h; rfl
    · by_cases hq : reverseHexTable q > 0x0f
      · simp only [Decode, hp, hq, if_true, if_false, Option.some.injEq] at h
        subst h; rfl
      · simp only [Decode, hp, hq, if_false] at h
        exact ih h

set_option maxRecDepth 100000 in
/-- Encoding a byte to two digits and reading them back gives the byte. -/
theorem byte_roundtrip : ∀ v < 256,
    ¬ reverseHexTable (hextable (v >>> 4)) > 0x0f ∧
    ¬ reverseHexTable (hextable (v &&& 0x0f)) > 0x0f ∧
    reverseHexTable (hextable (v >>> 4)) <<< 4 ||| reverseHexTable (hextable (v &&& 0x0f))
      = v := by
  decide

theorem Decode_EncodeToString (b : List Nat) (hb : ∀ x ∈ b, x < 256) :
    Decode (EncodeToString b) = (b, none) := by
  induction b with
  | nil => rfl
  | cons v rest ih =>
    have hv := byte_roundtrip v (hb v (List.mem_cons_self _ _))
    have hrest := ih (fun x hx => hb x (List.mem_cons_of_mem _ hx))
    simp only [EncodeToString, Decode, hv.1, hv.2.1, hv.2.2, if_false, hrest]

end hex

/-- C3: `DecodeId` fails with "Invalid ID" exactly on the empty text, fails with an
error of `encoding/hex` exactly on a non-empty text that has odd length or a byte
that is no hex digit, succeeds on every other text, and returns a nil slice on every
failure. -/
theorem DecodeId_errors (id : GoString) :
    ((DecodeId id).2 = some (GoError.errorsNew "Invalid ID") ↔ id = []) ∧
    ((∃ e, (DecodeId id).2 = some e ∧ e.isHexError = true) ↔
      (id ≠ [] ∧ (id.length % 2 = 1 ∨ ∃ c ∈ id, isHexDigit c = false))) ∧
    ((DecodeId id).2 = none ↔
      (id ≠ [] ∧ id.length % 2 = 0 ∧ ∀ c ∈ id, isHexDigit c = true)) ∧
    ((DecodeId id).2 ≠ none → (DecodeId id).1 = none) := by
  cases id with
  | nil =>
    refine ⟨by simp [DecodeId], ?_, by simp [DecodeId], by simp [DecodeId]⟩
    simp [DecodeId, GoError.isHexError]
  | cons c cs =>
    have hlen : (c :: cs).length ≠ 0 := by simp
    have hnone := hex.Decode_err_none_iff (c :: cs)
    cases hd : (hex.Decode (c :: cs)).2 with
    | none =>
      have hid : DecodeId (c :: cs) = (some (hex.Decode (c :: cs)).1, none) := by
        simp only [DecodeId, hlen, if_false, hex.DecodeString, hd]
      have hok := hnone.mp hd
      rw [hid]
      refine ⟨by simp, ?_, by simpa using hok, by simp⟩
      simp only [reduceCtorEq, false_and, exists_false, ne_eq, not_false_eq_true, true_and,
        false_iff, not_or, not_exists, not_and, Bool.not_eq_false]
      exact ⟨by omega, hok.2⟩
    | some e =>
      have hid : DecodeId (c :: cs) = (none, some e) := by
        simp only [DecodeId, hlen, if_false, hex.DecodeString, hd]
      have hhex := hex.Decode_err_isHexError _ _ hd
      have hbad : ¬((c :: cs).length % 2 = 0 ∧ ∀ x ∈ c :: cs, isHexDigit x = true) := by
        intro h
        rw [hnone.mpr h] at hd
        exact absurd hd (by simp)
      rw [hid]
      refine ⟨?_, ?_, ?_, by simp⟩
      · simp only [Option.some.injEq, reduceCtorEq, iff_false]
        intro he
        subst he
        simp [GoError.isHexError] at hhex
      · simp only [Option.some.injEq, exists_eq_left', hhex, ne_eq, reduceCtorEq,
          not_false_eq_true, true_and, true_iff]
        by_cases hodd : (c :: cs).length % 2 = 1
        · exact Or.inl hodd
        · right
          by_contra hall
          apply hbad
          refine ⟨by omega, fun x hx => ?_⟩
          by_contra hx2
          exact hall ⟨x, hx, by simpa using hx2⟩
      · simp only [reduceCtorEq, ne_eq, not_false_eq_true, true_and, false_iff]
        exact hbad

/-- C4: decoding undoes hex encoding: for every non-empty byte sequence `b`,
`DecodeId (hex.EncodeToString b)` succeeds and returns exactly `b`. -/
theorem DecodeId_EncodeToString (b : List Nat) (hne : b ≠ []) (hb : ∀ x ∈ b, x < 256) :
    DecodeId (hex.EncodeToString b) = (some b, none) := by
  have hlen : (hex.EncodeToString b).length ≠ 0 := by
    cases b with
    | nil => exact absurd rfl hne
    | cons v rest => simp [hex.EncodeToString]
  simp only [DecodeId, hlen, if_false, hex.DecodeString, hex.Decode_EncodeToString b hb]

theorem sha1.Sum_bytes (d : sha1.digest) : ∀ x ∈ d.Sum, x < 256 := by
  intro x hx
  simp only [sha1.digest.Sum, sha1.digest.checkSum, sha1.bePutUint32, List.mem_append,
    List.mem_cons, List.mem_singleton, List.not_mem_nil, or_false] at hx
  rcases hx with ((((h | h | h | h) | (h | h | h | h)) | (h | h | h | h)) | (h | h | h | h)) |
    (h | h | h | h) <;> (subst h; exact Nat.mod_lt _ (by decide))

theorem DecodeId_EncodeToString_witness :
    DecodeId (hex.EncodeToString [0xab, 0xcd, 0x00, 0xff]) = (some [0xab, 0xcd, 0x00, 0xff], none) :=
  DecodeId_EncodeToString [0xab, 0xcd, 0x00, 0xff] (by decide) (by decide)

/-! ### `CreateUDPAddr` and `CreateAddrPort`: the guards -/

/-- C6, as stated, fails: with the empty host and port 0 both builders report
"Invalid host", not "Invalid port". -/
theorem Create_empty_host_port_zero :
    CreateUDPAddr Env.offline [] 0 = (none, some (GoError.errorsNew "Invalid host")) ∧
    CreateAddrPort Env.offline [] 0 =
      Outcome.returns (netip.AddrPort.zero, some (GoError.errorsNew "Invalid host")) ∧
    (CreateUDPAddr Env.offline [] 0).2 ≠ some (GoError.errorsNew "Invalid port") := by
  decide

/-- C6, amended: for every non-empty host, valid or not, and every port with
`port ≤ 0` or `port > 65535`, both builders fail with "Invalid port", whatever the
resolver would answer. -/
theorem Create_invalid_port (env : Env) (host : GoString) (port : Int) (hh : host ≠ [])
    (hp : port ≤ 0 ∨ port > 65535) :
    CreateUDPAddr env host port = (none, some (GoError.errorsNew "Invalid port")) ∧
    CreateAddrPort env host port =
      Outcome.returns (netip.AddrPort.zero, some (GoError.errorsNew "Invalid port")) := by
  have hlen : host.length ≠ 0 := by
    cases host with
    | nil => exact absurd rfl hh
    | cons c cs => simp
  constructor
  · simp only [CreateUDPAddr, hlen, if_false, hp, if_true]
  · simp only [CreateAddrPort, hlen, if_false, hp, if_true]

theorem Create_invalid_port_witness :
    CreateUDPAddr Env.offline (str "example.com") 75535 =
      (none, some (GoError.errorsNew "Invalid port")) ∧
    CreateAddrPort Env.offline (str "example.com") 75535 =
      Outcome.returns (netip.AddrPort.zero, some (GoError.errorsNew "Invalid port")) :=
  Create_invalid_port Env.offline (str "example.com") 75535 (by decide) (by decide)

/-- C7: for the empty host and every port, in range or not, both builders fail with
"Invalid host"; the result does not depend on the port or on the resolver. -/
theorem Create_empty_host (env : Env) (port : Int) :
    CreateUDPAddr env [] port = (none, some (GoError.errorsNew "Invalid host")) ∧
    CreateAddrPort env [] port =
      Outcome.returns (netip.AddrPort.zero, some (GoError.errorsNew "Invalid host")) := by
  constructor
  · simp [CreateUDPAddr]
  · simp [CreateAddrPort]

/-! ### `GenerateId` -/

theorem rand.fill_length (b xs : List Nat) : (rand.fill b xs).length = b.length := by
  induction b generalizing xs with
  | nil => rfl
  | cons y ys ih =>
    cases xs with
    | nil => rfl
    | cons x xs => simp [rand.fill, ih]

theorem sha1.Sum_length (d : sha1.digest) : d.Sum.length = 20 := by
  simp [sha1.digest.Sum, sha1.digest.checkSum, sha1.bePutUint32]

/-- Within the bounds of `makeslice`, a small object, or a large one that the operating
system has memory for, is allocated. -/
theorem runtime.makeslice_fits (env : Env) (n : Int) (h0 : 0 ≤ n)
    (h1 : n ≤ (runtime.maxAlloc : Int))
    (hf : n.toNat ≤ runtime.maxSmallObject ∨ n.toNat ≤ env.memory) :
    runtime.makeslice env n = Outcome.returns (List.replicate n.toNat 0) := by
  unfold runtime.makeslice
  rw [if_neg (by omega), if_neg (by omega)]

/-- C8: when the entropy source succeeds, `GenerateRandomBytes(20)` yields 20 bytes
`b` and `GenerateId` returns, without error, the SHA-1 digest of `b`, which has
exactly 20 bytes; when the source fails with `e`, `GenerateId` returns a nil
identifier and `e`. -/
theorem GenerateId_spec (env : Env) :
    ((env.entropy 20).2 = none →
      ∃ b, GenerateRandomBytes env 20 = Outcome.returns (some b, none) ∧ b.length = 20 ∧
        GenerateId env = Outcome.returns (some (sha1.New.Write b).Sum, none) ∧
        (sha1.New.Write b).Sum.length = 20) ∧
    (∀ e, (env.entropy 20).2 = some e →
      GenerateRandomBytes env 20 = Outcome.returns (none, some e) ∧
      GenerateId env = Outcome.returns (none, some e)) := by
  have hlen : (List.replicate (20 : Int).toNat 0).length = 20 := by simp
  have hm := runtime.makeslice_fits env 20 (by decide) (by decide) (Or.inl (by decide))
  constructor
  · intro hok
    have hb : GenerateRandomBytes env 20 =
        Outcome.returns (some (rand.Read env (List.replicate (20 : Int).toNat 0)).1, none) := by
      simp only [GenerateRandomBytes, hm, rand.Read, hlen, hok]
    refine ⟨_, hb, ?_, ?_, sha1.Sum_length _⟩
    · simp only [rand.Read, rand.fill_length, hlen]
    · simp only [GenerateId, hb, Option.getD_some]
  · intro e he
    have hb : GenerateRandomBytes env 20 = Outcome.returns (none, some e) := by
      simp only [GenerateRandomBytes, hm, rand.Read, hlen, he]
    exact ⟨hb, by simp only [GenerateId, hb]⟩

/-! ### Literal addresses: searching, ports, parsing -/

/-! ### Searching for a byte -/

theorem indexByte_eq_none_iff (s : GoString) (c : Nat) : indexByte s c = none ↔ c ∉ s := by
  induction s with
  | nil => simp [indexByte]
  | cons x xs ih =>
    by_cases h : x = c
    · simp [indexByte, h]
    · have h2 : ¬ c = x := fun e => h e.symm
      simp [indexByte, h, h2, ih]

theorem indexByte_isSome_iff (s : GoString) (c : Nat) : (indexByte s c).isSome = true ↔ c ∈ s := by
  rw [← not_iff_not, ← indexByte_eq_none_iff]
  cases indexByte s c <;> simp

theorem indexByte_append (a p : GoString) (c : Nat) (h : c ∉ a) :
    indexByte (a ++ c :: p) c = some a.length := by
  induction a with
  | nil => simp [indexByte]
  | cons x xs ih =>
    have hx : ¬ x = c := fun e => h (by simp [e])
    have hxs : c ∉ xs := fun e => h (by simp [e])
    simp [indexByte, hx, ih hxs]

theorem lastIndexByte_eq_none_iff (s : GoString) (c : Nat) :
    lastIndexByte s c = none ↔ c ∉ s := by
  induction s with
  | nil => simp [lastIndexByte]
  | cons x xs ih =>
    cases hl : lastIndexByte xs c with
    | none =>
      have := ih.mp hl
      by_cases h : x = c
      · simp [lastIndexByte, hl, h]
      · have h2 : ¬ c = x := fun e => h e.symm
        simp [lastIndexByte, hl, h, h2, this]
    | some j =>
      have : c ∈ xs := by
        by_contra hn
        rw [ih.mpr hn] at hl
        exact absurd hl (by simp)
      simp [lastIndexByte, hl, this]

theorem lastIndexByte_append (a p : GoString) (c : Nat) (h : c ∉ p) :
    lastIndexByte (a ++ c :: p) c = some a.length := by
  induction a with
  | nil =>
    simp [lastIndexByte, (lastIndexByte_eq_none_iff p c).mpr h]
  | cons x xs ih =>
    simp [lastIndexByte, ih]

/-! ### Decimal text of a port -/

namespace strconv

theorem formatBits_digits (fuel n : Nat) : ∀ c ∈ formatBits fuel n, 0x30 ≤ c ∧ c ≤ 0x39 := by
  induction fuel generalizing n with
  | zero => simp [formatBits]
  | succ f ih =>
    intro c hc
    unfold formatBits at hc
    split_ifs at hc with h
    · simp at hc
      omega
    · rw [List.mem_append] at hc
      rcases hc with hc | hc
      · exact ih _ c hc
      · simp at hc
        omega

theorem formatBits_ne_nil (fuel n : Nat) : formatBits (fuel + 1) n ≠ [] := by
  unfold formatBits
  split_ifs <;> simp

theorem FormatUint_digits (n : Nat) : ∀ c ∈ FormatUint n, 0x30 ≤ c ∧ c ≤ 0x39 :=
  formatBits_digits _ _

theorem FormatUint_ne_nil (n : Nat) : FormatUint n ≠ [] := formatBits_ne_nil _ _

theorem ParseUint_loop_digit (s0 rest : GoString) (acc d : Nat) (hd : d < 10)
    (h : acc * 10 + d ≤ 65535) :
    ParseUint.loop s0 ((2 ^ 64 - 1) / 10 + 1) (2 ^ 16 - 1) ((0x30 + d) :: rest) acc =
      ParseUint.loop s0 ((2 ^ 64 - 1) / 10 + 1) (2 ^ 16 - 1) rest (acc * 10 + d) := by
  rw [ParseUint.loop]
  have h1 : 0x30 ≤ 0x30 + d ∧ 0x30 + d ≤ 0x39 := by omega
  have h2 : ¬ (0x30 + d - 0x30 ≥ 10) := by omega
  have h3 : ¬ (acc ≥ (2 ^ 64 - 1) / 10 + 1) := by norm_num; omega
  have h4 : acc * 10 % 2 ^ 64 = acc * 10 := Nat.mod_eq_of_lt (by norm_num; omega)
  have h5 : (acc * 10 + (0x30 + d - 0x30)) % 2 ^ 64 = acc * 10 + d := by
    have hlt : acc * 10 + (0x30 + d - 0x30) < 2 ^ 64 := by norm_num; omega
    rw [Nat.mod_eq_of_lt hlt]
    omega
  simp only [h1, h2, h3, h4, h5, and_self, if_true, if_false]
  have h6 : ¬ (acc * 10 + d < acc * 10 ∨ acc * 10 + d > 2 ^ 16 - 1) := by norm_num; omega
  simp only [h6, if_false]

theorem ParseUint_loop_formatBits (s0 rest : GoString) (fuel m : Nat) (hf : m < fuel)
    (hm : m ≤ 65535) :
    ParseUint.loop s0 ((2 ^ 64 - 1) / 10 + 1) (2 ^ 16 - 1) (formatBits fuel m ++ rest) 0 =
      ParseUint.loop s0 ((2 ^ 64 - 1) / 10 + 1) (2 ^ 16 - 1) rest m := by
  induction fuel generalizing m rest with
  | zero => omega
  | succ f ih =>
    unfold formatBits
    split_ifs with h
    · have := ParseUint_loop_digit s0 rest 0 m h (by omega)
      simpa using this
    · rw [List.append_assoc, ih _ (m / 10) (by omega) (by omega)]
      have := ParseUint_loop_digit s0 rest (m / 10) (m % 10) (Nat.mod_lt _ (by decide)) (by omega)
      rw [List.singleton_append, this]
      congr 1
      omega

theorem ParseUint16_FormatUint (n : Nat) (hn : n ≤ 65535) :
    ParseUint16 (FormatUint n) = (n, none) := by
  unfold ParseUint16
  rw [if_neg (FormatUint_ne_nil n)]
  have := ParseUint_loop_formatBits (FormatUint n) [] (n + 1) n (by omega) hn
  rw [List.append_nil] at this
  rw [FormatUint] at this ⊢
  rw [this]
  rfl

theorem Itoa_of_pos (port : Int) (hp : 0 < port) : Itoa port = FormatUint port.toNat := by
  unfold Itoa
  rw [if_neg (by omega)]

end strconv

namespace net

theorem parsePort_loop_digit (rest : GoString) (acc d : Nat) (hd : d < 10)
    (h : acc * 10 + d ≤ 65535) :
    parsePort.loop ((0x30 + d) :: rest) acc = parsePort.loop rest (acc * 10 + d) := by
  rw [parsePort.loop]
  have h1 : 0x30 ≤ 0x30 + d ∧ 0x30 + d ≤ 0x39 := by omega
  have h3 : ¬ (acc ≥ 2 ^ 30) := by norm_num; omega
  have h4 : acc * 10 % 2 ^ 32 = acc * 10 := Nat.mod_eq_of_lt (by norm_num; omega)
  have h5 : (acc * 10 + (0x30 + d - 0x30)) % 2 ^ 32 = acc * 10 + d := by
    have hlt : acc * 10 + (0x30 + d - 0x30) < 2 ^ 32 := by norm_num; omega
    rw [Nat.mod_eq_of_lt hlt]
    omega
  simp only [h1, h3, h4, h5, and_self, if_true, if_false]
  have h6 : ¬ (acc * 10 + d < acc * 10 ∨ acc * 10 + d > 2 ^ 32 - 1) := by norm_num; omega
  simp only [h6, if_false]

theorem parsePort_loop_formatBits (rest : GoString) (fuel m : Nat) (hf : m < fuel)
    (hm : m ≤ 65535) :
    parsePort.loop (strconv.formatBits fuel m ++ rest) 0 = parsePort.loop rest m := by
  induction fuel generalizing m rest with
  | zero => omega
  | succ f ih =>
    unfold strconv.formatBits
    split_ifs with h
    · have := parsePort_loop_digit rest 0 m h (by omega)
      simpa using this
    · rw [List.append_assoc, ih _ (m / 10) (by omega) (by omega)]
      have := parsePort_loop_digit rest (m / 10) (m % 10) (Nat.mod_lt _ (by decide)) (by omega)
      rw [List.singleton_append, this]
      congr 1
      omega

theorem parsePort_FormatUint (n : Nat) (hn : n ≤ 65535) :
    parsePort (strconv.FormatUint n) = ((n : Int), false) := by
  have hl := parsePort_loop_formatBits [] (n + 1) n (by omega) hn
  rw [List.append_nil] at hl
  have hd := strconv.FormatUint_digits n
  have hne := strconv.FormatUint_ne_nil n
  unfold strconv.FormatUint at hd hne ⊢
  cases hs : strconv.formatBits (n + 1) n with
  | nil => exact absurd hs hne
  | cons c cs =>
    rw [hs] at hl hd
    have hc := hd c (List.mem_cons_self _ _)
    have h1 : ¬ c = 0x2b := by omega
    have h2 : ¬ c = 0x2d := by omega
    simp only [parsePort, h1, h2, if_false, hl, ne_eq, not_false_eq_true, and_false,
      decide_False, Bool.false_eq_true, false_and, not_false_eq_true, true_and]
    have h3 : ¬ (n ≥ 2 ^ 30) := by norm_num; omega
    simp only [parsePort.loop, h3, if_false]

theorem LookupPort_FormatUint (env : Env) (n : Nat) (hn : n ≤ 65535) :
    LookupPort env (strconv.FormatUint n) = ((n : Int), none) := by
  unfold LookupPort
  simp only [parsePort_FormatUint n hn]
  have : ¬ ((0 : Int) > (n : Int) ∨ (n : Int) > 65535) := by omega
  simp only [Bool.false_eq_true, if_false, this]

end net

namespace netip

theorem parseIPv4Fields_loop_bytes (input s : GoString) (rest : List Nat)
    (i val pos digLen : Nat) (fields r : List Nat)
    (h : parseIPv4Fields.loop input s rest i val pos digLen fields = (r, none)) :
    ∀ c ∈ rest, isV4Byte c := by
  induction rest generalizing i val pos digLen fields with
  | nil => simp
  | cons c cs ih =>
    rw [parseIPv4Fields.loop] at h
    simp only [] at h
    intro x hx
    rcases List.mem_cons.mp hx with e | e
    · subst e
      by_contra hv
      simp only [isV4Byte, not_or] at hv
      simp [hv.1, hv.2] at h
    · split_ifs at h <;> first | exact ih _ _ _ _ _ h x e | simp at h

theorem parseIPv4_ok (s : GoString) (ip : Addr) (h : parseIPv4 s = (ip, none)) :
    (∀ c ∈ s, isV4Byte c) ∧ s ≠ [] ∧ ip.z = z4 := by
  unfold parseIPv4 at h
  simp only at h
  split at h
  · simp at h
  · rename_i hr
    have hs : (s.take s.length).drop 0 = s := by simp
    unfold parseIPv4Fields at hr
    simp only [hs] at hr
    have hb := parseIPv4Fields_loop_bytes s s s 0 0 0 0 [0, 0, 0, 0] _ (Prod.ext rfl hr)
    refine ⟨hb, ?_, ?_⟩
    · intro he
      subst he
      simp [parseIPv4Fields.loop] at hr
    · simp only [Prod.mk.injEq, and_true] at h
      rw [← h]
      rfl

end netip

namespace netip

theorem isV6Byte_of_isV4Byte (c : Nat) (h : isV4Byte c) : isV6Byte c := by
  unfold isV4Byte at h
  unfold isV6Byte isHexDigit
  rcases h with h | h
  · left; simp; omega
  · right; right; exact h

theorem hexLoop_bytes (input s : GoString) (rest : List Nat) (off acc off2 acc2 : Nat)
    (h : parseIPv6.hexLoop input s rest off acc = ((off2, acc2), none)) :
    off ≤ off2 ∧ off2 - off ≤ rest.length ∧ ∀ c ∈ rest.take (off2 - off), isHexDigit c = true := by
  induction rest generalizing off acc with
  | nil =>
    simp only [parseIPv6.hexLoop, Prod.mk.injEq, and_true] at h
    simp [h.1]
  | cons c cs ih =>
    rw [parseIPv6.hexLoop] at h
    simp only [] at h
    have hstep : ∀ a, parseIPv6.hexLoop input s cs (off + 1) a = ((off2, acc2), none) →
        isHexDigit c = true →
        off ≤ off2 ∧ off2 - off ≤ (c :: cs).length ∧
          ∀ x ∈ (c :: cs).take (off2 - off), isHexDigit x = true := by
      intro a ha hc
      obtain ⟨i1, i2, i3⟩ := ih _ _ ha
      refine ⟨by omega, by simp; omega, ?_⟩
      have : off2 - off = (off2 - (off + 1)) + 1 := by omega
      rw [this, List.take_succ_cons]
      intro x hx
      rcases List.mem_cons.mp hx with e | e
      · subst e; exact hc
      · exact i3 x e
    split_ifs at h <;>
      first
      | exact hstep _ h (by simp [isHexDigit]; omega)
      | (simp at h; done)
      | (simp only [Prod.mk.injEq, and_true] at h; simp [h.1])

theorem cons_of_getD (t : List Nat) (c : Nat) (hne : t.length ≠ 0) (hc : t.getD 0 0 = c) :
    t = c :: t.drop 1 := by
  cases t with
  | nil => simp at hne
  | cons x xs =>
    simp at hc
    simp [hc]

theorem suffix_take_drop (input p s : GoString) (h : input = p ++ s) :
    (input.take input.length).drop (input.length - s.length) = s := by
  subst h
  rw [List.take_length, List.length_append, Nat.add_sub_cancel, List.drop_left]

theorem loop_bytes (input : GoString) (fuel : Nat) (st st2 : parseIPv6.State)
    (hsuf : ∃ p, input = p ++ st.s)
    (h : parseIPv6.loop input [] fuel st = (st2, none)) :
    ∃ pre, st.s = pre ++ st2.s ∧ ∀ c ∈ pre, isV6Byte c := by
  induction fuel generalizing st with
  | zero =>
    simp only [parseIPv6.loop, Prod.mk.injEq, and_true] at h
    exact ⟨[], by simp [h], by simp⟩
  | succ f ih =>
    rw [parseIPv6.loop] at h
    simp only [] at h
    by_cases hi : st.i < 16
    · rcases hr : parseIPv6.hexLoop input st.s st.s 0 0 with ⟨⟨off, acc⟩, err⟩
      simp only [hi, not_true_eq_false, if_false, hr] at h
      cases err with
      | some e => simp at h
      | none =>
        simp only at h
        obtain ⟨_, hoff, hhex⟩ := hexLoop_bytes _ _ _ _ _ _ _ hr
        simp only [Nat.sub_zero] at hoff hhex
        have hhex6 : ∀ c ∈ st.s.take off, isV6Byte c := fun c hc => Or.inl (hhex c hc)
        have hsplit : st.s = st.s.take off ++ st.s.drop off := (List.take_append_drop _ _).symm
        obtain ⟨p, hp⟩ := hsuf
        by_cases h0 : off = 0
        · rw [if_pos h0] at h
          simp at h
        · rw [if_neg h0] at h
          by_cases hdot : off < st.s.length ∧ st.s.getD off 0 = 46
          · rw [if_pos hdot] at h
            simp only [List.length_nil, gt_iff_lt, lt_self_iff_false, if_false] at h
            split_ifs at h with h1 h2
            · simp at h
            · simp at h
            · split at h
              · simp at h
              · rename_i h4
                simp only [Prod.mk.injEq, and_true] at h
                refine ⟨st.s, by simp [← h], ?_⟩
                unfold parseIPv4Fields at h4
                simp only [suffix_take_drop input p st.s hp] at h4
                intro c hc
                exact isV6Byte_of_isV4Byte c
                  (parseIPv4Fields_loop_bytes _ _ _ _ _ _ _ _ _ (Prod.ext rfl h4) c hc)
          · rw [if_neg hdot] at h
            by_cases hend : (st.s.drop off).length = 0
            · rw [if_pos hend] at h
              simp only [Prod.mk.injEq, and_true] at h
              refine ⟨st.s.take off, ?_, hhex6⟩
              rw [← h]
              exact hsplit
            · rw [if_neg hend] at h
              by_cases hcolon : (st.s.drop off).getD 0 0 ≠ 58
              · rw [if_pos hcolon] at h
                simp at h
              · rw [if_neg hcolon] at h
                have hc1 := cons_of_getD _ 58 hend (not_not.mp hcolon)
                by_cases hone : (st.s.drop off).length = 1
                · rw [if_pos hone] at h
                  simp at h
                · rw [if_neg hone] at h
                  have hlen2 : ((st.s.drop off).drop 1).length ≠ 0 := by
                    rw [List.length_drop]; omega
                  have hpre1 : ∀ c ∈ st.s.take off ++ [58], isV6Byte c := by
                    intro c hc
                    rcases List.mem_append.mp hc with e | e
                    · exact hhex6 c e
                    · simp at e
                      exact Or.inr (Or.inl e)
                  have hs1 : st.s = (st.s.take off ++ [58]) ++ (st.s.drop off).drop 1 := by
                    rw [List.append_assoc, List.singleton_append, ← hc1]
                    exact hsplit
                  by_cases hcc : ((st.s.drop off).drop 1).getD 0 0 = 58
                  · rw [if_pos hcc] at h
                    have hc2 := cons_of_getD _ 58 hlen2 hcc
                    have hpre2 : ∀ c ∈ st.s.take off ++ [58] ++ [58], isV6Byte c := by
                      intro c hc
                      rcases List.mem_append.mp hc with e | e
                      · exact hpre1 c e
                      · simp at e
                        exact Or.inr (Or.inl e)
                    have hs2 : st.s = (st.s.take off ++ [58] ++ [58]) ++
                        ((st.s.drop off).drop 1).drop 1 := by
                      rw [List.append_assoc (st.s.take off ++ [58]), List.singleton_append, ← hc2]
                      exact hs1
                    split_ifs at h with h5 h6
                    · simp at h
                    · simp only [Prod.mk.injEq, and_true] at h
                      refine ⟨_, ?_, hpre2⟩
                      rw [← h]
                      exact hs2
                    · obtain ⟨pre, e1, e2⟩ := ih _ ⟨p ++ (st.s.take off ++ [58] ++ [58]), by
                        simp only []
                        rw [List.append_assoc p, ← hs2]
                        exact hp⟩ h
                      simp only [] at e1
                      refine ⟨(st.s.take off ++ [58] ++ [58]) ++ pre, ?_, ?_⟩
                      · rw [List.append_assoc _ pre, ← e1]
                        exact hs2
                      · intro c hc
                        rcases List.mem_append.mp hc with e | e
                        · exact hpre2 c e
                        · exact e2 c e
                  · rw [if_neg hcc] at h
                    obtain ⟨pre, e1, e2⟩ := ih _ ⟨p ++ (st.s.take off ++ [58]), by
                      simp only []
                      rw [List.append_assoc p, ← hs1]
                      exact hp⟩ h
                    simp only [] at e1
                    refine ⟨(st.s.take off ++ [58]) ++ pre, ?_, ?_⟩
                    · rw [List.append_assoc _ pre, ← e1]
                      exact hs1
                    · intro c hc
                      rcases List.mem_append.mp hc with e | e
                      · exact hpre1 c e
                      · exact e2 c e
    · simp only [hi, not_false_eq_true, if_true, Prod.mk.injEq, and_true] at h
      exact ⟨[], by simp [h], by simp⟩

theorem WithZone_z (x : Addr) (zone : GoString) (hx : x.z = z6noz) :
    (x.WithZone zone).z = some { isV6 := true, zoneV6 := zone } := by
  unfold Addr.WithZone
  have h6 : x.Is6 = true := by simp [Addr.Is6, hx, z6noz, z0, z4]
  simp only [h6, Bool.not_true, Bool.false_eq_true, if_false]
  split_ifs with hz
  · simp [hz, z6noz]
  · rfl

theorem AddrFrom16_z (l : List Nat) : (AddrFrom16 l).z = z6noz := rfl

theorem finish_ok (input zone : GoString) (st : parseIPv6.State) (ip : Addr)
    (h : parseIPv6.finish input zone st = (ip, none)) :
    ip.z = some { isV6 := true, zoneV6 := zone } ∧ st.s = [] := by
  unfold parseIPv6.finish at h
  simp only [] at h
  split_ifs at h with h1 h2 h3 h4 <;> try (simp at h; done)
  · simp only [Prod.mk.injEq, and_true] at h
    rw [← h]
    exact ⟨WithZone_z _ _ (AddrFrom16_z _), List.length_eq_zero.mp (not_not.mp h1)⟩
  · simp only [Prod.mk.injEq, and_true] at h
    rw [← h]
    exact ⟨WithZone_z _ _ (AddrFrom16_z _), List.length_eq_zero.mp (not_not.mp h1)⟩

theorem start_bytes (s : GoString) :
    ∃ pre, s = pre ++ (parseIPv6.start s).s ∧ ∀ c ∈ pre, isV6Byte c := by
  unfold parseIPv6.start
  split_ifs with h
  · obtain ⟨h1, h2, h3⟩ := h
    refine ⟨[0x3a, 0x3a], ?_, ?_⟩
    · have e1 := cons_of_getD s 0x3a (by omega) h2
      have e2 := cons_of_getD (s.drop 1) 0x3a (by rw [List.length_drop]; omega) (by
        rw [e1] at h3
        simpa using h3)
      simp only []
      rw [List.drop_drop] at e2
      calc s = 0x3a :: s.drop 1 := e1
        _ = 0x3a :: 0x3a :: s.drop 2 := by rw [e2]
    · intro c hc
      simp at hc
      exact Or.inr (Or.inl hc)
  · exact ⟨[], by simp, by simp⟩

theorem run_ok (input s zone : GoString) (ip : Addr)
    (h : parseIPv6.run input s zone = (ip, none)) :
    ip.z = some { isV6 := true, zoneV6 := zone } ∧
      (zone = [] → (∃ p, input = p ++ s) → ∀ c ∈ s, isV6Byte c) := by
  unfold parseIPv6.run at h
  simp only [] at h
  obtain ⟨pre, hpre, hpre6⟩ := start_bytes s
  split_ifs at h with h1
  · simp only [Prod.mk.injEq, and_true] at h
    rw [← h]
    refine ⟨WithZone_z _ _ rfl, fun _ _ => ?_⟩
    rw [List.length_eq_zero.mp h1.2, List.append_nil] at hpre
    rw [hpre]
    exact hpre6
  · split at h
    · simp at h
    · rename_i hr
      obtain ⟨hz, hs⟩ := finish_ok _ _ _ _ h
      refine ⟨hz, fun hzone hsuf => ?_⟩
      subst hzone
      obtain ⟨p, hp⟩ := hsuf
      obtain ⟨pre2, e1, e2⟩ := loop_bytes input 8 (parseIPv6.start s) _
        ⟨p ++ pre, by rw [List.append_assoc, ← hpre]; exact hp⟩ (Prod.ext rfl hr)
      rw [hs, List.append_nil] at e1
      rw [hpre, e1]
      intro c hc
      rcases List.mem_append.mp hc with e | e
      · exact hpre6 c e
      · exact e2 c e

theorem indexByte_lt (s : GoString) (c k : Nat) (h : indexByte s c = some k) : k < s.length := by
  induction s generalizing k with
  | nil => simp [indexByte] at h
  | cons x xs ih =>
    unfold indexByte at h
    split_ifs at h with hx
    · simp at h; subst h; simp
    · cases hi : indexByte xs c with
      | none => simp [hi] at h
      | some j =>
        simp [hi] at h
        subst h
        have := ih j hi
        simp
        omega

theorem parseIPv6_ok (input : GoString) (ip : Addr) (h : parseIPv6 input = (ip, none)) :
    (∃ zone, ip.z = some { isV6 := true, zoneV6 := zone }) ∧
      (ip.Zone = [] → ∀ c ∈ input, isV6Byte c) := by
  unfold parseIPv6 at h
  split at h
  · rename_i k hk
    simp only [] at h
    split_ifs at h with hz
    · simp at h
    · obtain ⟨e1, _⟩ := run_ok _ _ _ _ h
      refine ⟨⟨_, e1⟩, fun h0 => ?_⟩
      simp only [Addr.Zone, e1] at h0
      exact absurd h0 hz
  · obtain ⟨e1, e2⟩ := run_ok _ _ _ _ h
    exact ⟨⟨_, e1⟩, fun _ => e2 rfl ⟨[], rfl⟩⟩

end netip

namespace netip

theorem ParseAddr_scan_ok (s l : GoString) (ip : Addr) (h : ParseAddr.scan s l = (ip, none)) :
    parseIPv4 s = (ip, none) ∨ (parseIPv6 s = (ip, none) ∧ 0x3a ∈ l) := by
  induction l with
  | nil => simp [ParseAddr.scan] at h
  | cons c cs ih =>
    rw [ParseAddr.scan] at h
    split_ifs at h with h1 h2 h3
    · exact Or.inl h
    · exact Or.inr ⟨h, by simp [h2]⟩
    · simp at h
    · rcases ih h with e | e
      · exact Or.inl e
      · exact Or.inr ⟨e.1, List.mem_cons_of_mem _ e.2⟩

/-- What a successful `ParseAddr` says about the text and the address: an IPv4
literal is made of digits and dots, an IPv6 literal contains a colon and, when it
has no zone, is made of hex digits, colons and dots. -/
theorem ParseAddr_ok (s : GoString) (ip : Addr) (h : ParseAddr s = (ip, none)) :
    (ip.z = z4 ∧ s ≠ [] ∧ ∀ c ∈ s, isV4Byte c) ∨
    ((∃ zone, ip.z = some { isV6 := true, zoneV6 := zone }) ∧ 0x3a ∈ s ∧
      (ip.Zone = [] → ∀ c ∈ s, isV6Byte c)) := by
  rcases ParseAddr_scan_ok s s ip h with e | e
  · obtain ⟨h1, h2, h3⟩ := parseIPv4_ok s ip e
    exact Or.inl ⟨h3, h2, h1⟩
  · obtain ⟨h1, h2⟩ := parseIPv6_ok s ip e.1
    exact Or.inr ⟨h1, e.2, h2⟩

theorem splitAddrPort_v4 (host p : GoString) (hh : host ≠ []) (hb : host.getD 0 0 ≠ 0x5b)
    (hp : p ≠ []) (hpc : 0x3a ∉ p) :
    splitAddrPort (host ++ [0x3a] ++ p) = ((host, p, false), none) := by
  unfold splitAddrPort
  have hl : lastIndexByte (host ++ [0x3a] ++ p) 0x3a = some host.length := by
    rw [List.append_assoc, List.singleton_append]
    exact lastIndexByte_append host p 0x3a hpc
  rw [hl]
  have h1 : (host ++ [0x3a] ++ p).take host.length = host := by
    rw [List.append_assoc, List.take_left]
  have h2 : (host ++ [0x3a] ++ p).drop (host.length + 1) = p := by
    have : (host ++ [0x3a]).length = host.length + 1 := by simp
    rw [← this, List.drop_left]
  simp only [h1, h2]
  have h3 : host.length ≠ 0 := fun e => hh (List.length_eq_zero.mp e)
  have h4 : p.length ≠ 0 := fun e => hp (List.length_eq_zero.mp e)
  simp only [h3, h4, hb, if_false]

theorem splitAddrPort_v6 (host p : GoString) (hp : p ≠ []) (hpc : 0x3a ∉ p) :
    splitAddrPort ([0x5b] ++ host ++ [0x5d, 0x3a] ++ p) = ((host, p, true), none) := by
  unfold splitAddrPort
  have hl : lastIndexByte ([0x5b] ++ host ++ [0x5d, 0x3a] ++ p) 0x3a =
      some ([0x5b] ++ host ++ [0x5d]).length := by
    have : [0x5b] ++ host ++ [0x5d, 0x3a] ++ p = ([0x5b] ++ host ++ [0x5d]) ++ 0x3a :: p := by
      simp
    rw [this]
    exact lastIndexByte_append _ p 0x3a hpc
  rw [hl]
  have e : [0x5b] ++ host ++ [0x5d, 0x3a] ++ p = ([0x5b] ++ host ++ [0x5d]) ++ ([0x3a] ++ p) := by
    simp
  have h1 : ([0x5b] ++ host ++ [0x5d, 0x3a] ++ p).take ([0x5b] ++ host ++ [0x5d]).length =
      [0x5b] ++ host ++ [0x5d] := by
    rw [e, List.take_left]
  have h2 : ([0x5b] ++ host ++ [0x5d, 0x3a] ++ p).drop (([0x5b] ++ host ++ [0x5d]).length + 1) =
      p := by
    have e2 : [0x5b] ++ host ++ [0x5d, 0x3a] ++ p = ([0x5b] ++ host ++ [0x5d] ++ [0x3a]) ++ p := by
      simp
    have : ([0x5b] ++ host ++ [0x5d] ++ [0x3a]).length = ([0x5b] ++ host ++ [0x5d]).length + 1 := by
      simp
    rw [← this, e2, List.drop_left]
  simp only [h1, h2]
  have h4 : p.length ≠ 0 := fun e => hp (List.length_eq_zero.mp e)
  have h5 : ([0x5b] ++ host ++ [0x5d]).length ≠ 0 := by simp
  have h6 : ([0x5b] ++ host ++ [0x5d]).getD 0 0 = 0x5b := by simp
  have h7 : ¬ (([0x5b] ++ host ++ [0x5d]).length < 2 ∨
      ([0x5b] ++ host ++ [0x5d]).getD (([0x5b] ++ host ++ [0x5d]).length - 1) 0 ≠ 0x5d) := by
    simp
  have h8 : (([0x5b] ++ host ++ [0x5d]).take (([0x5b] ++ host ++ [0x5d]).length - 1)).drop 1 =
      host := by
    have e3 : ([0x5b] ++ host ++ [0x5d]).length - 1 = ([0x5b] ++ host).length := by simp
    rw [e3, List.take_left]
    simp
  simp only [h4, h5, h6, h7, h8, if_false, if_true]

theorem isV4Byte_ne (c : Nat) (h : isV4Byte c) : c ≠ 0x3a ∧ c ≠ 0x5b ∧ c ≠ 0x5d := by
  unfold isV4Byte at h
  omega

theorem isV6Byte_ne (c : Nat) (h : isV6Byte c) : c ≠ 0x5b ∧ c ≠ 0x5d := by
  unfold isV6Byte isHexDigit at h
  simp at h
  omega

theorem FormatUint_no_colon (n : Nat) : 0x3a ∉ strconv.FormatUint n := by
  intro h
  have := strconv.FormatUint_digits n _ h
  omega

theorem ParseAddrPort_JoinHostPort (host : GoString) (ip : Addr) (n : Nat)
    (h : ParseAddr host = (ip, none)) (hn : n ≤ 65535) :
    ParseAddrPort (net.JoinHostPort host (strconv.FormatUint n)) =
      ({ ip := ip, port := n }, none) := by
  have hmod : n % 2 ^ 16 = n := Nat.mod_eq_of_lt (by norm_num; omega)
  rcases ParseAddr_ok host ip h with ⟨hz, hne, hb⟩ | ⟨⟨zone, hz⟩, hc, _⟩
  · have hnc : 0x3a ∉ host := fun hm => (isV4Byte_ne _ (hb _ hm)).1 rfl
    have hj : net.JoinHostPort host (strconv.FormatUint n) =
        host ++ [0x3a] ++ strconv.FormatUint n := by
      unfold net.JoinHostPort
      rw [(indexByte_eq_none_iff host 0x3a).mpr hnc]
      rfl
    have h0 : host.getD 0 0 ≠ 0x5b := by
      cases host with
      | nil => exact absurd rfl hne
      | cons c cs =>
        simp only [List.getD_cons_zero]
        exact (isV4Byte_ne _ (hb c (List.mem_cons_self _ _))).2.1
    have h6 : ip.Is6 = false := by simp [Addr.Is6, hz]
    rw [hj]
    unfold ParseAddrPort
    simp only [splitAddrPort_v4 host _ hne h0 (strconv.FormatUint_ne_nil n)
      (FormatUint_no_colon n), strconv.ParseUint16_FormatUint n hn, h, h6, hmod]
    simp
  · have hj : net.JoinHostPort host (strconv.FormatUint n) =
        [0x5b] ++ host ++ [0x5d, 0x3a] ++ strconv.FormatUint n := by
      unfold net.JoinHostPort
      rw [if_pos ((indexByte_isSome_iff host 0x3a).mpr hc)]
    have h4 : ip.Is4 = false := by simp [Addr.Is4, hz, z4]
    rw [hj]
    unfold ParseAddrPort
    simp only [splitAddrPort_v6 host _ (strconv.FormatUint_ne_nil n)
      (FormatUint_no_colon n), strconv.ParseUint16_FormatUint n hn, h, h4, hmod]
    simp

end netip

theorem ParseIP_ne_none (host : GoString) (h : net.ParseIP host ≠ none) :
    ∃ ip, netip.ParseAddr host = (ip, none) ∧ ip.Zone = [] := by
  unfold net.ParseIP at h
  simp only [] at h
  split_ifs at h with h1
  · exact absurd rfl h
  · rw [not_or] at h1
    refine ⟨(netip.ParseAddr host).1, Prod.ext rfl ?_, not_not.mp h1.2⟩
    cases he : (netip.ParseAddr host).2 with
    | none => rfl
    | some e => simp [he] at h1

theorem CreateAddrPort_literal (env : Env) (host : GoString) (port : Int) (ip : netip.Addr)
    (h : netip.ParseAddr host = (ip, none)) (hz : ip.Zone = [])
    (hp1 : 1 ≤ port) (hp2 : port ≤ 65535) :
    CreateAddrPort env host port = Outcome.returns ({ ip := ip, port := port.toNat }, none) := by
  have hne : host.length ≠ 0 := by
    intro e
    rw [List.length_eq_zero.mp e] at h
    simp [netip.ParseAddr, netip.ParseAddr.scan] at h
  have hpi : (net.ParseIP host).isNone = false := by
    simp [net.ParseIP, h, hz]
  have hport : ¬ (port ≤ 0 ∨ port > 65535) := by omega
  unfold CreateAddrPort
  simp only [hne, hport, hpi, if_false, Bool.false_eq_true]
  rw [strconv.Itoa_of_pos port (by omega),
    netip.ParseAddrPort_JoinHostPort host ip port.toNat h (by omega)]

namespace net

theorem SplitHostPort_v4 (host p : GoString) (hc : 0x3a ∉ host) (hb1 : 0x5b ∉ host)
    (hb2 : 0x5d ∉ host) (hp1 : 0x3a ∉ p) (hp2 : 0x5b ∉ p) (hp3 : 0x5d ∉ p) :
    SplitHostPort (host ++ [0x3a] ++ p) = ((host, p), none) := by
  unfold SplitHostPort
  have hl : lastIndexByte (host ++ [0x3a] ++ p) 0x3a = some host.length := by
    rw [List.append_assoc, List.singleton_append]
    exact lastIndexByte_append host p 0x3a hp1
  rw [hl]
  have h0 : (host ++ [0x3a] ++ p).getD 0 0 ≠ 0x5b := by
    cases host with
    | nil => simp
    | cons c cs =>
      simp only [List.cons_append, List.getD_cons_zero]
      intro e
      exact hb1 (by simp [e])
  have h1 : (host ++ [0x3a] ++ p).take host.length = host := by
    rw [List.append_assoc, List.take_left]
  have h2 : (host ++ [0x3a] ++ p).drop (host.length + 1) = p := by
    have : (host ++ [0x3a]).length = host.length + 1 := by simp
    rw [← this, List.drop_left]
  have h3 : indexByte host 0x3a = none := (indexByte_eq_none_iff _ _).mpr hc
  have h4 : indexByte (host ++ [0x3a] ++ p) 0x5b = none :=
    (indexByte_eq_none_iff _ _).mpr (by simp [hb1, hp2])
  have h5 : indexByte (host ++ [0x3a] ++ p) 0x5d = none :=
    (indexByte_eq_none_iff _ _).mpr (by simp [hb2, hp3])
  simp only [h0, if_false, h1, h3, Option.isSome_none, Bool.false_eq_true,
    SplitHostPort.finish, List.drop_zero, h4, h5, h2]

theorem SplitHostPort_v6 (host p : GoString) (hb1 : 0x5b ∉ host)
    (hb2 : 0x5d ∉ host) (hp1 : 0x3a ∉ p) (hp2 : 0x5b ∉ p) (hp3 : 0x5d ∉ p) :
    SplitHostPort ([0x5b] ++ host ++ [0x5d, 0x3a] ++ p) = ((host, p), none) := by
  unfold SplitHostPort
  have e1 : [0x5b] ++ host ++ [0x5d, 0x3a] ++ p = ([0x5b] ++ host ++ [0x5d]) ++ 0x3a :: p := by
    simp
  have hl : lastIndexByte ([0x5b] ++ host ++ [0x5d, 0x3a] ++ p) 0x3a = some (host.length + 2) := by
    rw [e1, lastIndexByte_append _ p 0x3a hp1]
    simp
  have e2 : [0x5b] ++ host ++ [0x5d, 0x3a] ++ p = ([0x5b] ++ host) ++ 0x5d :: (0x3a :: p) := by
    simp
  have hi : indexByte ([0x5b] ++ host ++ [0x5d, 0x3a] ++ p) 0x5d = some (host.length + 1) := by
    rw [e2, indexByte_append _ _ 0x5d (by simp [hb2])]
    simp [Nat.add_comm]
  rw [hl]
  have h0 : ([0x5b] ++ host ++ [0x5d, 0x3a] ++ p).getD 0 0 = 0x5b := by simp
  simp only [h0, if_true, hi]
  have hlen : ¬ (host.length + 1 + 1 = ([0x5b] ++ host ++ [0x5d, 0x3a] ++ p).length) := by
    simp
  simp only [hlen, if_false, if_true]
  have h1 : (([0x5b] ++ host ++ [0x5d, 0x3a] ++ p).take (host.length + 1)).drop 1 = host := by
    have : host.length + 1 = ([0x5b] ++ host).length := by simp [Nat.add_comm]
    rw [this, e2, List.take_left]
    simp
  have h2 : ([0x5b] ++ host ++ [0x5d, 0x3a] ++ p).drop (host.length + 2 + 1) = p := by
    have e3 : [0x5b] ++ host ++ [0x5d, 0x3a] ++ p = ([0x5b] ++ host ++ [0x5d, 0x3a]) ++ p := rfl
    have : host.length + 2 + 1 = ([0x5b] ++ host ++ [0x5d, 0x3a]).length := by simp
    rw [this, e3, List.drop_left]
  have h3 : ([0x5b] ++ host ++ [0x5d, 0x3a] ++ p).drop 1 = host ++ [0x5d, 0x3a] ++ p := by simp
  have h4 : ([0x5b] ++ host ++ [0x5d, 0x3a] ++ p).drop (host.length + 1 + 1) = 0x3a :: p := by
    have e3 : [0x5b] ++ host ++ [0x5d, 0x3a] ++ p = ([0x5b] ++ host ++ [0x5d]) ++ 0x3a :: p := by
      simp
    have : host.length + 1 + 1 = ([0x5b] ++ host ++ [0x5d]).length := by simp
    rw [this, e3, List.drop_left]
  have h5 : indexByte (host ++ [0x5d, 0x3a] ++ p) 0x5b = none :=
    (indexByte_eq_none_iff _ _).mpr (by simp [hb1, hp2])
  have h6 : indexByte (0x3a :: p) 0x5d = none :=
    (indexByte_eq_none_iff _ _).mpr (by simp [hp3])
  simp only [SplitHostPort.finish, h1, h2, h3, h4, h5, h6, Option.isSome_none,
    Bool.false_eq_true, if_false]

theorem isIPv4_IPv4 (a b c d : Nat) (port : Int) (zone : GoString) :
    isIPv4 { IP := IPv4 a b c d, Port := port, Zone := zone } = true := by
  simp [isIPv4, IP.To4, IPv4]

theorem bePutUint64_length (v : Nat) : (netip.bePutUint64 v).length = 8 := rfl

/-- The 16-byte form of a parsed address and what `isIPv4` and `Equal` say of it. -/
theorem To16_AsSlice (ip : netip.Addr) (hz : ip.z ≠ netip.z0) :
    (IP.To16 ip.AsSlice).length = 16 ∧
    (ip.z = netip.z4 → (IP.To16 ip.AsSlice).To4.length ≠ 0) ∧
    ((IP.To16 ip.AsSlice).Equal (List.replicate 16 0) = true →
      (IP.To16 ip.AsSlice).To4.length = 0) := by
  by_cases h4 : ip.z = netip.z4
  · have e : IP.To16 ip.AsSlice = IPv4 (ip.addr.lo >>> 24 % 256) (ip.addr.lo >>> 16 % 256)
        (ip.addr.lo >>> 8 % 256) (ip.addr.lo % 256) := by
      simp [netip.Addr.AsSlice, h4, netip.z4, netip.z0, IP.To16]
    rw [e]
    refine ⟨rfl, fun _ => by simp [IP.To4, IPv4], fun he => ?_⟩
    simp [IP.Equal, IPv4] at he
  · have e : IP.To16 ip.AsSlice =
        netip.bePutUint64 ip.addr.hi ++ netip.bePutUint64 ip.addr.lo := by
      simp [netip.Addr.AsSlice, h4, hz, IP.To16, bePutUint64_length]
    rw [e]
    refine ⟨by simp [bePutUint64_length], fun h => absurd h h4, fun he => ?_⟩
    have hl : (netip.bePutUint64 ip.addr.hi ++ netip.bePutUint64 ip.addr.lo).length =
        (List.replicate 16 0).length := by simp [bePutUint64_length]
    simp only [IP.Equal, hl, if_true, beq_iff_eq] at he
    rw [he]
    decide

theorem lookupIPAddr_literal (env : Env) (host : GoString) (ip : netip.Addr)
    (h : netip.ParseAddr host = (ip, none)) :
    lookupIPAddr env host = ([{ IP := IP.To16 ip.AsSlice, Zone := ip.Zone }], none) := by
  have hne : host ≠ [] := by
    intro e
    rw [e] at h
    simp [netip.ParseAddr, netip.ParseAddr.scan] at h
  simp only [lookupIPAddr, hne, if_false, h]

theorem internetAddrList_literal (env : Env) (host : GoString) (ip : netip.Addr) (n : Nat)
    (address : GoString) (hadd : address ≠ [])
    (hs : SplitHostPort address = ((host, strconv.FormatUint n), none))
    (h : netip.ParseAddr host = (ip, none)) (hn : n ≤ 65535) :
    ∃ rest, internetAddrList env address =
        ({ IP := IP.To16 ip.AsSlice, Port := (n : Int), Zone := ip.Zone } :: rest, none) ∧
      (rest = [] ∨ (IP.To16 ip.AsSlice).Equal (List.replicate 16 0) = true) := by
  have hne : host ≠ [] := by
    intro e
    rw [e] at h
    simp [netip.ParseAddr, netip.ParseAddr.scan] at h
  unfold internetAddrList
  simp only [hadd, ne_eq, not_false_eq_true, if_true, hs, LookupPort_FormatUint env n hn, hne,
    if_false, lookupIPAddr_literal env host ip h]
  by_cases he : (IP.To16 ip.AsSlice).Equal (List.replicate 16 0) = true
  · refine ⟨[{ IP := IPv4 0 0 0 0, Port := (n : Int), Zone := [] }], ?_, Or.inr he⟩
    simp only [List.length_singleton, List.map_cons, List.map_nil, he, and_self, if_true]
    simp
  · refine ⟨[], ?_, Or.inl rfl⟩
    simp only [List.length_singleton, List.map_cons, List.map_nil, List.cons.injEq, he,
      and_true, and_false, if_false]
    simp

theorem ResolveUDPAddr_literal (env : Env) (host : GoString) (ip : netip.Addr) (n : Nat)
    (h : netip.ParseAddr host = (ip, none)) (hz : ip.Zone = []) (hn : n ≤ 65535) :
    ResolveUDPAddr env (JoinHostPort host (strconv.FormatUint n)) =
      (some { IP := IP.To16 ip.AsSlice, Port := (n : Int), Zone := [] }, none) := by
  have hd := strconv.FormatUint_digits n
  have hp1 : 0x3a ∉ strconv.FormatUint n := fun hm => by have := hd _ hm; omega
  have hp2 : 0x5b ∉ strconv.FormatUint n := fun hm => by have := hd _ hm; omega
  have hp3 : 0x5d ∉ strconv.FormatUint n := fun hm => by have := hd _ hm; omega
  rcases netip.ParseAddr_ok host ip h with ⟨hz4, hne, hb⟩ | ⟨⟨zone, hz6⟩, hc, hb⟩
  · have hnc : 0x3a ∉ host := fun hm => (netip.isV4Byte_ne _ (hb _ hm)).1 rfl
    have hb1 : 0x5b ∉ host := fun hm => (netip.isV4Byte_ne _ (hb _ hm)).2.1 rfl
    have hb2 : 0x5d ∉ host := fun hm => (netip.isV4Byte_ne _ (hb _ hm)).2.2 rfl
    have hj : JoinHostPort host (strconv.FormatUint n) =
        host ++ [0x3a] ++ strconv.FormatUint n := by
      unfold JoinHostPort
      rw [(indexByte_eq_none_iff host 0x3a).mpr hnc]
      rfl
    rw [hj]
    obtain ⟨rest, e1, _⟩ := internetAddrList_literal env host ip n _ (by simp)
      (SplitHostPort_v4 host _ hnc hb1 hb2 hp1 hp2 hp3) h hn
    have hw : indexByte (host ++ [0x3a] ++ strconv.FormatUint n) 0x5b = none :=
      (indexByte_eq_none_iff _ _).mpr (by simp [hb1, hp2])
    have h4 := (To16_AsSlice ip (by rw [hz4]; decide)).2.1 hz4
    have hi : isIPv4 { IP := IP.To16 ip.AsSlice, Port := (n : Int), Zone := [] } = true := by
      simpa [isIPv4] using h4
    rw [hz] at e1
    simp only [ResolveUDPAddr, e1, forResolve, hw, Option.isSome_none, Bool.false_eq_true,
      if_false, first, List.find?, hi]
  · have hb1 : 0x5b ∉ host := fun hm => (netip.isV6Byte_ne _ (hb hz _ hm)).1 rfl
    have hb2 : 0x5d ∉ host := fun hm => (netip.isV6Byte_ne _ (hb hz _ hm)).2 rfl
    have hj : JoinHostPort host (strconv.FormatUint n) =
        [0x5b] ++ host ++ [0x5d, 0x3a] ++ strconv.FormatUint n := by
      unfold JoinHostPort
      rw [if_pos ((indexByte_isSome_iff host 0x3a).mpr hc)]
    rw [hj]
    obtain ⟨rest, e1, e2⟩ := internetAddrList_literal env host ip n _ (by simp)
      (SplitHostPort_v6 host _ hb1 hb2 hp1 hp2 hp3) h hn
    have hw : (indexByte ([0x5b] ++ host ++ [0x5d, 0x3a] ++ strconv.FormatUint n) 0x5b).isSome
        = true := (indexByte_isSome_iff _ _).mpr (by simp)
    have h16 := To16_AsSlice ip (by rw [hz6]; simp [netip.z0])
    rw [hz] at e1
    simp only [ResolveUDPAddr, e1, forResolve, hw, if_true, first, List.find?]
    by_cases hi : isIPv4 { IP := IP.To16 ip.AsSlice, Port := (n : Int), Zone := [] } = true
    · have hrest : rest = [] := by
        rcases e2 with e | e
        · exact e
        · have := h16.2.2 e
          simp [isIPv4, this] at hi
      subst hrest
      simp [hi]
    · simp [hi]

theorem UDPAddr_String_literal (ip : netip.Addr) (port : Int) (hz : ip.z ≠ netip.z0) :
    UDPAddr.String { IP := IP.To16 ip.AsSlice, Port := port, Zone := [] } =
      JoinHostPort (IP.String (IP.To16 ip.AsSlice)) (strconv.Itoa port) := by
  have h16 := (To16_AsSlice ip hz).1
  simp [UDPAddr.String, h16]

end net

namespace netip

theorem appendDecimal_eq (b : List Nat) (x : Nat) :
    appendDecimal b x = b ++ appendDecimal [] x := by
  unfold appendDecimal
  split_ifs <;> simp

theorem appendHex_eq (b : List Nat) (x : Nat) : appendHex b x = b ++ appendHex [] x := by
  unfold appendHex
  split_ifs <;> simp

theorem appendTo4_eq (ip : Addr) (ret : List Nat) : ip.appendTo4 ret = ret ++ ip.appendTo4 [] := by
  unfold Addr.appendTo4
  simp only []
  rw [appendDecimal_eq _ (ip.v4 3), appendDecimal_eq _ (ip.v4 2), appendDecimal_eq _ (ip.v4 1),
    appendDecimal_eq ret (ip.v4 0)]
  conv_rhs => rw [appendDecimal_eq _ (ip.v4 3), appendDecimal_eq _ (ip.v4 2),
    appendDecimal_eq _ (ip.v4 1)]
  simp

theorem appendTo6_loop_eq (ip : Addr) (zs ze fuel i : Nat) (ret : List Nat) :
    Addr.appendTo6.loop ip zs ze fuel i ret = ret ++ Addr.appendTo6.loop ip zs ze fuel i [] := by
  induction fuel generalizing i ret with
  | zero => simp [Addr.appendTo6.loop]
  | succ f ih =>
    rw [Addr.appendTo6.loop, Addr.appendTo6.loop]
    simp only []
    split_ifs with h1 h2 h3 h4
    · simp
    · rw [ih _ (appendHex (ret ++ [58, 58]) (ip.v6u16 ze)),
        ih _ (appendHex ([] ++ [58, 58]) (ip.v6u16 ze)),
        appendHex_eq (ret ++ [58, 58]), appendHex_eq ([] ++ [58, 58])]
      simp
    · rw [ih _ (appendHex (ret ++ [58]) (ip.v6u16 i)),
        ih _ (appendHex ([] ++ [58]) (ip.v6u16 i)),
        appendHex_eq (ret ++ [58]), appendHex_eq ([] ++ [58])]
      simp
    · rw [ih _ (appendHex ret (ip.v6u16 i)), ih _ (appendHex [] (ip.v6u16 i)),
        appendHex_eq ret]
      simp
    · simp

theorem appendTo6_eq (ip : Addr) (ret : List Nat) : ip.appendTo6 ret = ret ++ ip.appendTo6 [] := by
  unfold Addr.appendTo6
  simp only []
  rw [appendTo6_loop_eq]
  split_ifs <;> simp

theorem appendTo4In6_eq (ip : Addr) (ret : List Nat) :
    ip.appendTo4In6 ret = ret ++ ip.appendTo4In6 [] := by
  unfold Addr.appendTo4In6
  simp only []
  rw [appendTo4_eq]
  conv_rhs => rw [appendTo4_eq]
  split_ifs <;> simp

theorem AddrPort_String_eq (ip : Addr) (port : Nat) (hz : ip.z ≠ z0) :
    AddrPort.String { ip := ip, port := port } =
      (if ip.Is4 then ip.String ++ [0x3a] ++ strconv.FormatUint port
       else [0x5b] ++ ip.String ++ [0x5d, 0x3a] ++ strconv.FormatUint port) := by
  unfold AddrPort.String Addr.String
  simp only [hz, if_false]
  by_cases h4 : ip.z = z4
  · simp [h4, Addr.Is4, Addr.string4]
  · have : ip.Is4 = false := by simp [Addr.Is4, h4]
    simp only [h4, if_false, this, Bool.false_eq_true]
    split_ifs with h46
    · rw [appendTo4In6_eq]
      simp [Addr.string4In6]
    · rw [appendTo6_eq]
      simp [Addr.string6]

end netip

/-! ### `CreateUDPAddr` and `CreateAddrPort` on literal addresses -/

theorem CreateUDPAddr_literal (env : Env) (host : GoString) (port : Int) (ip : netip.Addr)
    (h : netip.ParseAddr host = (ip, none)) (hz : ip.Zone = [])
    (hp1 : 1 ≤ port) (hp2 : port ≤ 65535) :
    CreateUDPAddr env host port =
      (some { IP := net.IP.To16 ip.AsSlice, Port := port, Zone := [] }, none) := by
  have hne : host.length ≠ 0 := by
    intro e
    rw [List.length_eq_zero.mp e] at h
    simp [netip.ParseAddr, netip.ParseAddr.scan] at h
  have hport : ¬ (port ≤ 0 ∨ port > 65535) := by omega
  have hcast : ((port.toNat : Nat) : Int) = port := Int.toNat_of_nonneg (by omega)
  unfold CreateUDPAddr
  simp only [hne, hport, if_false]
  rw [strconv.Itoa_of_pos port (by omega),
    net.ResolveUDPAddr_literal env host ip port.toNat h hz (by omega), hcast]

/-- C5, as stated, fails: the literal `2606:4700:4700:0000:0000:0000:0000:1111` is
accepted by `net.ParseIP`, and with port 6881 the textual form of both results is
`[2606:4700:4700::1111]:6881`, which is not the host joined with the port. -/
theorem Create_noncanonical :
    net.ParseIP (str "2606:4700:4700:0000:0000:0000:0000:1111") ≠ none ∧
    CreateAddrPort Env.offline (str "2606:4700:4700:0000:0000:0000:0000:1111") 6881 =
      Outcome.returns
        ({ ip := { addr := { hi := 0x2606470047000000, lo := 0x1111 }, z := netip.z6noz },
           port := 6881 }, none) ∧
    netip.AddrPort.String
        { ip := { addr := { hi := 0x2606470047000000, lo := 0x1111 }, z := netip.z6noz },
          port := 6881 } = str "[2606:4700:4700::1111]:6881" ∧
    (CreateUDPAddr Env.offline (str "2606:4700:4700:0000:0000:0000:0000:1111") 6881).1.map
        net.UDPAddr.String = some (str "[2606:4700:4700::1111]:6881") ∧
    str "[2606:4700:4700::1111]:6881" ≠
      net.JoinHostPort (str "2606:4700:4700:0000:0000:0000:0000:1111") (strconv.Itoa 6881) := by
  refine ⟨by decide, by decide, by decide, by decide, by decide⟩

/-! ### The assertions of `utils_test.go` that do not depend on the network -/

/-- The four assertions of `TestCompareAddrPorts`, the endpoints parsed from text. -/
theorem TestCompareAddrPorts :
    CompareAddrPorts (netip.ParseAddrPort (str "1.1.1.1:6881")).1
      (netip.ParseAddrPort (str "127.0.0.1:6881")).1 = false ∧
    CompareAddrPorts (netip.ParseAddrPort (str "1.1.1.1:6881")).1
      (netip.ParseAddrPort (str "[::FFFF:127.0.0.1]:6881")).1 = false ∧
    CompareAddrPorts (netip.ParseAddrPort (str "1.1.1.1:6881")).1
      (netip.ParseAddrPort (str "1.1.1.1:6881")).1 = true ∧
    CompareAddrPorts (netip.ParseAddrPort (str "127.0.0.1:6881")).1
      (netip.ParseAddrPort (str "[::FFFF:127.0.0.1]:6881")).1 = true := by
  refine ⟨by decide, by decide, by decide, by decide⟩

/-- The endpoints of `TestCompareAddrPorts` are those of `AddrFrom4` and `AddrFrom16`. -/
theorem TestCompareAddrPorts_endpoints :
    netip.ParseAddrPort (str "127.0.0.1:6881") =
      (netip.AddrPortFrom (netip.AddrFrom4 127 0 0 1) 6881, none) ∧
    netip.ParseAddrPort (str "[::FFFF:127.0.0.1]:6881") =
      (netip.AddrPortFrom
        (netip.AddrFrom16 [0, 0, 0, 0, 0, 0, 0, 0, 0, 0, 0xff, 0xff, 127, 0, 0, 1]) 6881,
        none) := by
  refine ⟨by decide, by decide⟩

/-- The assertions of `TestDecodeId` on fixed texts. -/
theorem TestDecodeId :
    DecodeId (str "abcd") = (some [171, 205], none) ∧
    (DecodeId (str "test")).2 ≠ none ∧ (DecodeId (str "test")).1 = none ∧
    DecodeId (str "") = (none, some (GoError.errorsNew "Invalid ID")) := by
  refine ⟨by decide, by decide, by decide, by decide⟩

/-- The first assertion of `TestDecodeId`: a generated identifier, encoded and decoded
again, is the identifier itself and has 20 bytes. -/
theorem TestDecodeId_generated (env : Env) (id : List Nat)
    (h : GenerateId env = Outcome.returns (some id, none)) :
    DecodeId (hex.EncodeToString id) = (some id, none) ∧ id.length = 20 := by
  have hid : ∃ d : sha1.digest, id = d.Sum := by
    unfold GenerateId at h
    split at h
    · simp at h
    · simp at h
    · simp at h
    · simp only [Outcome.returns.injEq, Prod.mk.injEq, Option.some.injEq, and_true] at h
      exact ⟨_, h.symm⟩
  obtain ⟨d, rfl⟩ := hid
  have hlen := sha1.Sum_length d
  have hne : (hex.EncodeToString d.Sum).length ≠ 0 := by
    cases hs : d.Sum with
    | nil => rw [hs] at hlen; simp at hlen
    | cons v rest => simp [hex.EncodeToString]
  refine ⟨?_, hlen⟩
  simp only [DecodeId, hne, if_false, hex.DecodeString,
    hex.Decode_EncodeToString d.Sum (sha1.Sum_bytes d)]

/-- The assertions of `TestCreateAddrPort` and `TestCreateUDPAddr` on literal
addresses and on the guards. -/
theorem TestCreate_literals :
    (CreateUDPAddr Env.offline (str "127.0.0.1") 6881).1.map net.UDPAddr.String =
      some (str "127.0.0.1:6881") ∧
    (CreateUDPAddr Env.offline (str "::1") 6881).1.map net.UDPAddr.String =
      some (str "[::1]:6881") ∧
    (CreateUDPAddr Env.offline (str "2606:4700:4700::1111") 6881).1.map net.UDPAddr.String =
      some (str "[2606:4700:4700::1111]:6881") ∧
    CreateUDPAddr Env.offline (str "example.com") (-1000) =
      (none, some (GoError.errorsNew "Invalid port")) ∧
    CreateAddrPort Env.offline (str "127.0.0.1") 6881 =
      Outcome.returns (netip.AddrPortFrom (netip.AddrFrom4 127 0 0 1) 6881, none) ∧
    netip.AddrPort.String (netip.AddrPortFrom (netip.AddrFrom4 127 0 0 1) 6881) =
      str "127.0.0.1:6881" ∧
    CreateAddrPort Env.offline (str "example.com") (-1000) =
      Outcome.returns (netip.AddrPort.zero, some (GoError.errorsNew "Invalid port")) := by
  refine ⟨by decide, by decide, by decide, by decide, by decide, by decide, by decide⟩

set_option maxRecDepth 1000000 in
/-- The identifier generated from the entropy bytes `0, 1, ..., 19` is their SHA-1
digest `602c63d2f3d13ca3206cdf204cde24e7d8f4266c`, of 20 bytes as `TestGenerateId`
asserts. -/
theorem TestGenerateId_counting :
    GenerateId Env.counting =
      Outcome.returns (some [96, 44, 99, 210, 243, 209, 60, 163, 32, 108, 223, 32, 76, 222, 36,
        231, 216, 244, 38, 108], none) := by
  decide

/-! ### `DecodeId`: the bytes and the letter case -/

namespace hex

theorem reverseHexTable_eq_hexval (c : Nat) (h : ¬ reverseHexTable c > 0x0f) :
    reverseHexTable c = hexval c ∧ hexval c ≤ 15 := by
  unfold reverseHexTable at h ⊢
  unfold hexval
  split_ifs at h ⊢ <;> omega

theorem nibbles : ∀ a < 16, ∀ b < 16,
    a <<< 4 ||| b = 16 * a + b ∧ (a <<< 4 ||| b) >>> 4 = a ∧ (a <<< 4 ||| b) &&& 0x0f = b := by
  decide

/-- What a successful `Decode` writes: one byte for every two digits. -/
theorem Decode_bytes (s : GoString) (h : (Decode s).2 = none) :
    (Decode s).1.length = s.length / 2 ∧
    ∀ i, i < (Decode s).1.length →
      (Decode s).1.getD i 0 = 16 * hexval (s.getD (2 * i) 0) + hexval (s.getD (2 * i + 1) 0) := by
  induction s using pairs_induction with
  | h0 => simp [Decode]
  | h1 p =>
    by_cases hp : reverseHexTable p > 0x0f <;> simp [Decode, hp] at h
  | h2 p q rest ih =>
    by_cases hp : reverseHexTable p > 0x0f
    · simp [Decode, hp] at h
    · by_cases hq : reverseHexTable q > 0x0f
      · simp [Decode, hp, hq] at h
      · simp only [Decode, hp, hq, if_false] at h ⊢
        obtain ⟨ih1, ih2⟩ := ih h
        obtain ⟨ep, lp⟩ := reverseHexTable_eq_hexval p hp
        obtain ⟨eq, lq⟩ := reverseHexTable_eq_hexval q hq
        refine ⟨by simp only [List.length_cons, ih1]; omega, ?_⟩
        intro i hi
        cases i with
        | zero =>
          simp only [List.getD_cons_zero, Nat.mul_zero, Nat.zero_add, List.getD_cons_succ]
          rw [ep, eq]
          exact (nibbles _ (by omega) _ (by omega)).1
        | succ j =>
          have hj : j < (Decode rest).1.length := by simpa using hi
          have e1 : 2 * (j + 1) = (2 * j) + 1 + 1 := by ring
          have e2 : 2 * (j + 1) + 1 = (2 * j + 1) + 1 + 1 := by ring
          rw [e2, e1]
          simp only [List.getD_cons_succ]
          exact ih2 j hj

end hex

/-- C11: on every text on which `DecodeId` succeeds the result has `len(text)/2`
bytes, whatever that number is, and byte `i` is
`16 * hexval(text[2i]) + hexval(text[2i+1])`. -/
theorem DecodeId_bytes (id dec : List Nat) (h : DecodeId id = (some dec, none)) :
    dec.length = id.length / 2 ∧
    ∀ i, i < dec.length →
      dec.getD i 0 = 16 * hexval (id.getD (2 * i) 0) + hexval (id.getD (2 * i + 1) 0) := by
  unfold DecodeId at h
  split_ifs at h with h0
  · simp at h
  · simp only [hex.DecodeString] at h
    split at h
    · simp at h
    · rename_i hn
      simp only [Prod.mk.injEq, Option.some.injEq, and_true] at h
      subst h
      exact hex.Decode_bytes id hn

theorem DecodeId_bytes_witness :
    [0xAB, 0xCD].length = (str "abcd").length / 2 ∧
    ∀ i, i < [0xAB, 0xCD].length →
      [0xAB, 0xCD].getD i 0 =
        16 * hexval ((str "abcd").getD (2 * i) 0) + hexval ((str "abcd").getD (2 * i + 1) 0) :=
  DecodeId_bytes (str "abcd") [0xAB, 0xCD] (by decide)

namespace hex

theorem reverseHexTable_asciiLower (c : Nat) :
    reverseHexTable (asciiLower c) = reverseHexTable c := by
  unfold reverseHexTable asciiLower
  split_ifs <;> omega

theorem hextable_reverseHexTable : ∀ c < 128, ¬ reverseHexTable c > 0x0f →
    hextable (reverseHexTable c) = asciiLower c := by
  decide

theorem reverseHexTable_lt (c : Nat) (h : ¬ reverseHexTable c > 0x0f) : c < 128 := by
  unfold reverseHexTable at h
  split_ifs at h <;> omega

/-- Encoding what `Decode` wrote gives the text back in small letters. -/
theorem EncodeToString_Decode (s : GoString) (h : (Decode s).2 = none) :
    EncodeToString (Decode s).1 = s.map asciiLower := by
  induction s using pairs_induction with
  | h0 => simp [Decode, EncodeToString]
  | h1 p =>
    by_cases hp : reverseHexTable p > 0x0f <;> simp [Decode, hp] at h
  | h2 p q rest ih =>
    by_cases hp : reverseHexTable p > 0x0f
    · simp [Decode, hp] at h
    · by_cases hq : reverseHexTable q > 0x0f
      · simp [Decode, hp, hq] at h
      · simp only [Decode, hp, hq, if_false] at h ⊢
        have n := nibbles _ (by omega : reverseHexTable p < 16) _
          (by omega : reverseHexTable q < 16)
        simp only [EncodeToString, n.2.1, n.2.2, ih h, List.map_cons,
          hextable_reverseHexTable p (reverseHexTable_lt p hp) hp,
          hextable_reverseHexTable q (reverseHexTable_lt q hq) hq]

/-- The function `Decode` does not see the case of the letters: the bytes written are the
same, and an error is reported for the one text exactly when it is for the other. -/
theorem Decode_asciiLower (s : GoString) :
    (Decode (s.map asciiLower)).1 = (Decode s).1 ∧
    ((Decode (s.map asciiLower)).2 = none ↔ (Decode s).2 = none) := by
  induction s using pairs_induction with
  | h0 => simp [Decode]
  | h1 p =>
    by_cases hp : reverseHexTable p > 0x0f <;>
      simp [Decode, hp, reverseHexTable_asciiLower]
  | h2 p q rest ih =>
    simp only [List.map_cons, Decode, reverseHexTable_asciiLower]
    by_cases hp : reverseHexTable p > 0x0f
    · simp [hp]
    · by_cases hq : reverseHexTable q > 0x0f
      · simp [hp, hq]
      · simp only [hp, hq, if_false, ih.1, ih.2]
        simp

end hex

theorem DecodeId_ok_iff (s d : List Nat) :
    DecodeId s = (some d, none) ↔ s ≠ [] ∧ (hex.Decode s).2 = none ∧ (hex.Decode s).1 = d := by
  unfold DecodeId
  by_cases h0 : s.length = 0
  · have : s = [] := List.length_eq_zero.mp h0
    simp [h0, this]
  · have hne : s ≠ [] := fun e => h0 (by rw [e]; rfl)
    simp only [h0, if_false, hex.DecodeString, hne, ne_eq, not_false_eq_true, true_and]
    cases he : (hex.Decode s).2 with
    | none => simp
    | some e => simp

/-- C16: `DecodeId` is blind to letter case and loses nothing else. When it succeeds on
`s` with the bytes `d`, encoding `d` gives `s` in small letters, and a text `t`
decodes to the same bytes exactly when `t` and `s` agree up to letter case. -/
theorem DecodeId_case (s d : List Nat) (h : DecodeId s = (some d, none)) :
    hex.EncodeToString d = s.map asciiLower ∧
    ∀ t, (DecodeId t = (some d, none) ↔ t.map asciiLower = s.map asciiLower) := by
  obtain ⟨hne, herr, hd⟩ := (DecodeId_ok_iff s d).mp h
  have henc : hex.EncodeToString d = s.map asciiLower := by
    rw [← hd]; exact hex.EncodeToString_Decode s herr
  refine ⟨henc, fun t => ⟨fun ht => ?_, fun ht => ?_⟩⟩
  · obtain ⟨_, terr, td⟩ := (DecodeId_ok_iff t d).mp ht
    rw [← henc, ← td]
    exact (hex.EncodeToString_Decode t terr).symm
  · rw [DecodeId_ok_iff]
    have ls := hex.Decode_asciiLower s
    have lt := hex.Decode_asciiLower t
    rw [ht] at lt
    refine ⟨?_, lt.2.mp (ls.2.mpr herr), ?_⟩
    · intro e
      rw [e] at ht
      simp at ht
      exact hne ht
    · rw [← lt.1, ls.1, hd]

theorem DecodeId_case_witness :
    hex.EncodeToString [0xAB, 0xCD] = (str "aBCd").map asciiLower ∧
    ∀ t, (DecodeId t = (some [0xAB, 0xCD], none) ↔
      t.map asciiLower = (str "aBCd").map asciiLower) :=
  DecodeId_case (str "aBCd") [0xAB, 0xCD] (by decide)

/-! ### `GenerateRandomBytes` -/

theorem ParseAddrPort_error_zero (s : GoString) (h : (netip.ParseAddrPort s).2 ≠ none) :
    (netip.ParseAddrPort s).1 = netip.AddrPort.zero := by
  unfold netip.ParseAddrPort at h ⊢
  simp only [] at h ⊢
  cases e1 : (netip.splitAddrPort s).2 with
  | some err => rfl
  | none =>
    simp only [e1] at h ⊢
    cases e2 : (strconv.ParseUint16 (netip.splitAddrPort s).1.2.1).2 with
    | some err => rfl
    | none =>
      simp only [e2] at h ⊢
      cases e3 : (netip.ParseAddr (netip.splitAddrPort s).1.1).2 with
      | some err => rfl
      | none =>
        simp only [e3] at h ⊢
        split_ifs at h ⊢ with h1 h2
        · rfl
        · rfl
        · exact absurd rfl h

/-- A resolver that answers with an empty list and no error makes `CreateAddrPort`
panic at `ip[0]`. -/
theorem CreateAddrPort_panics :
    CreateAddrPort Env.emptyAnswer (str "example.com") 6881 = Outcome.panics := by
  decide

/-- C17: if every successful lookup returns a non-empty list, `CreateAddrPort` returns
for every host and every integer port, and never panics; what it returns is an
endpoint without error, or the zero endpoint with an error. -/
theorem CreateAddrPort_total (env : Env)
    (hpre : ∀ h, (env.LookupIP h).2 = none → (env.LookupIP h).1 ≠ [])
    (host : GoString) (port : Int) :
    ∃ ap err, CreateAddrPort env host port = Outcome.returns (ap, err) ∧
      (err ≠ none → ap = netip.AddrPort.zero) := by
  have hparse : ∀ s, ∃ ap err, Outcome.returns (netip.ParseAddrPort s) =
      Outcome.returns (ap, err) ∧ (err ≠ none → ap = netip.AddrPort.zero) :=
    fun s => ⟨(netip.ParseAddrPort s).1, (netip.ParseAddrPort s).2, rfl,
      ParseAddrPort_error_zero s⟩
  unfold CreateAddrPort
  simp only []
  split_ifs with h1 h2 h3
  · exact ⟨_, _, rfl, fun _ => rfl⟩
  · exact ⟨_, _, rfl, fun _ => rfl⟩
  · cases he : (env.LookupIP host).2 with
    | some e => exact ⟨_, _, rfl, fun _ => rfl⟩
    | none =>
      cases hl : (env.LookupIP host).1 with
      | nil => exact absurd hl (hpre host he)
      | cons ip0 rest => exact hparse _
  · exact hparse _

theorem CreateAddrPort_total_witness :
    ∃ ap err, CreateAddrPort Env.localhost (str "example.com") 6881 =
        Outcome.returns (ap, err) ∧
      (err ≠ none → ap = netip.AddrPort.zero) :=
  CreateAddrPort_total Env.localhost (fun _ _ => by simp [Env.localhost])
    (str "example.com") 6881


/-! ### `CompareAddrPorts` as an equivalence relation -/

namespace netip

theorem Addr.Is6_iff_BitLen (ip : Addr) : ip.Is6 = true ↔ ip.BitLen = 128 := by
  unfold Addr.Is6 Addr.BitLen
  by_cases h0 : ip.z = z0
  · simp [h0]
  · by_cases h4 : ip.z = z4
    · simp [h4, z0, z4]
    · simp [h0, h4]

/-- The fields that `Compare` inspects: it returns zero exactly when all of them agree. -/
theorem Addr.Compare_eq_zero_iff_fields (ip ip2 : Addr) :
    ip.Compare ip2 = 0 ↔
      ip.BitLen = ip2.BitLen ∧ ip.addr.hi = ip2.addr.hi ∧ ip.addr.lo = ip2.addr.lo ∧
        (ip.Is6 = true → ip.Zone = ip2.Zone) := by
  constructor
  · exact Addr.Compare_eq_zero ip ip2
  · rintro ⟨h1, h2, h3, h4⟩
    unfold Addr.Compare
    simp only [h1, h2, h3, lt_self_iff_false, gt_iff_lt, if_false]
    by_cases h6 : ip.Is6 = true
    · simp [h6, h4 h6, stringLess_irrefl]
    · simp [h6]

theorem Addr.Compare_symm (ip ip2 : Addr) (h : ip.Compare ip2 = 0) : ip2.Compare ip = 0 := by
  rw [Addr.Compare_eq_zero_iff_fields] at h ⊢
  obtain ⟨h1, h2, h3, h4⟩ := h
  refine ⟨h1.symm, h2.symm, h3.symm, fun h6 => (h4 ?_).symm⟩
  rw [Addr.Is6_iff_BitLen] at h6 ⊢
  rw [h1]; exact h6

theorem Addr.Compare_trans (a b c : Addr) (hab : a.Compare b = 0) (hbc : b.Compare c = 0) :
    a.Compare c = 0 := by
  rw [Addr.Compare_eq_zero_iff_fields] at hab hbc ⊢
  obtain ⟨h1, h2, h3, h4⟩ := hab
  obtain ⟨k1, k2, k3, k4⟩ := hbc
  refine ⟨h1.trans k1, h2.trans k2, h3.trans k3, fun h6 => (h4 h6).trans (k4 ?_)⟩
  rw [Addr.Is6_iff_BitLen] at h6 ⊢
  rw [← h1]; exact h6

end netip

theorem CompareAddrPorts_eq_true_iff (a b : netip.AddrPort) :
    CompareAddrPorts a b = true ↔ a.Addr.Unmap.Compare b.Addr.Unmap = 0 ∧ a.Port = b.Port := by
  simp [CompareAddrPorts]

/-- C15: `CompareAddrPorts` is symmetric and transitive on all endpoint values, and so,
being reflexive as well, an equivalence relation on them. -/
theorem CompareAddrPorts_equivalence :
    (∀ a b, CompareAddrPorts a b = CompareAddrPorts b a) ∧
    (∀ a b c, CompareAddrPorts a b = true → CompareAddrPorts b c = true →
      CompareAddrPorts a c = true) ∧
    Equivalence (fun a b => CompareAddrPorts a b = true) := by
  have hsymm : ∀ a b, CompareAddrPorts a b = true → CompareAddrPorts b a = true := by
    intro a b h
    rw [CompareAddrPorts_eq_true_iff] at h ⊢
    exact ⟨netip.Addr.Compare_symm _ _ h.1, h.2.symm⟩
  have htrans : ∀ a b c, CompareAddrPorts a b = true → CompareAddrPorts b c = true →
      CompareAddrPorts a c = true := by
    intro a b c hab hbc
    rw [CompareAddrPorts_eq_true_iff] at hab hbc ⊢
    exact ⟨netip.Addr.Compare_trans _ _ _ hab.1 hbc.1, hab.2.trans hbc.2⟩
  have hrefl : ∀ a, CompareAddrPorts a a = true := by
    intro a
    rw [CompareAddrPorts_eq_true_iff]
    exact ⟨netip.Addr.Compare_self _, rfl⟩
  refine ⟨fun a b => ?_, htrans, ⟨hrefl, fun h => hsymm _ _ h, fun h1 h2 => htrans _ _ _ h1 h2⟩⟩
  cases hab : CompareAddrPorts a b with
  | true => exact (hsymm a b hab).symm
  | false =>
    cases hba : CompareAddrPorts b a with
    | false => rfl
    | true => rw [hsymm b a hba] at hab; exact absurd hab (by decide)

/-! ### The endpoint invariant -/

theorem JoinHostPort_form (h p : GoString) :
    ∃ x, net.JoinHostPort h p = x ++ 0x3a :: p := by
  unfold net.JoinHostPort
  split_ifs
  · exact ⟨[0x5b] ++ h ++ [0x5d], by simp⟩
  · exact ⟨h, by simp⟩

namespace netip

theorem ParseAddr_valid (s : GoString) (ip : Addr) (h : ParseAddr s = (ip, none)) :
    ip.IsValid = true := by
  rcases ParseAddr_ok s ip h with ⟨h4, _, _⟩ | ⟨⟨zone, h6⟩, _, _⟩
  · simp [Addr.IsValid, h4, z4, z0]
  · simp [Addr.IsValid, h6, z0]

/-- The port text that `splitAddrPort` returns is what follows the last colon. -/
theorem splitAddrPort_port (x p : GoString) (hpc : 0x3a ∉ p)
    (r : GoString × GoString × Bool) (h : splitAddrPort (x ++ 0x3a :: p) = (r, none)) :
    r.2.1 = p := by
  unfold splitAddrPort at h
  rw [lastIndexByte_append x p 0x3a hpc] at h
  have h2 : (x ++ 0x3a :: p).drop (x.length + 1) = p := by
    have e : x ++ 0x3a :: p = (x ++ [0x3a]) ++ p := by simp
    have : (x ++ [0x3a]).length = x.length + 1 := by simp
    rw [e, ← this, List.drop_left]
  simp only [h2] at h
  split_ifs at h <;>
    first
    | (simp at h; done)
    | (simp only [Prod.mk.injEq, and_true] at h; rw [← h])

/-- A successful `ParseAddrPort` on a joined host and port returns the port and a valid
address, whatever the host text is. -/
theorem ParseAddrPort_JoinHostPort_ok (h : GoString) (n : Nat) (hn : n ≤ 65535)
    (ap : AddrPort) (hok : ParseAddrPort (net.JoinHostPort h (strconv.FormatUint n)) = (ap, none)) :
    ap.port = n ∧ ap.ip.IsValid = true := by
  obtain ⟨x, hx⟩ := JoinHostPort_form h (strconv.FormatUint n)
  rw [hx] at hok
  have hmod : n % 2 ^ 16 = n := Nat.mod_eq_of_lt (by norm_num; omega)
  unfold ParseAddrPort at hok
  simp only [] at hok
  cases e1 : (splitAddrPort (x ++ 0x3a :: strconv.FormatUint n)).2 with
  | some err => simp [e1] at hok
  | none =>
    have hp := splitAddrPort_port x _ (FormatUint_no_colon n) _ (Prod.ext rfl e1)
    simp only [e1, hp, strconv.ParseUint16_FormatUint n hn] at hok
    cases e3 : (ParseAddr (splitAddrPort (x ++ 0x3a :: strconv.FormatUint n)).1.1).2 with
    | some err => simp [e3] at hok
    | none =>
      simp only [e3] at hok
      split_ifs at hok with h1 h2
      · simp at hok
      · simp at hok
      · simp only [Prod.mk.injEq, and_true] at hok
        rw [← hok]
        exact ⟨hmod, ParseAddr_valid _ _ (Prod.ext rfl e3)⟩

end netip

theorem CreateAddrPort_ok (env : Env) (host : GoString) (port : Int) (ap : netip.AddrPort)
    (h : CreateAddrPort env host port = Outcome.returns (ap, none)) :
    (ap.Port : Int) = port ∧ 1 ≤ port ∧ port ≤ 65535 ∧ ap.Addr.IsValid = true := by
  unfold CreateAddrPort at h
  simp only [] at h
  have key : ∀ s, Outcome.returns (netip.ParseAddrPort
      (net.JoinHostPort s (strconv.Itoa port))) = Outcome.returns (ap, none) →
      1 ≤ port → port ≤ 65535 →
      (ap.Port : Int) = port ∧ 1 ≤ port ∧ port ≤ 65535 ∧ ap.Addr.IsValid = true := by
    intro s hs hp1 hp2
    simp only [Outcome.returns.injEq] at hs
    rw [strconv.Itoa_of_pos port (by omega)] at hs
    obtain ⟨e1, e2⟩ := netip.ParseAddrPort_JoinHostPort_ok s port.toNat (by omega) ap hs
    refine ⟨?_, hp1, hp2, e2⟩
    simp only [netip.AddrPort.Port, e1]
    exact Int.toNat_of_nonneg (by omega)
  split_ifs at h with h1 h2 h3
  · simp at h
  · simp at h
  · have hp : 1 ≤ port ∧ port ≤ 65535 := by omega
    split at h
    · simp at h
    · split at h
      · simp at h
      · exact key _ h hp.1 hp.2
  · have hp : 1 ≤ port ∧ port ≤ 65535 := by omega
    exact key _ h hp.1 hp.2


namespace net

/-- The port text that `SplitHostPort` returns is what follows the last colon. -/
theorem SplitHostPort_port (x p : GoString) (hpc : 0x3a ∉ p)
    (r : GoString × GoString) (h : SplitHostPort (x ++ 0x3a :: p) = (r, none)) :
    r.2 = p := by
  unfold SplitHostPort at h
  rw [lastIndexByte_append x p 0x3a hpc] at h
  have h2 : (x ++ 0x3a :: p).drop (x.length + 1) = p := by
    have e : x ++ 0x3a :: p = (x ++ [0x3a]) ++ p := by simp
    have : (x ++ [0x3a]).length = x.length + 1 := by simp
    rw [e, ← this, List.drop_left]
  simp only [SplitHostPort.finish, h2] at h
  split at h
  · split at h
    · simp at h
    · split_ifs at h <;>
        first
        | (simp at h; done)
        | (simp only [Prod.mk.injEq, and_true] at h; rw [← h])
  · split_ifs at h <;>
      first
      | (simp at h; done)
      | (simp only [Prod.mk.injEq, and_true] at h; rw [← h])

theorem first_mem (addrs : List UDPAddr) (strategy : UDPAddr → Bool) (u : UDPAddr)
    (h : first addrs strategy = some u) : u ∈ addrs := by
  unfold first at h
  split at h
  · rename_i a ha
    simp only [Option.some.injEq] at h
    subst h
    exact List.mem_of_find?_eq_some ha
  · exact List.mem_of_mem_head? h

theorem forResolve_mem (addrs : List UDPAddr) (addr : GoString) (u : UDPAddr)
    (h : forResolve addrs addr = some u) : u ∈ addrs := by
  unfold forResolve at h
  simp only [] at h
  split_ifs at h <;> exact first_mem _ _ _ h

/-- Every address that `internetAddrList` returns for a joined host and port carries
the port. -/
theorem internetAddrList_port (env : Env) (x : GoString) (n : Nat) (hn : n ≤ 65535)
    (addrs : List UDPAddr)
    (h : internetAddrList env (x ++ 0x3a :: strconv.FormatUint n) = (addrs, none)) :
    ∀ u ∈ addrs, u.Port = (n : Int) := by
  have hne : x ++ 0x3a :: strconv.FormatUint n ≠ [] := by simp
  unfold internetAddrList at h
  simp only [hne, ne_eq, not_false_eq_true, if_true] at h
  cases e1 : (SplitHostPort (x ++ 0x3a :: strconv.FormatUint n)).2 with
  | some err => simp [e1] at h
  | none =>
    have hp := SplitHostPort_port x _ (netip.FormatUint_no_colon n) _ (Prod.ext rfl e1)
    simp only [e1, hp, LookupPort_FormatUint env n hn] at h
    by_cases h1 : (SplitHostPort (x ++ 0x3a :: strconv.FormatUint n)).1.1 = []
    · rw [if_pos h1] at h
      simp only [Prod.mk.injEq, and_true] at h
      subst h
      simp
    · rw [if_neg h1] at h
      cases e2 : (lookupIPAddr env (SplitHostPort (x ++ 0x3a :: strconv.FormatUint n)).1.1).2 with
      | some err => simp [e2] at h
      | none =>
        simp only [e2] at h
        split_ifs at h <;>
          first
          | (simp at h; done)
          | (simp only [Prod.mk.injEq, and_true] at h
             subst h
             intro u hu
             obtain ⟨a, _, rfl⟩ := List.mem_map.mp hu
             rfl)

theorem ResolveUDPAddr_port (env : Env) (host : GoString) (n : Nat) (hn : n ≤ 65535)
    (u : UDPAddr)
    (h : ResolveUDPAddr env (JoinHostPort host (strconv.FormatUint n)) = (some u, none)) :
    u.Port = (n : Int) := by
  obtain ⟨x, hx⟩ := JoinHostPort_form host (strconv.FormatUint n)
  rw [hx] at h
  unfold ResolveUDPAddr at h
  simp only [] at h
  split at h
  · simp at h
  · rename_i e
    simp only [Prod.mk.injEq, and_true] at h
    exact internetAddrList_port env x n hn _ (Prod.ext rfl e) u (forResolve_mem _ _ _ h)

end net

/-- C13: whenever `CreateAddrPort` succeeds, the port of the endpoint is the given port,
which lies in [1, 65535], and the address is valid; whenever `CreateUDPAddr`
succeeds, its `Port` field is the given port, which lies in [1, 65535]. -/
theorem Create_invariant (env : Env) (host : GoString) (port : Int) :
    (∀ ap, CreateAddrPort env host port = Outcome.returns (ap, none) →
      (ap.Port : Int) = port ∧ 1 ≤ port ∧ port ≤ 65535 ∧ ap.Addr.IsValid = true) ∧
    (∀ u, CreateUDPAddr env host port = (some u, none) →
      u.Port = port ∧ 1 ≤ port ∧ port ≤ 65535) := by
  refine ⟨fun ap h => CreateAddrPort_ok env host port ap h, fun u h => ?_⟩
  unfold CreateUDPAddr at h
  split_ifs at h with h1 h2
  · simp at h
  · simp at h
  · have hp : 1 ≤ port ∧ port ≤ 65535 := by omega
    rw [strconv.Itoa_of_pos port (by omega)] at h
    have := net.ResolveUDPAddr_port env host port.toNat (by omega) u h
    rw [Int.toNat_of_nonneg (by omega)] at this
    exact ⟨this, hp.1, hp.2⟩

theorem Create_invariant_witness :
    (((netip.AddrPortFrom (netip.AddrFrom4 127 0 0 1) 6881).Port : Int) = 6881 ∧
      (1 : Int) ≤ 6881 ∧ (6881 : Int) ≤ 65535 ∧
      (netip.AddrPortFrom (netip.AddrFrom4 127 0 0 1) 6881).Addr.IsValid = true) ∧
    ((net.UDPAddr.mk (net.IPv4 127 0 0 1) 6881 []).Port = 6881 ∧
      (1 : Int) ≤ 6881 ∧ (6881 : Int) ≤ 65535) :=
  ⟨(Create_invariant Env.offline (str "127.0.0.1") 6881).1 _ (by decide),
    (Create_invariant Env.offline (str "127.0.0.1") 6881).2 _ (by decide)⟩

/-! ### `CreateAddrPort` and the resolver: reading back the text of an address -/

namespace netip

/-! ### Words as sums of bytes -/

theorem shift_or (low high k : Nat) (h : low < 2 ^ k) :
    high <<< k ||| low = high * 2 ^ k + low := by
  rw [Nat.shiftLeft_eq, Nat.mul_comm high, Nat.mul_add_lt_is_or h]

theorem or_shift (low high k : Nat) (h : low < 2 ^ k) :
    low ||| high <<< k = low + high * 2 ^ k := by
  rw [Nat.or_comm, shift_or low high k h, Nat.add_comm]

theorem beUint64_eq (b0 b1 b2 b3 b4 b5 b6 b7 : Nat) (h1 : b1 < 256)
    (h2 : b2 < 256) (h3 : b3 < 256) (h4 : b4 < 256) (h5 : b5 < 256) (h6 : b6 < 256)
    (h7 : b7 < 256) :
    beUint64 b0 b1 b2 b3 b4 b5 b6 b7 =
      b7 + b6 * 2 ^ 8 + b5 * 2 ^ 16 + b4 * 2 ^ 24 + b3 * 2 ^ 32 + b2 * 2 ^ 40 + b1 * 2 ^ 48 +
        b0 * 2 ^ 56 := by
  unfold beUint64
  rw [or_shift b7 b6 8 (by omega), or_shift _ b5 16 (by omega), or_shift _ b4 24 (by omega),
    or_shift _ b3 32 (by omega), or_shift _ b2 40 (by omega), or_shift _ b1 48 (by omega),
    or_shift _ b0 56 (by omega)]

theorem v4word_eq (a b c d : Nat) (ha : a < 256) (hb : b < 256) (hc : c < 256)
    (hd : d < 256) :
    (0xffff00000000 ||| a <<< 24 ||| b <<< 16 ||| c <<< 8 ||| d) =
      0xffff * 2 ^ 32 + a * 2 ^ 24 + b * 2 ^ 16 + c * 2 ^ 8 + d := by
  have e : (0xffff00000000 : Nat) = 0xffff <<< 32 := by decide
  rw [e, Nat.or_assoc, Nat.or_assoc, Nat.or_assoc, shift_or d c 8 (by omega),
    shift_or _ b 16 (by omega), shift_or _ a 24 (by omega), shift_or _ 0xffff 32 (by omega)]
  omega

theorem AddrFrom4_v4 (a b c d : Nat) (ha : a < 256) (hb : b < 256) (hc : c < 256)
    (hd : d < 256) :
    (AddrFrom4 a b c d).v4 0 = a ∧ (AddrFrom4 a b c d).v4 1 = b ∧
    (AddrFrom4 a b c d).v4 2 = c ∧ (AddrFrom4 a b c d).v4 3 = d := by
  simp only [Addr.v4, AddrFrom4, v4word_eq a b c d ha hb hc hd, Nat.shiftRight_eq_div_pow]
  refine ⟨?_, ?_, ?_, ?_⟩ <;> norm_num <;> omega

/-! ### Reading back the text of an IPv4 address -/

theorem digits_lt_ten : ∀ i < 10, digits i = 0x30 + i := by decide

theorem loop_digit (input s : GoString) (c : Nat) (cs : List Nat) (i val pos digLen : Nat)
    (fields : List Nat) (hc : 0x30 ≤ c ∧ c ≤ 0x39) (hz : ¬(digLen = 1 ∧ val = 0))
    (hv : val * 10 + c - 0x30 ≤ 255) :
    parseIPv4Fields.loop input s (c :: cs) i val pos digLen fields =
      parseIPv4Fields.loop input s cs (i + 1) (val * 10 + c - 0x30) pos (digLen + 1) fields := by
  rw [parseIPv4Fields.loop]
  have hv2 : ¬ (val * 10 + c - 0x30 > 255) := by omega
  simp only [hc, and_self, if_true, hz, if_false, hv2]

theorem loop_dot (input s init : GoString) (c : Nat) (cs : List Nat) (val pos digLen : Nat)
    (fields : List Nat) (hs : s = init ++ c :: 0x2e :: cs) (hc : c ≠ 0x2e) (hcs : cs ≠ [])
    (hpos : pos < 3) :
    parseIPv4Fields.loop input s (0x2e :: cs) (init.length + 1) val pos digLen fields =
      parseIPv4Fields.loop input s cs (init.length + 1 + 1) 0 (pos + 1) 0
        (fields.set pos (val % 256)) := by
  rw [parseIPv4Fields.loop]
  have h1 : ¬ (0x30 ≤ 0x2e ∧ 0x2e ≤ 0x39) := by decide
  have hlen : s.length = init.length + 1 + 1 + cs.length := by
    rw [hs]; simp; omega
  have hcl : cs.length ≠ 0 := fun e => hcs (List.length_eq_zero.mp e)
  have hget : s.getD (init.length + 1 - 1) 0 = c := by
    rw [hs, Nat.add_sub_cancel, List.getD_eq_getElem?_getD, List.getElem?_append_right (le_refl _)]
    simp
  have h2 : ¬ (init.length + 1 = 0 ∨ init.length + 1 = s.length - 1 ∨
      s.getD (init.length + 1 - 1) 0 = 0x2e) := by
    rw [hget, hlen]
    omega
  have h3 : ¬ pos = 3 := by omega
  simp only [h1, if_false, if_true, h2, h3]

/-- The text of a byte in decimal: its last digit after the leading ones. -/
theorem appendDecimal_nil (x : Nat) (hx : x < 256) :
    appendDecimal [] x =
      (if x ≥ 100 then [0x30 + x / 100] else []) ++
        (if x ≥ 10 then [0x30 + x / 10 % 10] else []) ++ [0x30 + x % 10] := by
  unfold appendDecimal
  rw [digits_lt_ten (x / 100) (by omega), digits_lt_ten (x / 10 % 10) (by omega),
    digits_lt_ten (x % 10) (by omega)]
  split_ifs <;> simp

/-- The loop of `parseIPv4Fields` reads the decimal text of a byte `x` as far as its
last digit, with the value `x / 10` in hand. -/
theorem loop_field (input s : GoString) (x : Nat) (hx : x < 256) (rest : List Nat)
    (i pos : Nat) (fields : List Nat) :
    ∃ init : List Nat, appendDecimal [] x = init ++ [0x30 + x % 10] ∧
      parseIPv4Fields.loop input s (appendDecimal [] x ++ rest) i 0 pos 0 fields =
        parseIPv4Fields.loop input s rest (i + init.length + 1) x pos (init.length + 1)
          fields := by
  rw [appendDecimal_nil x hx]
  by_cases h100 : x ≥ 100
  · refine ⟨[0x30 + x / 100, 0x30 + x / 10 % 10], by simp [h100, show x ≥ 10 by omega], ?_⟩
    simp only [h100, show x ≥ 10 by omega, if_true, List.cons_append, List.nil_append,
      List.length_cons, List.length_nil]
    rw [loop_digit _ _ _ _ _ _ _ _ _ (by omega) (by omega) (by omega),
      loop_digit _ _ _ _ _ _ _ _ _ (by omega) (by omega) (by omega),
      loop_digit _ _ _ _ _ _ _ _ _ (by omega) (by omega) (by omega)]
    congr 1
    all_goals omega
  · by_cases h10 : x ≥ 10
    · refine ⟨[0x30 + x / 10 % 10], by simp [h100, h10], ?_⟩
      simp only [h100, h10, if_true, if_false, List.cons_append, List.nil_append,
        List.length_cons, List.length_nil]
      rw [loop_digit _ _ _ _ _ _ _ _ _ (by omega) (by omega) (by omega),
        loop_digit _ _ _ _ _ _ _ _ _ (by omega) (by omega) (by omega)]
      congr 1
      all_goals omega
    · refine ⟨[], by simp [h100, h10], ?_⟩
      simp only [h100, h10, if_false, List.cons_append, List.nil_append,
        List.length_nil]
      rw [loop_digit _ _ _ _ _ _ _ _ _ (by omega) (by omega) (by omega)]
      congr 1
      all_goals omega

theorem loop_field_dot (input s pre : GoString) (x : Nat) (hx : x < 256) (cs : List Nat)
    (pos : Nat) (fields : List Nat) (hs : s = pre ++ appendDecimal [] x ++ 0x2e :: cs)
    (hcs : cs ≠ []) (hpos : pos < 3) :
    parseIPv4Fields.loop input s (appendDecimal [] x ++ 0x2e :: cs) pre.length 0 pos 0 fields =
      parseIPv4Fields.loop input s cs (pre ++ appendDecimal [] x ++ [0x2e]).length 0 (pos + 1) 0
        (fields.set pos x) := by
  obtain ⟨init, e1, e2⟩ := loop_field input s x hx (0x2e :: cs) pre.length pos fields
  rw [e2]
  have hs2 : s = (pre ++ init) ++ (0x30 + x % 10) :: 0x2e :: cs := by
    rw [hs, e1]; simp
  have hl : pre.length + init.length = (pre ++ init).length := by simp
  rw [hl, loop_dot input s (pre ++ init) (0x30 + x % 10) cs x pos _ fields hs2 (by omega) hcs
    hpos, Nat.mod_eq_of_lt hx, e1]
  congr 1
  simp
  omega

theorem loop_field_end (input s : GoString) (x : Nat) (hx : x < 256) (i : Nat)
    (fields : List Nat) :
    parseIPv4Fields.loop input s (appendDecimal [] x) i 0 3 0 fields =
      (fields.set 3 x, none) := by
  obtain ⟨init, _, e2⟩ := loop_field input s x hx [] i 3 fields
  rw [List.append_nil] at e2
  rw [e2, parseIPv4Fields.loop]
  simp [Nat.mod_eq_of_lt hx]

theorem appendDecimal_ne_nil (x : Nat) : appendDecimal [] x ≠ [] := by
  unfold appendDecimal
  simp

theorem string4_eq (a b c d : Nat) (ha : a < 256) (hb : b < 256) (hc : c < 256)
    (hd : d < 256) :
    (AddrFrom4 a b c d).string4 =
      appendDecimal [] a ++ 0x2e :: (appendDecimal [] b ++ 0x2e :: (appendDecimal [] c ++
        0x2e :: appendDecimal [] d)) := by
  obtain ⟨v0, v1, v2, v3⟩ := AddrFrom4_v4 a b c d ha hb hc hd
  unfold Addr.string4 Addr.appendTo4
  simp only [v0, v1, v2, v3]
  rw [appendDecimal_eq _ d, appendDecimal_eq _ c, appendDecimal_eq _ b]
  simp

/-- Parsing the text of an IPv4 address gives the address back. -/
theorem parseIPv4_string4 (a b c d : Nat) (ha : a < 256) (hb : b < 256) (hc : c < 256)
    (hd : d < 256) :
    parseIPv4 (AddrFrom4 a b c d).string4 = (AddrFrom4 a b c d, none) := by
  rw [string4_eq a b c d ha hb hc hd]
  unfold parseIPv4 parseIPv4Fields
  simp only [List.take_length, List.drop_zero]
  have hd' := appendDecimal_ne_nil d
  have step1 := loop_field_dot
    (appendDecimal [] a ++ 0x2e :: (appendDecimal [] b ++ 0x2e :: (appendDecimal [] c ++
        0x2e :: appendDecimal [] d)))
    (appendDecimal [] a ++ 0x2e :: (appendDecimal [] b ++ 0x2e :: (appendDecimal [] c ++
        0x2e :: appendDecimal [] d)))
    [] a ha (appendDecimal [] b ++ 0x2e :: (appendDecimal [] c ++ 0x2e :: appendDecimal [] d))
    0 [0, 0, 0, 0] (by simp) (by simp) (by omega)
  have step2 := loop_field_dot
    (appendDecimal [] a ++ 0x2e :: (appendDecimal [] b ++ 0x2e :: (appendDecimal [] c ++
        0x2e :: appendDecimal [] d)))
    (appendDecimal [] a ++ 0x2e :: (appendDecimal [] b ++ 0x2e :: (appendDecimal [] c ++
        0x2e :: appendDecimal [] d)))
    ([] ++ appendDecimal [] a ++ [0x2e]) b hb (appendDecimal [] c ++ 0x2e :: appendDecimal [] d)
    1 ([0, 0, 0, 0].set 0 a) (by simp) (by simp) (by omega)
  have step3 := loop_field_dot
    (appendDecimal [] a ++ 0x2e :: (appendDecimal [] b ++ 0x2e :: (appendDecimal [] c ++
        0x2e :: appendDecimal [] d)))
    (appendDecimal [] a ++ 0x2e :: (appendDecimal [] b ++ 0x2e :: (appendDecimal [] c ++
        0x2e :: appendDecimal [] d)))
    ([] ++ appendDecimal [] a ++ [0x2e] ++ appendDecimal [] b ++ [0x2e]) c hc
    (appendDecimal [] d)
    2 (([0, 0, 0, 0].set 0 a).set 1 b) (by simp) hd' (by omega)
  simp only [List.length_nil] at step1
  rw [step1, step2, step3, loop_field_end _ _ d hd]
  simp [AddrFrom4]


theorem digits_hex : ∀ d, d < 16 →
    (d < 10 → digits d = 0x30 + d) ∧ (10 ≤ d → digits d = 0x61 + (d - 10)) := by
  decide

theorem hexLoop_step (input s cs : GoString) (d off acc : Nat) (hd : d < 16) (ho : off ≤ 3)
    (ha : acc * 16 + d ≤ 0xffff) :
    parseIPv6.hexLoop input s (digits d :: cs) off acc
      = parseIPv6.hexLoop input s cs (off + 1) (acc * 16 + d) := by
  have h := digits_hex d hd
  have hs : acc <<< 4 = acc * 16 := by rw [Nat.shiftLeft_eq]
  by_cases h10 : d < 10
  · rw [h.1 h10, parseIPv6.hexLoop]
    have c1 : 0x30 ≤ 0x30 + d ∧ 0x30 + d ≤ 0x39 := by omega
    have e : (acc <<< 4 + (0x30 + d - 0x30)) % 2 ^ 32 = acc * 16 + d := by
      rw [hs]; omega
    simp only [c1, and_self, if_true, e]
    rw [if_neg (by omega), if_neg (by omega)]
  · rw [h.2 (by omega), parseIPv6.hexLoop]
    have c1 : ¬ (0x30 ≤ 0x61 + (d - 10) ∧ 0x61 + (d - 10) ≤ 0x39) := by omega
    have c2 : 0x61 ≤ 0x61 + (d - 10) ∧ 0x61 + (d - 10) ≤ 0x66 := by omega
    have e : (acc <<< 4 + (0x61 + (d - 10) - 0x61 + 10)) % 2 ^ 32 = acc * 16 + d := by
      rw [hs]; omega
    rw [if_neg c1, if_pos c2, e]
    show (if off > 3 then _ else _) = _
    rw [if_neg (by omega), if_neg (by omega)]

theorem hexLoop_colon (input s t : GoString) (off acc : Nat) :
    parseIPv6.hexLoop input s (0x3a :: t) off acc = ((off, acc), none) := by
  simp [parseIPv6.hexLoop]

theorem hexLoop_stop (input s rest : GoString) (off acc : Nat)
    (hr : rest = [] ∨ ∃ t, rest = 0x3a :: t) :
    parseIPv6.hexLoop input s rest off acc = ((off, acc), none) := by
  rcases hr with rfl | ⟨t, rfl⟩
  · rfl
  · exact hexLoop_colon input s t off acc

theorem appendHex_nil_cases (g : Nat) (hg : g < 65536) :
    appendHex [] g =
      if g ≥ 0x1000 then [digits (g / 4096), digits (g / 256 % 16), digits (g / 16 % 16),
        digits (g % 16)]
      else if g ≥ 0x100 then [digits (g / 256 % 16), digits (g / 16 % 16), digits (g % 16)]
      else if g ≥ 0x10 then [digits (g / 16 % 16), digits (g % 16)]
      else [digits (g % 16)] := by
  have e1 : g >>> 12 = g / 4096 := by rw [Nat.shiftRight_eq_div_pow]
  have e2 : g >>> 8 &&& 0xf = g / 256 % 16 := by
    rw [Nat.shiftRight_eq_div_pow]; exact Nat.and_pow_two_sub_one_eq_mod _ 4
  have e3 : g >>> 4 &&& 0xf = g / 16 % 16 := by
    rw [Nat.shiftRight_eq_div_pow]; exact Nat.and_pow_two_sub_one_eq_mod _ 4
  have e4 : g &&& 0xf = g % 16 := Nat.and_pow_two_sub_one_eq_mod _ 4
  unfold appendHex
  rw [e1, e2, e3, e4]
  by_cases h1 : g ≥ 0x1000
  · have h2 : g ≥ 0x100 := by omega
    have h3 : g ≥ 0x10 := by omega
    simp [h1, h2, h3]
  · by_cases h2 : g ≥ 0x100
    · have h3 : g ≥ 0x10 := by omega
      simp [h1, h2, h3]
    · by_cases h3 : g ≥ 0x10
      · simp [h1, h2, h3]
      · simp [h1, h2, h3]

theorem appendHex_nil_length (g : Nat) (hg : g < 65536) :
    1 ≤ (appendHex [] g).length ∧ (appendHex [] g).length ≤ 4 := by
  rw [appendHex_nil_cases g hg]
  split_ifs <;> simp

theorem hexLoop_appendHex (input s rest : GoString) (g : Nat) (hg : g < 65536)
    (hr : rest = [] ∨ ∃ t, rest = 0x3a :: t) :
    parseIPv6.hexLoop input s (appendHex [] g ++ rest) 0 0
      = (((appendHex [] g).length, g), none) := by
  rw [appendHex_nil_cases g hg]
  split_ifs with h1 h2 h3
  · simp only [List.cons_append, List.nil_append, List.length_cons, List.length_nil]
    rw [hexLoop_step _ _ _ _ _ _ (by omega) (by omega) (by omega),
      hexLoop_step _ _ _ _ _ _ (by omega) (by omega) (by omega),
      hexLoop_step _ _ _ _ _ _ (by omega) (by omega) (by omega),
      hexLoop_step _ _ _ _ _ _ (by omega) (by omega) (by omega),
      hexLoop_stop _ _ _ _ _ hr]
    congr 2; omega
  · simp only [List.cons_append, List.nil_append, List.length_cons, List.length_nil]
    rw [hexLoop_step _ _ _ _ _ _ (by omega) (by omega) (by omega),
      hexLoop_step _ _ _ _ _ _ (by omega) (by omega) (by omega),
      hexLoop_step _ _ _ _ _ _ (by omega) (by omega) (by omega),
      hexLoop_stop _ _ _ _ _ hr]
    congr 2; omega
  · simp only [List.cons_append, List.nil_append, List.length_cons, List.length_nil]
    rw [hexLoop_step _ _ _ _ _ _ (by omega) (by omega) (by omega),
      hexLoop_step _ _ _ _ _ _ (by omega) (by omega) (by omega),
      hexLoop_stop _ _ _ _ _ hr]
    congr 2; omega
  · simp only [List.cons_append, List.nil_append, List.length_cons, List.length_nil]
    rw [hexLoop_step _ _ _ _ _ _ (by omega) (by omega) (by omega),
      hexLoop_stop _ _ _ _ _ hr]
    congr 2; omega


theorem appendHex_chars (g : Nat) (hg : g < 65536) :
    ∀ c ∈ appendHex [] g, c ≠ 0x2e ∧ c ≠ 0x25 ∧ c ≠ 0x3a := by
  have hd : ∀ d, d < 16 → digits d ≠ 0x2e ∧ digits d ≠ 0x25 ∧ digits d ≠ 0x3a := by decide
  rw [appendHex_nil_cases g hg]
  split_ifs <;>
    simp only [List.mem_cons, List.mem_singleton, List.not_mem_nil, or_false, forall_eq_or_imp,
      forall_eq] <;>
    (repeat' apply And.intro) <;>
    first
      | exact (hd _ (by omega)).1
      | exact (hd _ (by omega)).2.1
      | exact (hd _ (by omega)).2.2

theorem appendHex_head (g : Nat) (hg : g < 65536) :
    ∃ c t, appendHex [] g = c :: t ∧ c ≠ 0x2e ∧ c ≠ 0x25 ∧ c ≠ 0x3a := by
  have hl := appendHex_nil_length g hg
  have hc := appendHex_chars g hg
  cases e : appendHex [] g with
  | nil => rw [e] at hl; simp at hl
  | cons c t => exact ⟨c, t, rfl, by apply hc; rw [e]; simp⟩

theorem getD_append_length (l t : List Nat) (a d : Nat) :
    (l ++ a :: t).getD l.length d = a := by
  rw [List.getD_append_right _ _ _ _ (le_refl _)]; simp

theorem loop_last (input zone : GoString) (fuel i : Nat) (e : Int) (ip : List Nat) (g : Nat)
    (hi : i < 16) (hg : g < 65536) :
    parseIPv6.loop input zone (fuel + 1) ⟨appendHex [] g, i, e, ip⟩
      = (⟨[], i + 2, e, (ip.set i (g >>> 8 % 256)).set (i + 1) (g % 256)⟩, none) := by
  have hh := hexLoop_appendHex input (appendHex [] g) [] g hg (Or.inl rfl)
  rw [List.append_nil] at hh
  have hl := appendHex_nil_length g hg
  rw [parseIPv6.loop]
  simp only [hh]
  rw [if_neg (by omega), if_neg (by omega), if_neg (by omega)]
  simp

theorem loop_colon (input zone : GoString) (fuel i : Nat) (e : Int) (ip : List Nat) (g c : Nat)
    (t : GoString) (hi : i < 16) (hg : g < 65536) (hc : c ≠ 0x3a) :
    parseIPv6.loop input zone (fuel + 1) ⟨appendHex [] g ++ 0x3a :: c :: t, i, e, ip⟩
      = parseIPv6.loop input zone fuel
          ⟨c :: t, i + 2, e, (ip.set i (g >>> 8 % 256)).set (i + 1) (g % 256)⟩ := by
  have hh := hexLoop_appendHex input (appendHex [] g ++ 0x3a :: c :: t) (0x3a :: c :: t) g hg
    (Or.inr ⟨_, rfl⟩)
  have hl := appendHex_nil_length g hg
  rw [parseIPv6.loop]
  simp only [hh]
  rw [if_neg (by omega), if_neg (by omega), if_neg (by rw [getD_append_length]; simp)]
  simp [hc]

theorem loop_ellipsis (input zone : GoString) (fuel i : Nat) (e : Int) (ip : List Nat) (g : Nat)
    (t : GoString) (hi : i < 16) (hg : g < 65536) (he : e < 0) :
    parseIPv6.loop input zone (fuel + 1) ⟨appendHex [] g ++ 0x3a :: 0x3a :: t, i, e, ip⟩
      = if t.length = 0 then
          (⟨[], i + 2, (i : Int) + 2,
            (ip.set i (g >>> 8 % 256)).set (i + 1) (g % 256)⟩, none)
        else parseIPv6.loop input zone fuel
          ⟨t, i + 2, (i : Int) + 2,
            (ip.set i (g >>> 8 % 256)).set (i + 1) (g % 256)⟩ := by
  have hh := hexLoop_appendHex input (appendHex [] g ++ 0x3a :: 0x3a :: t) (0x3a :: 0x3a :: t)
    g hg (Or.inr ⟨_, rfl⟩)
  have hl := appendHex_nil_length g hg
  rw [parseIPv6.loop]
  simp only [hh]
  rw [if_neg (by omega), if_neg (by omega), if_neg (by rw [getD_append_length]; simp)]
  simp only [not_le.mpr he, if_false]
  by_cases h : t = [] <;> simp [h]

theorem buf_set (W : List Nat) (n a b : Nat) :
    ((W ++ List.replicate (n + 2) 0).set W.length a).set (W.length + 1) b
      = (W ++ [a, b]) ++ List.replicate n 0 := by
  rw [List.set_append_right _ _ (le_refl _), List.set_append_right _ _ (by omega)]
  simp [List.replicate_succ]

theorem joinHex_cons_cons (g g2 : Nat) (gs : List Nat) :
    joinHex (g :: g2 :: gs) = appendHex [] g ++ 0x3a :: joinHex (g2 :: gs) := rfl

theorem joinHex_head (g : Nat) (gs : List Nat) (hg : g < 65536) :
    ∃ c t, joinHex (g :: gs) = c :: t ∧ c ≠ 0x2e ∧ c ≠ 0x25 ∧ c ≠ 0x3a := by
  obtain ⟨c, t, e, h⟩ := appendHex_head g hg
  exact ⟨c, t ++ colonHex gs, by rw [joinHex, e]; rfl, h⟩

theorem loop_tail (input zone : GoString) :
    ∀ (gs : List Nat) (g : Nat) (W : List Nat) (e : Int) (fuel n : Nat),
      (∀ x ∈ g :: gs, x < 65536) → W.length + 2 * (gs.length + 1) + n = 16 →
      gs.length + 1 ≤ fuel →
      parseIPv6.loop input zone fuel
          ⟨joinHex (g :: gs), W.length, e, W ++ List.replicate (2 * (gs.length + 1) + n) 0⟩
        = (⟨[], W.length + 2 * (gs.length + 1), e,
            W ++ groupBytes (g :: gs) ++ List.replicate n 0⟩, none) := by
  intro gs
  induction gs with
  | nil =>
    intro g W e fuel n hg hl hf
    obtain ⟨f, rfl⟩ : ∃ f, fuel = f + 1 := ⟨fuel - 1, by simp at hf; omega⟩
    have e1 : joinHex [g] = appendHex [] g := by simp [joinHex, colonHex]
    simp only [List.length_nil] at hl
    rw [e1, loop_last _ _ _ _ _ _ _ (by omega) (hg g (by simp))]
    have e2 : 2 * ([] : List Nat).length.succ + n = n + 2 := by simp; omega
    simp only [List.length_nil, Nat.zero_add, Nat.mul_one] at e2 ⊢
    rw [show 2 + n = n + 2 by omega, buf_set]
    simp [groupBytes]
  | cons g2 gs ih =>
    intro g W e fuel n hg hl hf
    obtain ⟨f, rfl⟩ : ∃ f, fuel = f + 1 := ⟨fuel - 1, by simp at hf; omega⟩
    have hg2 : ∀ x ∈ g2 :: gs, x < 65536 := fun x hx => hg x (List.mem_cons_of_mem _ hx)
    obtain ⟨c, t, ec, hc⟩ := joinHex_head g2 gs (hg2 g2 (by simp))
    simp only [List.length_cons] at hl hf ⊢
    rw [joinHex_cons_cons, ec, loop_colon _ _ _ _ _ _ _ _ _ (by omega) (hg g (by simp)) hc.2.2,
      ← ec]
    have h := ih g2 (W ++ [g >>> 8 % 256, g % 256]) e f n hg2
      (by simp only [List.length_append, List.length_cons, List.length_nil]; omega) (by omega)
    rw [show 2 * (gs.length + 1 + 1) + n = (2 * (gs.length + 1) + n) + 2 by omega, buf_set]
    simp only [List.length_append, List.length_cons, List.length_nil] at h
    rw [h]
    simp [groupBytes]
    omega

theorem loop_head (input zone : GoString) (gs2 : List Nat) (h2 : ∀ x ∈ gs2, x < 65536) :
    ∀ (gs : List Nat) (g : Nat) (W : List Nat) (fuel n : Nat),
      (∀ x ∈ g :: gs, x < 65536) →
      W.length + 2 * (gs.length + 1) + 2 * gs2.length + n = 16 →
      gs.length + 1 + gs2.length ≤ fuel →
      parseIPv6.loop input zone fuel
          ⟨joinHex (g :: gs) ++ 0x3a :: 0x3a :: joinHex gs2, W.length, -1,
            W ++ List.replicate (2 * (gs.length + 1) + 2 * gs2.length + n) 0⟩
        = (⟨[], W.length + 2 * (gs.length + 1) + 2 * gs2.length,
            ((W.length + 2 * (gs.length + 1) : Nat) : Int),
            W ++ groupBytes (g :: gs) ++ groupBytes gs2 ++ List.replicate n 0⟩, none) := by
  intro gs
  induction gs with
  | nil =>
    intro g W fuel n hg hl hf
    obtain ⟨f, rfl⟩ : ∃ f, fuel = f + 1 := ⟨fuel - 1, by simp at hf; omega⟩
    have e1 : joinHex [g] = appendHex [] g := by simp [joinHex, colonHex]
    simp only [List.length_nil, Nat.zero_add, Nat.mul_one] at hl hf ⊢
    rw [e1, loop_ellipsis _ _ _ _ _ _ _ _ (by omega) (hg g (by simp)) (by decide)]
    rw [show 2 + 2 * gs2.length + n = (2 * gs2.length + n) + 2 by omega, buf_set]
    cases gs2 with
    | nil => simp [joinHex, groupBytes]
    | cons g2 gs2 =>
      have hne : (joinHex (g2 :: gs2)).length ≠ 0 := by
        obtain ⟨c, t, ec, _⟩ := joinHex_head g2 gs2 (h2 g2 (by simp))
        rw [ec]; simp
      rw [if_neg hne]
      have h := loop_tail input zone gs2 g2 (W ++ [g >>> 8 % 256, g % 256])
        ((W.length : Int) + 2) f n h2
        (by simp only [List.length_append, List.length_cons, List.length_nil] at hl ⊢; omega)
        (by simp only [List.length_cons] at hf; omega)
      simp only [List.length_append, List.length_cons, List.length_nil] at h ⊢
      rw [h]
      simp [groupBytes]
  | cons g2 gs ih =>
    intro g W fuel n hg hl hf
    obtain ⟨f, rfl⟩ : ∃ f, fuel = f + 1 := ⟨fuel - 1, by simp at hf; omega⟩
    have hg2 : ∀ x ∈ g2 :: gs, x < 65536 := fun x hx => hg x (List.mem_cons_of_mem _ hx)
    obtain ⟨c, t, ec, hc⟩ := joinHex_head g2 gs (hg2 g2 (by simp))
    simp only [List.length_cons] at hl hf ⊢
    rw [joinHex_cons_cons, List.append_assoc, List.cons_append, ec, List.cons_append,
      loop_colon _ _ _ _ _ _ _ _ _ (by omega) (hg g (by simp)) hc.2.2,
      ← List.cons_append, ← ec]
    have h := ih g2 (W ++ [g >>> 8 % 256, g % 256]) f n hg2
      (by simp only [List.length_append, List.length_cons, List.length_nil]; omega) (by omega)
    rw [show 2 * (gs.length + 1 + 1) + 2 * gs2.length + n
      = (2 * (gs.length + 1) + 2 * gs2.length + n) + 2 by omega, buf_set]
    simp only [List.length_append, List.length_cons, List.length_nil] at h
    rw [h]
    simp [groupBytes]
    omega


theorem Addr.zeroRun_spec (ip : Addr) :
    ∀ fuel j, j ≤ ip.zeroRun fuel j ∧ (ip.zeroRun fuel j ≤ 8 ∨ ip.zeroRun fuel j = j) ∧
      ∀ k, j ≤ k → k < ip.zeroRun fuel j → ip.v6u16 k = 0 := by
  intro fuel
  induction fuel with
  | zero => intro j; rw [Addr.zeroRun]; exact ⟨le_refl _, Or.inr rfl, fun k h1 h2 => by omega⟩
  | succ f ih =>
    intro j
    rw [Addr.zeroRun]
    by_cases h : j < 8 ∧ ip.v6u16 j = 0
    · rw [if_pos h]
      obtain ⟨h1, h2, h3⟩ := ih (j + 1)
      refine ⟨by omega, ?_, ?_⟩
      · rcases h2 with h2 | h2
        · exact Or.inl h2
        · left; omega
      · intro k hk1 hk2
        by_cases hk : k = j
        · subst hk; exact h.2
        · exact h3 k (by omega) hk2
    · rw [if_neg h]; exact ⟨le_refl _, Or.inr rfl, fun k h1 h2 => by omega⟩

theorem Addr.zeroSpan_fold (ip : Addr) :
    ∀ (l : List Nat) (z : Nat × Nat), ip.SpanOK z → (∀ i ∈ l, i < 8) →
      ip.SpanOK (l.foldl
        (fun (z : Nat × Nat) i =>
          let j := ip.zeroRun 8 i
          let l := j - i
          if l ≥ 2 ∧ l > z.2 - z.1 then (i, j) else z) z) := by
  intro l
  induction l with
  | nil => intro z hz _; exact hz
  | cons i l ih =>
    intro z hz hl
    rw [List.foldl_cons]
    apply ih _ _ (fun x hx => hl x (List.mem_cons_of_mem _ hx))
    have hi : i < 8 := hl i (by simp)
    obtain ⟨h1, h2, h3⟩ := ip.zeroRun_spec 8 i
    simp only
    split_ifs with hc
    · right
      refine ⟨by simp only; omega, ?_, h3⟩
      simp only
      rcases h2 with h2 | h2
      · exact h2
      · omega
    · exact hz

theorem Addr.zeroSpan_spec (ip : Addr) : ip.SpanOK ip.zeroSpan :=
  ip.zeroSpan_fold (List.range 8) (255, 255) (Or.inl rfl) (fun i hi => by simpa using hi)

theorem Addr.groups_succ (ip : Addr) (i n : Nat) :
    ip.groups i (n + 1) = ip.v6u16 i :: ip.groups (i + 1) n := by
  simp [Addr.groups, List.range'_succ]

theorem Addr.groups_zero (ip : Addr) (i : Nat) : ip.groups i 0 = [] := rfl

theorem appendTo6_loop_tail (ip : Addr) (zs ze : Nat) :
    ∀ (n fuel i : Nat) (ret : List Nat), i + n = 8 → n ≤ fuel → 0 < i →
      (∀ j, i ≤ j → j < 8 → j ≠ zs) →
      Addr.appendTo6.loop ip zs ze fuel i ret = ret ++ colonHex (ip.groups i n) := by
  intro n
  induction n with
  | zero =>
    intro fuel i ret hi _ _ _
    cases fuel with
    | zero => simp [Addr.appendTo6.loop, Addr.groups_zero, colonHex]
    | succ f =>
      rw [Addr.appendTo6.loop, if_pos (by omega)]
      simp [Addr.groups_zero, colonHex]
  | succ n ih =>
    intro fuel i ret hi hf h0 hz
    obtain ⟨f, rfl⟩ : ∃ f, fuel = f + 1 := ⟨fuel - 1, by omega⟩
    rw [Addr.appendTo6.loop, if_neg (by omega), if_neg (hz i (le_refl _) (by omega))]
    simp only [h0, if_true]
    rw [ih f (i + 1) _ (by omega) (by omega) (by omega) (fun j hj => hz j (by omega)),
      appendHex_eq, Addr.groups_succ]
    simp [colonHex]

theorem appendTo6_loop_span (ip : Addr) (zs ze f : Nat) (ret : List Nat) (hzs : zs < 8)
    (hze : zs < ze) (hf : 7 - zs ≤ f) :
    Addr.appendTo6.loop ip zs ze (f + 1) zs ret
      = ret ++ 0x3a :: 0x3a :: joinHex (ip.groups ze (8 - ze)) := by
  rw [Addr.appendTo6.loop, if_neg (by omega), if_pos rfl]
  simp only []
  by_cases h8 : ze ≥ 8
  · rw [if_pos h8, show 8 - ze = 0 by omega]
    simp [Addr.groups_zero, joinHex]
  · rw [if_neg h8, appendTo6_loop_tail ip zs ze (7 - ze) f (ze + 1) _ (by omega) (by omega)
      (by omega) (fun j hj _ => by omega), appendHex_eq, show 8 - ze = (7 - ze) + 1 by omega,
      Addr.groups_succ]
    simp [joinHex]

theorem appendTo6_loop_head (ip : Addr) (zs ze : Nat) (hzs : zs < 8) (hze : zs < ze) :
    ∀ (n fuel i : Nat) (ret : List Nat), i + n = zs → 0 < i → 8 - i ≤ fuel →
      Addr.appendTo6.loop ip zs ze fuel i ret
        = ret ++ colonHex (ip.groups i n) ++ 0x3a :: 0x3a :: joinHex (ip.groups ze (8 - ze)) := by
  intro n
  induction n with
  | zero =>
    intro fuel i ret hi h0 hf
    obtain ⟨f, rfl⟩ : ∃ f, fuel = f + 1 := ⟨fuel - 1, by omega⟩
    obtain rfl : i = zs := by omega
    rw [appendTo6_loop_span ip i ze f ret hzs hze (by omega)]
    simp [Addr.groups_zero, colonHex]
  | succ n ih =>
    intro fuel i ret hi h0 hf
    obtain ⟨f, rfl⟩ : ∃ f, fuel = f + 1 := ⟨fuel - 1, by omega⟩
    rw [Addr.appendTo6.loop, if_neg (by omega), if_neg (by omega)]
    simp only [h0, if_true]
    rw [ih f (i + 1) _ (by omega) (by omega) (by omega), appendHex_eq, Addr.groups_succ]
    simp [colonHex]

theorem Addr.string6_text (ip : Addr) (hz : ip.z = z6noz) :
    (ip.zeroSpan = (255, 255) → ip.string6 = joinHex (ip.groups 0 8)) ∧
    (ip.zeroSpan.1 < 8 → ip.zeroSpan.1 < ip.zeroSpan.2 →
      ip.string6 = joinHex (ip.groups 0 ip.zeroSpan.1)
        ++ 0x3a :: 0x3a :: joinHex (ip.groups ip.zeroSpan.2 (8 - ip.zeroSpan.2))) := by
  have e : ip.string6 = Addr.appendTo6.loop ip ip.zeroSpan.1 ip.zeroSpan.2 8 0 [] := by
    simp [Addr.string6, Addr.appendTo6, hz]
  rw [e]
  constructor
  · intro h
    rw [h, Addr.appendTo6.loop, if_neg (by omega), if_neg (by omega)]
    simp only [lt_self_iff_false, if_false]
    have e8 : ip.groups 0 8 = ip.v6u16 0 :: ip.groups 1 7 := Addr.groups_succ ip 0 7
    rw [appendTo6_loop_tail ip 255 255 7 7 1 _ rfl (le_refl _) (by omega)
      (fun j _ hj => by omega), e8]
    simp [joinHex]
  · intro h1 h2
    generalize ip.zeroSpan.1 = zs at h1 h2 ⊢
    generalize ip.zeroSpan.2 = ze at h2 ⊢
    by_cases h0 : zs = 0
    · subst h0
      rw [appendTo6_loop_span ip 0 ze 7 [] h1 h2 (by omega)]
      simp [Addr.groups_zero, joinHex]
    · rw [Addr.appendTo6.loop, if_neg (by omega), if_neg (by omega)]
      simp only [lt_self_iff_false, if_false]
      have ez : ip.groups 0 zs = ip.v6u16 0 :: ip.groups 1 (zs - 1) := by
        have h := Addr.groups_succ ip 0 (zs - 1)
        rwa [show zs - 1 + 1 = zs by omega] at h
      rw [appendTo6_loop_head ip zs ze h1 h2 (zs - 1) 7 1 _ (by omega) (by omega) (by omega), ez]
      simp [joinHex]


theorem groupBytes_length (gs : List Nat) : (groupBytes gs).length = 2 * gs.length := by
  induction gs with
  | nil => rfl
  | cons g gs ih => simp [groupBytes, ih]; omega

theorem groupBytes_append (a b : List Nat) :
    groupBytes (a ++ b) = groupBytes a ++ groupBytes b := by
  induction a with
  | nil => rfl
  | cons g gs ih => simp [groupBytes, ih]

theorem groupBytes_zeros (gs : List Nat) (h : ∀ x ∈ gs, x = 0) :
    groupBytes gs = List.replicate (2 * gs.length) 0 := by
  induction gs with
  | nil => rfl
  | cons g gs ih =>
    have h0 : g = 0 := h g (by simp)
    subst h0
    rw [groupBytes, ih (fun x hx => h x (List.mem_cons_of_mem _ hx))]
    simp only [List.length_cons]
    rw [show 2 * (gs.length + 1) = 2 * gs.length + 1 + 1 by omega, List.replicate_succ,
      List.replicate_succ]
    rfl

theorem Addr.groups_length (ip : Addr) (i n : Nat) : (ip.groups i n).length = n := by
  simp [Addr.groups]

theorem Addr.groups_append (ip : Addr) (i m n : Nat) :
    ip.groups i (m + n) = ip.groups i m ++ ip.groups (i + m) n := by
  simp only [Addr.groups, ← List.map_append, List.range'_append_1]
  rw [Nat.add_comm]

theorem Addr.v6u16_lt (ip : Addr) (i : Nat) : ip.v6u16 i < 65536 := by
  unfold Addr.v6u16
  exact Nat.mod_lt _ (by norm_num)

theorem Addr.groups_lt (ip : Addr) (i n : Nat) : ∀ x ∈ ip.groups i n, x < 65536 := by
  intro x hx
  simp only [Addr.groups, List.mem_map] at hx
  obtain ⟨j, _, rfl⟩ := hx
  exact ip.v6u16_lt j

theorem Addr.groups_zeros (ip : Addr) (i n : Nat)
    (h : ∀ j, i ≤ j → j < i + n → ip.v6u16 j = 0) : ∀ x ∈ ip.groups i n, x = 0 := by
  intro x hx
  simp only [Addr.groups, List.mem_map, List.mem_range'_1] at hx
  obtain ⟨j, hj, rfl⟩ := hx
  exact h j hj.1 hj.2

theorem WithZone_nil (l : List Nat) : (AddrFrom16 l).WithZone [] = AddrFrom16 l := by
  simp [Addr.WithZone, Addr.Is6, AddrFrom16, z6noz, z0, z4]

theorem indexByte_none (s : GoString) (x : Nat) (h : ∀ c ∈ s, c ≠ x) : indexByte s x = none := by
  induction s with
  | nil => rfl
  | cons c s ih =>
    rw [indexByte, if_neg (h c (by simp)), ih (fun d hd => h d (List.mem_cons_of_mem _ hd))]
    rfl

theorem colonHex_chars (gs : List Nat) (h : ∀ x ∈ gs, x < 65536) :
    ∀ c ∈ colonHex gs, c ≠ 0x2e ∧ c ≠ 0x25 := by
  induction gs with
  | nil => intro c hc; simp [colonHex] at hc
  | cons g gs ih =>
    intro c hc
    simp only [colonHex, List.mem_cons, List.mem_append] at hc
    rcases hc with rfl | hc | hc
    · decide
    · have := appendHex_chars g (h g (by simp)) c hc
      exact ⟨this.1, this.2.1⟩
    · exact ih (fun x hx => h x (List.mem_cons_of_mem _ hx)) c hc

theorem joinHex_chars (gs : List Nat) (h : ∀ x ∈ gs, x < 65536) :
    ∀ c ∈ joinHex gs, c ≠ 0x2e ∧ c ≠ 0x25 := by
  cases gs with
  | nil => intro c hc; simp [joinHex] at hc
  | cons g gs =>
    intro c hc
    simp only [joinHex, List.mem_append] at hc
    rcases hc with hc | hc
    · have := appendHex_chars g (h g (by simp)) c hc
      exact ⟨this.1, this.2.1⟩
    · exact colonHex_chars gs (fun x hx => h x (List.mem_cons_of_mem _ hx)) c hc

theorem finish_full (input : GoString) (B : List Nat) :
    parseIPv6.finish input [] ⟨[], 16, -1, B⟩ = (AddrFrom16 B, none) := by
  simp [parseIPv6.finish, WithZone_nil]

theorem finish_expand (input : GoString) (A B : List Nat) (n : Nat) (hn : 0 < n)
    (hl : A.length + B.length + n = 16) :
    parseIPv6.finish input [] ⟨[], A.length + B.length, (A.length : Int),
        A ++ B ++ List.replicate n 0⟩
      = (AddrFrom16 (A ++ List.replicate n 0 ++ B), none) := by
  unfold parseIPv6.finish
  simp only [List.length_nil, ne_eq, not_true_eq_false, if_false]
  rw [if_pos (by omega), if_neg (by omega)]
  simp only [Int.toNat_ofNat, WithZone_nil]
  rw [show 16 - (A.length + B.length) = n by omega, List.append_assoc A B,
    List.take_left, List.drop_left, show A.length + B.length - A.length = B.length by omega,
    List.take_left]

theorem start_plain (c : Nat) (t : GoString) (hc : c ≠ 0x3a) :
    parseIPv6.start (c :: t) = ⟨c :: t, 0, -1, List.replicate 16 0⟩ := by
  simp [parseIPv6.start, hc]

theorem start_lead (t : GoString) :
    parseIPv6.start (0x3a :: 0x3a :: t) = ⟨t, 0, 0, List.replicate 16 0⟩ := by
  simp [parseIPv6.start]

theorem run_lead (input : GoString) (gs2 : List Nat) (n : Nat) (h2 : ∀ x ∈ gs2, x < 65536)
    (hl : 2 * gs2.length + n = 16) (hn : 0 < n) :
    parseIPv6.run input (0x3a :: 0x3a :: joinHex gs2) []
      = (AddrFrom16 (List.replicate n 0 ++ groupBytes gs2), none) := by
  unfold parseIPv6.run
  rw [start_lead]
  cases gs2 with
  | nil =>
    simp only [List.length_nil] at hl
    obtain rfl : n = 16 := by omega
    simp only [joinHex, List.length_nil, and_self, if_true]
    rfl
  | cons g gs =>
    obtain ⟨c, t, ec, hc⟩ := joinHex_head g gs (h2 g (by simp))
    have hne : ¬ ((0 : Int) = 0 ∧ (joinHex (g :: gs)).length = 0) := by
      rw [ec]; simp
    simp only [hne, if_false]
    simp only [List.length_cons] at hl
    have hlp := loop_tail input [] gs g [] 0 8 n h2 (by simp only [List.length_nil]; omega)
      (by omega)
    have hfin := finish_expand input [] (groupBytes (g :: gs)) n hn
      (by simp only [List.length_nil, groupBytes_length, List.length_cons]; omega)
    simp only [List.length_nil, List.nil_append, Nat.zero_add, groupBytes_length,
      List.length_cons, Nat.cast_zero] at hlp hfin
    rw [show List.replicate 16 0 = List.replicate (2 * (gs.length + 1) + n) (0 : Nat) by
      rw [hl], hlp, if_neg (by rw [ec]; simp)]
    exact hfin

theorem run_mid (input : GoString) (g : Nat) (gs1 gs2 : List Nat) (n : Nat)
    (h1 : ∀ x ∈ g :: gs1, x < 65536) (h2 : ∀ x ∈ gs2, x < 65536)
    (hl : 2 * (gs1.length + 1) + 2 * gs2.length + n = 16) (hn : 0 < n) :
    parseIPv6.run input (joinHex (g :: gs1) ++ 0x3a :: 0x3a :: joinHex gs2) []
      = (AddrFrom16 (groupBytes (g :: gs1) ++ List.replicate n 0 ++ groupBytes gs2), none) := by
  unfold parseIPv6.run
  obtain ⟨c, t, ec, hc⟩ := joinHex_head g gs1 (h1 g (by simp))
  rw [ec, List.cons_append, start_plain c _ hc.2.2, ← List.cons_append, ← ec]
  simp only [show ¬ ((-1 : Int) = 0 ∧
      (joinHex (g :: gs1) ++ 0x3a :: 0x3a :: joinHex gs2).length = 0) by
    intro h; exact absurd h.1 (by decide), if_false]
  have hlp := loop_head input [] gs2 h2 gs1 g [] 8 n h1
    (by simp only [List.length_nil]; omega) (by omega)
  have hfin := finish_expand input (groupBytes (g :: gs1)) (groupBytes gs2) n hn
    (by simp only [groupBytes_length, List.length_cons]; omega)
  simp only [List.length_nil, List.nil_append, Nat.zero_add, groupBytes_length,
    List.length_cons] at hlp hfin
  rw [show List.replicate 16 0
    = List.replicate (2 * (gs1.length + 1) + 2 * gs2.length + n) (0 : Nat) by rw [hl], hlp]
  exact hfin

theorem run_string6 (input : GoString) (ip : Addr) (hz : ip.z = z6noz) :
    parseIPv6.run input ip.string6 [] = (AddrFrom16 (groupBytes (ip.groups 0 8)), none) := by
  have hs := ip.zeroSpan_spec
  have ht := ip.string6_text hz
  rcases hs with hs | ⟨h1, h2, h3⟩
  · rw [ht.1 hs]
    have e8 : ip.groups 0 8 = ip.v6u16 0 :: ip.groups 1 7 := Addr.groups_succ ip 0 7
    have hlt : ∀ x ∈ ip.v6u16 0 :: ip.groups 1 7, x < 65536 := by
      rw [← e8]; exact ip.groups_lt 0 8
    obtain ⟨c, t, ec, hc⟩ := joinHex_head (ip.v6u16 0) (ip.groups 1 7) (ip.v6u16_lt 0)
    have hl := loop_tail input [] (ip.groups 1 7) (ip.v6u16 0) [] (-1) 8 0 hlt
      (by simp [Addr.groups_length]) (by simp [Addr.groups_length])
    simp only [Addr.groups_length, List.length_nil, List.nil_append, Nat.zero_add,
      Nat.add_zero, List.replicate_zero, List.append_nil] at hl
    rw [e8]
    unfold parseIPv6.run
    rw [ec, start_plain c t hc.2.2, ← ec]
    simp only [show ¬ ((-1 : Int) = 0 ∧ (joinHex (ip.v6u16 0 :: ip.groups 1 7)).length = 0) by
      intro h; exact absurd h.1 (by decide), if_false]
    rw [show List.replicate 16 0 = List.replicate (2 * (7 + 1)) (0 : Nat) from rfl, hl]
    exact finish_full input _
  · have ht2 := ht.2 (by omega) h1
    generalize ip.zeroSpan.1 = zs at h1 h3 ht2
    generalize ip.zeroSpan.2 = ze at h1 h2 h3 ht2
    have e8 : ip.groups 0 8
        = ip.groups 0 zs ++ (ip.groups zs (ze - zs) ++ ip.groups ze (8 - ze)) := by
      have a1 := ip.groups_append 0 zs ((ze - zs) + (8 - ze))
      have a2 := ip.groups_append zs (ze - zs) (8 - ze)
      rw [show zs + (ze - zs + (8 - ze)) = 8 by omega, Nat.zero_add] at a1
      rw [show zs + (ze - zs) = ze by omega] at a2
      rw [a1, a2]
    have ez : groupBytes (ip.groups zs (ze - zs)) = List.replicate (2 * (ze - zs)) 0 := by
      rw [groupBytes_zeros _ (ip.groups_zeros zs (ze - zs) (fun j hj1 hj2 => h3 j hj1 (by omega))),
        Addr.groups_length]
    rw [e8, groupBytes_append, groupBytes_append, ez, ht2]
    by_cases h0 : zs = 0
    · subst h0
      rw [Addr.groups_zero]
      simp only [joinHex, groupBytes, List.nil_append]
      exact run_lead input _ _ (ip.groups_lt _ _) (by rw [Addr.groups_length]; omega) (by omega)
    · have eg : ip.groups 0 zs = ip.v6u16 0 :: ip.groups 1 (zs - 1) := by
        have h := Addr.groups_succ ip 0 (zs - 1)
        rwa [show zs - 1 + 1 = zs by omega] at h
      rw [eg, ← List.append_assoc]
      exact run_mid input _ _ _ _ (by rw [← eg]; exact ip.groups_lt _ _) (ip.groups_lt _ _)
        (by rw [Addr.groups_length, Addr.groups_length]; omega) (by omega)


theorem scan_v6 (s : GoString) :
    ∀ l : List Nat, (∀ c ∈ l, c ≠ 0x2e ∧ c ≠ 0x25) → 0x3a ∈ l →
      ParseAddr.scan s l = parseIPv6 s := by
  intro l
  induction l with
  | nil => intro _ h; simp at h
  | cons c l ih =>
    intro h1 h2
    rw [ParseAddr.scan, if_neg (h1 c (by simp)).1]
    by_cases hc : c = 0x3a
    · rw [if_pos hc]
    · rw [if_neg hc, if_neg (h1 c (by simp)).2]
      apply ih (fun d hd => h1 d (List.mem_cons_of_mem _ hd))
      rcases List.mem_cons.mp h2 with h | h
      · exact absurd h.symm hc
      · exact h

theorem scan_v4 (s : GoString) (rest : List Nat) :
    ∀ l : List Nat, (∀ c ∈ l, c ≠ 0x2e ∧ c ≠ 0x25 ∧ c ≠ 0x3a) →
      ParseAddr.scan s (l ++ 0x2e :: rest) = parseIPv4 s := by
  intro l
  induction l with
  | nil => intro _; simp [ParseAddr.scan]
  | cons c l ih =>
    intro h1
    have hc := h1 c (by simp)
    rw [List.cons_append, ParseAddr.scan, if_neg hc.1, if_neg hc.2.2, if_neg hc.2.1]
    exact ih (fun d hd => h1 d (List.mem_cons_of_mem _ hd))

theorem colonHex_colon (g : Nat) (gs : List Nat) : 0x3a ∈ colonHex (g :: gs) := by
  simp [colonHex]

theorem Addr.string6_chars (ip : Addr) (hz : ip.z = z6noz) :
    (∀ c ∈ ip.string6, c ≠ 0x2e ∧ c ≠ 0x25) ∧ 0x3a ∈ ip.string6 := by
  have hs := ip.zeroSpan_spec
  have ht := ip.string6_text hz
  rcases hs with hs | ⟨h1, h2, h3⟩
  · rw [ht.1 hs]
    refine ⟨joinHex_chars _ (ip.groups_lt 0 8), ?_⟩
    have e8 : ip.groups 0 8 = ip.v6u16 0 :: ip.v6u16 1 :: ip.groups 2 6 := by
      rw [Addr.groups_succ ip 0 7, Addr.groups_succ ip 1 6]
    rw [e8, joinHex]
    exact List.mem_append_right _ (colonHex_colon _ _)
  · rw [ht.2 (by omega) h1]
    constructor
    · intro c hc
      simp only [List.mem_append, List.mem_cons] at hc
      rcases hc with hc | rfl | rfl | hc
      · exact joinHex_chars _ (ip.groups_lt _ _) c hc
      · decide
      · decide
      · exact joinHex_chars _ (ip.groups_lt _ _) c hc
    · simp

theorem ParseAddr_string6 (ip : Addr) (hz : ip.z = z6noz) :
    ParseAddr ip.string6 = (AddrFrom16 (groupBytes (ip.groups 0 8)), none) := by
  have hc := ip.string6_chars hz
  rw [ParseAddr, scan_v6 _ _ hc.1 hc.2, parseIPv6,
    indexByte_none _ _ (fun c h => (hc.1 c h).2)]
  exact run_string6 _ ip hz

theorem appendDecimal_chars (x : Nat) (hx : x < 256) :
    ∀ c ∈ appendDecimal [] x, c ≠ 0x2e ∧ c ≠ 0x25 ∧ c ≠ 0x3a := by
  have hd : ∀ d, d < 10 → digits d ≠ 0x2e ∧ digits d ≠ 0x25 ∧ digits d ≠ 0x3a := by decide
  unfold appendDecimal
  intro c hc
  split_ifs at hc <;> simp at hc
  all_goals
    first
      | (obtain rfl := hc; exact hd _ (by omega))
      | (rcases hc with rfl | rfl <;> exact hd _ (by omega))
      | (rcases hc with rfl | rfl | rfl <;> exact hd _ (by omega))

theorem ParseAddr_string4 (a b c d : Nat) (ha : a < 256) (hb : b < 256) (hc : c < 256)
    (hd : d < 256) :
    ParseAddr (AddrFrom4 a b c d).string4 = (AddrFrom4 a b c d, none) := by
  rw [ParseAddr]
  have e := string4_eq a b c d ha hb hc hd
  have h := scan_v4 (AddrFrom4 a b c d).string4
    (appendDecimal [] b ++ 0x2e :: (appendDecimal [] c ++ 0x2e :: appendDecimal [] d))
    (appendDecimal [] a) (appendDecimal_chars a ha)
  rw [← e] at h
  rw [h]
  exact parseIPv4_string4 a b c d ha hb hc hd


theorem cons_of_length (B : List Nat) (n : Nat) (h : B.length = n + 1) :
    ∃ b t, B = b :: t ∧ t.length = n := by
  cases B with
  | nil => simp at h
  | cons b t => exact ⟨b, t, rfl, by simpa using h⟩

theorem list_of_length_4 (B : List Nat) (h : B.length = 4) :
    ∃ a b c d, B = [a, b, c, d] := by
  obtain ⟨a, B1, rfl, k1⟩ := cons_of_length B _ h
  obtain ⟨b, B2, rfl, k2⟩ := cons_of_length B1 _ k1
  obtain ⟨c, B3, rfl, k3⟩ := cons_of_length B2 _ k2
  obtain ⟨d, B4, rfl, k4⟩ := cons_of_length B3 _ k3
  exact ⟨a, b, c, d, by rw [List.length_eq_zero.mp k4]⟩

theorem list_of_length_16 (B : List Nat) (h : B.length = 16) :
    ∃ b0 b1 b2 b3 b4 b5 b6 b7 b8 b9 b10 b11 b12 b13 b14 b15,
      B = [b0, b1, b2, b3, b4, b5, b6, b7, b8, b9, b10, b11, b12, b13, b14, b15] := by
  obtain ⟨b0, B0, rfl, k0⟩ := cons_of_length B _ h
  obtain ⟨b1, B1, rfl, k1⟩ := cons_of_length B0 _ k0
  obtain ⟨b2, B2, rfl, k2⟩ := cons_of_length B1 _ k1
  obtain ⟨b3, B3, rfl, k3⟩ := cons_of_length B2 _ k2
  obtain ⟨b4, B4, rfl, k4⟩ := cons_of_length B3 _ k3
  obtain ⟨b5, B5, rfl, k5⟩ := cons_of_length B4 _ k4
  obtain ⟨b6, B6, rfl, k6⟩ := cons_of_length B5 _ k5
  obtain ⟨b7, B7, rfl, k7⟩ := cons_of_length B6 _ k6
  obtain ⟨b8, B8, rfl, k8⟩ := cons_of_length B7 _ k7
  obtain ⟨b9, B9, rfl, k9⟩ := cons_of_length B8 _ k8
  obtain ⟨b10, B10, rfl, k10⟩ := cons_of_length B9 _ k9
  obtain ⟨b11, B11, rfl, k11⟩ := cons_of_length B10 _ k10
  obtain ⟨b12, B12, rfl, k12⟩ := cons_of_length B11 _ k11
  obtain ⟨b13, B13, rfl, k13⟩ := cons_of_length B12 _ k12
  obtain ⟨b14, B14, rfl, k14⟩ := cons_of_length B13 _ k13
  obtain ⟨b15, B15, rfl, k15⟩ := cons_of_length B14 _ k14
  exact ⟨b0, b1, b2, b3, b4, b5, b6, b7, b8, b9, b10, b11, b12, b13, b14, b15,
    by rw [List.length_eq_zero.mp k15]⟩

theorem half_groups (w b0 b1 b2 b3 b4 b5 b6 b7 : Nat) (h0 : b0 < 256) (h1 : b1 < 256)
    (h2 : b2 < 256) (h3 : b3 < 256) (h4 : b4 < 256) (h5 : b5 < 256) (h6 : b6 < 256)
    (h7 : b7 < 256)
    (hw : w = b7 + b6 * 2 ^ 8 + b5 * 2 ^ 16 + b4 * 2 ^ 24 + b3 * 2 ^ 32 + b2 * 2 ^ 40
      + b1 * 2 ^ 48 + b0 * 2 ^ 56) :
    w >>> 48 % 2 ^ 16 = b0 * 256 + b1 ∧ w >>> 32 % 2 ^ 16 = b2 * 256 + b3 ∧
    w >>> 16 % 2 ^ 16 = b4 * 256 + b5 ∧ w >>> 0 % 2 ^ 16 = b6 * 256 + b7 := by
  subst hw
  simp only [Nat.shiftRight_eq_div_pow]
  refine ⟨?_, ?_, ?_, ?_⟩ <;> norm_num <;> omega

theorem group_bytes (a b : Nat) (ha : a < 256) (hb : b < 256) :
    (a * 256 + b) >>> 8 % 256 = a ∧ (a * 256 + b) % 256 = b := by
  simp only [Nat.shiftRight_eq_div_pow]
  constructor <;> omega

theorem groupBytes_AddrFrom16 (B : List Nat) (hl : B.length = 16) (hb : ∀ b ∈ B, b < 256) :
    groupBytes ((AddrFrom16 B).groups 0 8) = B := by
  obtain ⟨b0, b1, b2, b3, b4, b5, b6, b7, b8, b9, b10, b11, b12, b13, b14, b15, rfl⟩ :=
    list_of_length_16 B hl
  simp only [List.mem_cons, List.mem_singleton, List.not_mem_nil, or_false, forall_eq_or_imp,
    forall_eq] at hb
  obtain ⟨h0, h1, h2, h3, h4, h5, h6, h7, h8, h9, h10, h11, h12, h13, h14, h15⟩ := hb
  have hhi := half_groups _ b0 b1 b2 b3 b4 b5 b6 b7 h0 h1 h2 h3 h4 h5 h6 h7
    (beUint64_eq b0 b1 b2 b3 b4 b5 b6 b7 h1 h2 h3 h4 h5 h6 h7)
  have hlo := half_groups _ b8 b9 b10 b11 b12 b13 b14 b15 h8 h9 h10 h11 h12 h13 h14 h15
    (beUint64_eq b8 b9 b10 b11 b12 b13 b14 b15 h9 h10 h11 h12 h13 h14 h15)
  have er : List.range' 0 8 = [0, 1, 2, 3, 4, 5, 6, 7] := by decide
  simp only [Addr.groups, er, List.map, Addr.v6u16, AddrFrom16, List.getD_cons_zero,
    List.getD_cons_succ]
  norm_num at hhi hlo ⊢
  rw [hhi.1, hhi.2.1, hhi.2.2.1, hhi.2.2.2, hlo.1, hlo.2.1, hlo.2.2.1, hlo.2.2.2]
  simp only [groupBytes, (group_bytes b0 b1 h0 h1).1, (group_bytes b0 b1 h0 h1).2,
    (group_bytes b2 b3 h2 h3).1, (group_bytes b2 b3 h2 h3).2,
    (group_bytes b4 b5 h4 h5).1, (group_bytes b4 b5 h4 h5).2,
    (group_bytes b6 b7 h6 h7).1, (group_bytes b6 b7 h6 h7).2,
    (group_bytes b8 b9 h8 h9).1, (group_bytes b8 b9 h8 h9).2,
    (group_bytes b10 b11 h10 h11).1, (group_bytes b10 b11 h10 h11).2,
    (group_bytes b12 b13 h12 h13).1, (group_bytes b12 b13 h12 h13).2,
    (group_bytes b14 b15 h14 h15).1, (group_bytes b14 b15 h14 h15).2]

theorem String_AddrFrom4 (a b c d : Nat) :
    (AddrFrom4 a b c d).String = (AddrFrom4 a b c d).string4 := by
  unfold Addr.String
  rw [if_neg (by simp [AddrFrom4, z4, z0]), if_pos (show (AddrFrom4 a b c d).z = z4 from rfl)]

theorem Unmap_AddrFrom4 (a b c d : Nat) : (AddrFrom4 a b c d).Unmap = AddrFrom4 a b c d := by
  simp [Addr.Unmap, Addr.Is4In6, Addr.Is6, AddrFrom4, z4, z0]

theorem Is4In6_AddrFrom16 (b0 b1 b2 b3 b4 b5 b6 b7 b8 b9 b10 b11 b12 b13 b14 b15 : Nat)
    (_h0 : b0 < 256) (h1 : b1 < 256) (h2 : b2 < 256) (h3 : b3 < 256) (h4 : b4 < 256)
    (h5 : b5 < 256) (h6 : b6 < 256) (h7 : b7 < 256) (h8 : b8 < 256) (h9 : b9 < 256)
    (h10 : b10 < 256) (h11 : b11 < 256) (h12 : b12 < 256) (h13 : b13 < 256) (h14 : b14 < 256)
    (h15 : b15 < 256) :
    (AddrFrom16 [b0, b1, b2, b3, b4, b5, b6, b7, b8, b9, b10, b11, b12, b13, b14, b15]).Is4In6
        = true ↔
      (b0 = 0 ∧ b1 = 0 ∧ b2 = 0 ∧ b3 = 0 ∧ b4 = 0 ∧ b5 = 0 ∧ b6 = 0 ∧ b7 = 0 ∧ b8 = 0 ∧
        b9 = 0 ∧ b10 = 0xff ∧ b11 = 0xff) := by
  have ehi := beUint64_eq b0 b1 b2 b3 b4 b5 b6 b7 h1 h2 h3 h4 h5 h6 h7
  have elo := beUint64_eq b8 b9 b10 b11 b12 b13 b14 b15 h9 h10 h11 h12 h13 h14 h15
  simp only [Addr.Is4In6, Addr.Is6, AddrFrom16, List.getD_cons_zero, List.getD_cons_succ,
    ehi, elo, Nat.shiftRight_eq_div_pow]
  simp only [z6noz, z0, z4, Bool.and_eq_true, bne_iff_ne, ne_eq, beq_iff_eq]
  constructor
  · rintro ⟨⟨_, hh⟩, hl⟩
    norm_num at hh hl
    omega
  · intro h
    refine ⟨⟨by simp, ?_⟩, ?_⟩ <;> norm_num <;> omega

theorem Unmap_AddrFrom16_mapped (a b c d : Nat) (ha : a < 256) (hb : b < 256) (hc : c < 256)
    (hd : d < 256) :
    (AddrFrom16 [0, 0, 0, 0, 0, 0, 0, 0, 0, 0, 0xff, 0xff, a, b, c, d]).Unmap
      = AddrFrom4 a b c d := by
  have h46 := (Is4In6_AddrFrom16 0 0 0 0 0 0 0 0 0 0 0xff 0xff a b c d (by omega) (by omega)
    (by omega) (by omega) (by omega) (by omega) (by omega) (by omega) (by omega) (by omega)
    (by omega) (by omega) ha hb hc hd).mpr (by simp)
  unfold Addr.Unmap
  rw [if_pos h46]
  have elo := beUint64_eq 0 0 0xff 0xff a b c d (by omega) (by omega) (by omega) ha hb hc hd
  have e4 := v4word_eq a b c d ha hb hc hd
  have ehi : beUint64 0 0 0 0 0 0 0 0 = 0 := by decide
  simp only [AddrFrom16, AddrFrom4, List.getD_cons_zero, List.getD_cons_succ, ehi, elo, e4]
  congr 2
  omega

theorem String_AddrFrom16 (B : List Nat) (h : (AddrFrom16 B).Is4In6 = false) :
    (AddrFrom16 B).String = (AddrFrom16 B).string6 := by
  unfold Addr.String
  rw [if_neg (by simp [AddrFrom16, z6noz, z0]), if_neg (by simp [AddrFrom16, z6noz, z4]), h]
  simp

theorem ParseAddr_IP_String (ip : net.IP) (h : ip.WF) :
    ParseAddr (net.IP.String ip) = ((AddrFromSlice ip).1.Unmap, none) := by
  obtain ⟨hl, hb⟩ := h
  rcases hl with hl | hl
  · obtain ⟨a, b, c, d, rfl⟩ := list_of_length_4 ip hl
    simp only [List.mem_cons, List.mem_singleton, List.not_mem_nil, or_false, forall_eq_or_imp,
      forall_eq] at hb
    obtain ⟨ha, hb, hc, hd⟩ := hb
    have e1 : net.IP.String [a, b, c, d] = (AddrFrom4 a b c d).String := by
      simp [net.IP.String, net.IP.To4]
    have e2 : (AddrFromSlice [a, b, c, d]).1 = AddrFrom4 a b c d := by
      simp [AddrFromSlice]
    rw [e1, e2, String_AddrFrom4, Unmap_AddrFrom4]
    exact ParseAddr_string4 a b c d ha hb hc hd
  · obtain ⟨b0, b1, b2, b3, b4, b5, b6, b7, b8, b9, b10, b11, b12, b13, b14, b15, rfl⟩ :=
      list_of_length_16 ip hl
    have hB := hb
    simp only [List.mem_cons, List.mem_singleton, List.not_mem_nil, or_false, forall_eq_or_imp,
      forall_eq] at hb
    obtain ⟨h0, h1, h2, h3, h4, h5, h6, h7, h8, h9, h10, h11, h12, h13, h14, h15⟩ := hb
    have hiff := Is4In6_AddrFrom16 b0 b1 b2 b3 b4 b5 b6 b7 b8 b9 b10 b11 b12 b13 b14 b15
      h0 h1 h2 h3 h4 h5 h6 h7 h8 h9 h10 h11 h12 h13 h14 h15
    have e2 : (AddrFromSlice [b0, b1, b2, b3, b4, b5, b6, b7, b8, b9, b10, b11, b12, b13,
        b14, b15]).1
        = AddrFrom16 [b0, b1, b2, b3, b4, b5, b6, b7, b8, b9, b10, b11, b12, b13, b14, b15] := by
      simp [AddrFromSlice]
    rw [e2]
    by_cases hm : b0 = 0 ∧ b1 = 0 ∧ b2 = 0 ∧ b3 = 0 ∧ b4 = 0 ∧ b5 = 0 ∧ b6 = 0 ∧ b7 = 0 ∧
        b8 = 0 ∧ b9 = 0 ∧ b10 = 0xff ∧ b11 = 0xff
    · obtain ⟨rfl, rfl, rfl, rfl, rfl, rfl, rfl, rfl, rfl, rfl, rfl, rfl⟩ := hm
      have e1 : net.IP.String [0, 0, 0, 0, 0, 0, 0, 0, 0, 0, 0xff, 0xff, b12, b13, b14, b15]
          = (AddrFrom4 b12 b13 b14 b15).String := by
        simp [net.IP.String, net.IP.To4]
      have e3 := Unmap_AddrFrom16_mapped b12 b13 b14 b15 h12 h13 h14 h15
      rw [e1, e3, String_AddrFrom4]
      exact ParseAddr_string4 _ _ _ _ h12 h13 h14 h15
    · have h46 : (AddrFrom16 [b0, b1, b2, b3, b4, b5, b6, b7, b8, b9, b10, b11, b12, b13, b14,
          b15]).Is4In6 = false := by
        rw [Bool.eq_false_iff]
        exact fun hh => hm (hiff.mp hh)
      have e1 : net.IP.String [b0, b1, b2, b3, b4, b5, b6, b7, b8, b9, b10, b11, b12, b13, b14,
          b15] = (AddrFrom16 [b0, b1, b2, b3, b4, b5, b6, b7, b8, b9, b10, b11, b12, b13, b14,
          b15]).String := by
        have hnot : ¬ (b0 = 0 ∧ b1 = 0 ∧ b2 = 0 ∧ b3 = 0 ∧ b4 = 0 ∧ b5 = 0 ∧ b6 = 0 ∧ b7 = 0 ∧
            b8 = 0 ∧ b9 = 0 ∧ b10 = 255 ∧ b11 = 255) := hm
        have hnot2 : ¬ ((b0 = 0 ∧ b1 = 0 ∧ b2 = 0 ∧ b3 = 0 ∧ b4 = 0 ∧ b5 = 0 ∧ b6 = 0 ∧ b7 = 0 ∧
            b8 = 0 ∧ b9 = 0) ∧ b10 = 255 ∧ b11 = 255) := by
          intro hx
          apply hnot
          obtain ⟨⟨a0, a1, a2, a3, a4, a5, a6, a7, a8, a9⟩, a10, a11⟩ := hx
          exact ⟨a0, a1, a2, a3, a4, a5, a6, a7, a8, a9, a10, a11⟩
        simp [net.IP.String, net.IP.To4, hnot2]
      have e3 : (AddrFrom16 [b0, b1, b2, b3, b4, b5, b6, b7, b8, b9, b10, b11, b12, b13, b14,
          b15]).Unmap = AddrFrom16 [b0, b1, b2, b3, b4, b5, b6, b7, b8, b9, b10, b11, b12, b13,
          b14, b15] := by
        unfold Addr.Unmap
        rw [h46]; simp
      rw [e1, e3, String_AddrFrom16 _ h46, ParseAddr_string6 _ (AddrFrom16_z _),
        groupBytes_AddrFrom16 _ hl hB]


theorem bePutUint64_beUint64 (b0 b1 b2 b3 b4 b5 b6 b7 : Nat) (h0 : b0 < 256) (h1 : b1 < 256)
    (h2 : b2 < 256) (h3 : b3 < 256) (h4 : b4 < 256) (h5 : b5 < 256) (h6 : b6 < 256)
    (h7 : b7 < 256) :
    bePutUint64 (beUint64 b0 b1 b2 b3 b4 b5 b6 b7) = [b0, b1, b2, b3, b4, b5, b6, b7] := by
  rw [beUint64_eq b0 b1 b2 b3 b4 b5 b6 b7 h1 h2 h3 h4 h5 h6 h7]
  simp only [bePutUint64, Nat.shiftRight_eq_div_pow]
  have e0 : (b7 + b6 * 2 ^ 8 + b5 * 2 ^ 16 + b4 * 2 ^ 24 + b3 * 2 ^ 32 + b2 * 2 ^ 40
      + b1 * 2 ^ 48 + b0 * 2 ^ 56) / 2 ^ 56 % 256 = b0 := by norm_num; omega
  have e1 : (b7 + b6 * 2 ^ 8 + b5 * 2 ^ 16 + b4 * 2 ^ 24 + b3 * 2 ^ 32 + b2 * 2 ^ 40
      + b1 * 2 ^ 48 + b0 * 2 ^ 56) / 2 ^ 48 % 256 = b1 := by norm_num; omega
  have e2 : (b7 + b6 * 2 ^ 8 + b5 * 2 ^ 16 + b4 * 2 ^ 24 + b3 * 2 ^ 32 + b2 * 2 ^ 40
      + b1 * 2 ^ 48 + b0 * 2 ^ 56) / 2 ^ 40 % 256 = b2 := by norm_num; omega
  have e3 : (b7 + b6 * 2 ^ 8 + b5 * 2 ^ 16 + b4 * 2 ^ 24 + b3 * 2 ^ 32 + b2 * 2 ^ 40
      + b1 * 2 ^ 48 + b0 * 2 ^ 56) / 2 ^ 32 % 256 = b3 := by norm_num; omega
  have e4 : (b7 + b6 * 2 ^ 8 + b5 * 2 ^ 16 + b4 * 2 ^ 24 + b3 * 2 ^ 32 + b2 * 2 ^ 40
      + b1 * 2 ^ 48 + b0 * 2 ^ 56) / 2 ^ 24 % 256 = b4 := by norm_num; omega
  have e5 : (b7 + b6 * 2 ^ 8 + b5 * 2 ^ 16 + b4 * 2 ^ 24 + b3 * 2 ^ 32 + b2 * 2 ^ 40
      + b1 * 2 ^ 48 + b0 * 2 ^ 56) / 2 ^ 16 % 256 = b5 := by norm_num; omega
  have e6 : (b7 + b6 * 2 ^ 8 + b5 * 2 ^ 16 + b4 * 2 ^ 24 + b3 * 2 ^ 32 + b2 * 2 ^ 40
      + b1 * 2 ^ 48 + b0 * 2 ^ 56) / 2 ^ 8 % 256 = b6 := by norm_num; omega
  have e7 : (b7 + b6 * 2 ^ 8 + b5 * 2 ^ 16 + b4 * 2 ^ 24 + b3 * 2 ^ 32 + b2 * 2 ^ 40
      + b1 * 2 ^ 48 + b0 * 2 ^ 56) % 256 = b7 := by norm_num; omega
  rw [e0, e1, e2, e3, e4, e5, e6, e7]

theorem AsSlice_AddrFrom4 (a b c d : Nat) (ha : a < 256) (hb : b < 256) (hc : c < 256)
    (hd : d < 256) : (AddrFrom4 a b c d).AsSlice = [a, b, c, d] := by
  unfold Addr.AsSlice
  rw [if_neg (by simp [AddrFrom4, z4, z0]), if_pos (show (AddrFrom4 a b c d).z = z4 from rfl)]
  simp only [AddrFrom4, v4word_eq a b c d ha hb hc hd, Nat.shiftRight_eq_div_pow]
  have e0 : (0xffff * 2 ^ 32 + a * 2 ^ 24 + b * 2 ^ 16 + c * 2 ^ 8 + d) / 2 ^ 24 % 256 = a := by
    norm_num; omega
  have e1 : (0xffff * 2 ^ 32 + a * 2 ^ 24 + b * 2 ^ 16 + c * 2 ^ 8 + d) / 2 ^ 16 % 256 = b := by
    norm_num; omega
  have e2 : (0xffff * 2 ^ 32 + a * 2 ^ 24 + b * 2 ^ 16 + c * 2 ^ 8 + d) / 2 ^ 8 % 256 = c := by
    norm_num; omega
  have e3 : (0xffff * 2 ^ 32 + a * 2 ^ 24 + b * 2 ^ 16 + c * 2 ^ 8 + d) % 256 = d := by
    norm_num; omega
  rw [e0, e1, e2, e3]

theorem AsSlice_AddrFrom16 (B : List Nat) (hl : B.length = 16) (hb : ∀ b ∈ B, b < 256) :
    (AddrFrom16 B).AsSlice = B := by
  obtain ⟨b0, b1, b2, b3, b4, b5, b6, b7, b8, b9, b10, b11, b12, b13, b14, b15, rfl⟩ :=
    list_of_length_16 B hl
  simp only [List.mem_cons, List.mem_singleton, List.not_mem_nil, or_false, forall_eq_or_imp,
    forall_eq] at hb
  obtain ⟨h0, h1, h2, h3, h4, h5, h6, h7, h8, h9, h10, h11, h12, h13, h14, h15⟩ := hb
  unfold Addr.AsSlice
  rw [if_neg (by simp [AddrFrom16, z6noz, z0]), if_neg (by simp [AddrFrom16, z6noz, z4])]
  simp only [AddrFrom16, List.getD_cons_zero, List.getD_cons_succ]
  rw [bePutUint64_beUint64 b0 b1 b2 b3 b4 b5 b6 b7 h0 h1 h2 h3 h4 h5 h6 h7,
    bePutUint64_beUint64 b8 b9 b10 b11 b12 b13 b14 b15 h8 h9 h10 h11 h12 h13 h14 h15]
  rfl

/-- The address that `AddrFromSlice` and `Unmap` make of a `net.IP` is that `net.IP`:
its bytes are those of the slice, in the sense of `IP.Equal`. -/
theorem AddrFromSlice_Equal (ip : net.IP) (h : ip.WF) :
    net.IP.Equal (AddrFromSlice ip).1.Unmap.AsSlice ip = true := by
  obtain ⟨hl, hb⟩ := h
  rcases hl with hl | hl
  · obtain ⟨a, b, c, d, rfl⟩ := list_of_length_4 ip hl
    simp only [List.mem_cons, List.mem_singleton, List.not_mem_nil, or_false, forall_eq_or_imp,
      forall_eq] at hb
    obtain ⟨ha, hb, hc, hd⟩ := hb
    have e2 : (AddrFromSlice [a, b, c, d]).1 = AddrFrom4 a b c d := by
      simp [AddrFromSlice]
    rw [e2, Unmap_AddrFrom4, AsSlice_AddrFrom4 a b c d ha hb hc hd]
    simp [net.IP.Equal]
  · have e2 : (AddrFromSlice ip).1 = AddrFrom16 ip := by
      simp [AddrFromSlice, hl]
    rw [e2]
    by_cases h46 : (AddrFrom16 ip).Is4In6 = true
    · obtain ⟨b0, b1, b2, b3, b4, b5, b6, b7, b8, b9, b10, b11, b12, b13, b14, b15, rfl⟩ :=
        list_of_length_16 ip hl
      simp only [List.mem_cons, List.mem_singleton, List.not_mem_nil, or_false,
        forall_eq_or_imp, forall_eq] at hb
      obtain ⟨h0, h1, h2, h3, h4, h5, h6, h7, h8, h9, h10, h11, h12, h13, h14, h15⟩ := hb
      have hm := (Is4In6_AddrFrom16 b0 b1 b2 b3 b4 b5 b6 b7 b8 b9 b10 b11 b12 b13 b14 b15
        h0 h1 h2 h3 h4 h5 h6 h7 h8 h9 h10 h11 h12 h13 h14 h15).mp h46
      obtain ⟨rfl, rfl, rfl, rfl, rfl, rfl, rfl, rfl, rfl, rfl, rfl, rfl⟩ := hm
      have e3 := Unmap_AddrFrom16_mapped b12 b13 b14 b15 h12 h13 h14 h15
      rw [e3, AsSlice_AddrFrom4 _ _ _ _ h12 h13 h14 h15]
      simp [net.IP.Equal]
    · have e3 : (AddrFrom16 ip).Unmap = AddrFrom16 ip := by
        unfold Addr.Unmap
        rw [if_neg h46]
      rw [e3, AsSlice_AddrFrom16 ip hl hb]
      simp [net.IP.Equal]

end netip

/-- With a valid port and a host that is not a literal address, `CreateAddrPort` asks
the resolver: its error comes back with the zero endpoint, and the first address of
its answer becomes the endpoint. -/
theorem CreateAddrPort_resolved (env : Env) (host : GoString) (port : Int)
    (hh : host ≠ []) (hp1 : 1 ≤ port) (hp2 : port ≤ 65535)
    (hlit : (net.ParseIP host).isNone = true) :
    (∀ L e, env.LookupIP host = (L, some e) →
      CreateAddrPort env host port = Outcome.returns (netip.AddrPort.zero, some e)) ∧
    (∀ ip0 rest, env.LookupIP host = (ip0 :: rest, none) → ip0.WF →
      CreateAddrPort env host port = Outcome.returns
        ({ ip := (netip.AddrFromSlice ip0).1.Unmap, port := port.toNat }, none)) := by
  have hne : host.length ≠ 0 := fun e => hh (List.length_eq_zero.mp e)
  have hport : ¬ (port ≤ 0 ∨ port > 65535) := by omega
  constructor
  · intro L e hL
    unfold CreateAddrPort
    simp only [hne, hport, hlit, if_false, if_true, hL]
  · intro ip0 rest hL hwf
    unfold CreateAddrPort
    simp only [hne, hport, hlit, if_false, if_true, hL]
    rw [strconv.Itoa_of_pos port (by omega),
      netip.ParseAddrPort_JoinHostPort _ _ port.toNat (netip.ParseAddr_IP_String ip0 hwf)
        (by omega)]

/-- C14: for a valid port, a host that is a literal address gives the same result
under any two resolvers; for a non-empty host that is not a literal address, a lookup
failing with error `e` gives the zero endpoint and `e`, and a lookup answering the list
`ip0 :: rest`, where `ip0` is an address of four or sixteen bytes, gives without error
the endpoint of the given port whose address is `ip0`: the address made of the bytes of
`ip0` (an IPv4-mapped `ip0` as its IPv4 address), equal to `ip0` in the sense of
`IP.Equal`. -/
theorem CreateAddrPort_lookup (host : GoString) (port : Int) (hp1 : 1 ≤ port)
    (hp2 : port ≤ 65535) :
    ((net.ParseIP host).isSome = true → ∀ env1 env2 : Env,
      CreateAddrPort env1 host port = CreateAddrPort env2 host port) ∧
    (host ≠ [] → (net.ParseIP host).isNone = true → ∀ env : Env,
      (∀ L e, env.LookupIP host = (L, some e) →
        CreateAddrPort env host port = Outcome.returns (netip.AddrPort.zero, some e)) ∧
      (∀ ip0 rest, env.LookupIP host = (ip0 :: rest, none) → ip0.WF →
        CreateAddrPort env host port = Outcome.returns
          ({ ip := (netip.AddrFromSlice ip0).1.Unmap, port := port.toNat }, none) ∧
        net.IP.Equal (netip.AddrFromSlice ip0).1.Unmap.AsSlice ip0 = true)) := by
  constructor
  · intro hlit env1 env2
    have hn : (net.ParseIP host).isNone = false := by
      cases h : net.ParseIP host with
      | none => rw [h] at hlit; simp at hlit
      | some v => rfl
    unfold CreateAddrPort
    simp only [hn, Bool.false_eq_true, if_false]
  · intro hh hlit env
    have h := CreateAddrPort_resolved env host port hh hp1 hp2 hlit
    exact ⟨h.1, fun ip0 rest hL hwf =>
      ⟨h.2 ip0 rest hL hwf, netip.AddrFromSlice_Equal ip0 hwf⟩⟩

theorem CreateAddrPort_lookup_witness :
    CreateAddrPort Env.localhost (str "localhost") 6881 =
        Outcome.returns ({ ip := netip.AddrFrom4 127 0 0 1, port := 6881 }, none) ∧
      net.IP.Equal (netip.AddrFrom4 127 0 0 1).AsSlice [127, 0, 0, 1] = true :=
  ((CreateAddrPort_lookup (str "localhost") 6881 (by decide) (by decide)).2 (by decide)
    (by decide) Env.localhost).2 [127, 0, 0, 1] [] rfl (by decide)

/-! ### Concrete runs of the text form of resolved addresses -/

theorem IP_String_v6_compressed :
    net.IP.String [0x20, 0x01, 0x0d, 0xb8, 0, 0, 0, 0, 0, 0, 0, 0, 0, 0, 0, 1]
      = str "2001:db8::1" := by decide

theorem IP_String_v6_longest_run :
    net.IP.String [0x20, 1, 0, 0, 0, 0, 0, 1, 0, 0, 0, 0, 0, 0, 0, 1]
      = str "2001:0:0:1::1" := by decide

theorem IP_String_v4_mapped :
    net.IP.String [0, 0, 0, 0, 0, 0, 0, 0, 0, 0, 0xff, 0xff, 10, 0, 0, 1]
      = str "10.0.0.1" := by decide

theorem CreateAddrPort_v6_answer :
    CreateAddrPort { Env.offline with LookupIP := fun _ =>
        ([[0x20, 0x01, 0x0d, 0xb8, 0, 0, 0, 0, 0, 0, 0, 0, 0, 0, 0, 1]], none) }
        (str "example.com") 6881 =
      Outcome.returns (⟨netip.AddrFrom16
        [0x20, 0x01, 0x0d, 0xb8, 0, 0, 0, 0, 0, 0, 0, 0, 0, 0, 0, 1], 6881⟩, none) := by
  decide

/-! ### Literal hosts in canonical form -/

namespace netip

/-- The two shapes of a `net.IP` of four or sixteen bytes: an IPv4 address, given by
its four bytes or in the 16-byte form, and an IPv6 address that is not IPv4-mapped;
with the address and the text of each. -/
theorem AddrFromSlice_cases (ip : net.IP) (h : ip.WF) :
    (∃ a b c d, a < 256 ∧ b < 256 ∧ c < 256 ∧ d < 256 ∧
      (ip = [a, b, c, d] ∨ ip = net.IPv4 a b c d) ∧
      (AddrFromSlice ip).1.Unmap = AddrFrom4 a b c d ∧
      net.IP.String ip = (AddrFrom4 a b c d).String) ∨
    (ip.length = 16 ∧ (∀ b ∈ ip, b < 256) ∧ (AddrFromSlice ip).1.Unmap = AddrFrom16 ip ∧
      net.IP.String ip = (AddrFrom16 ip).String ∧ (AddrFrom16 ip).Is4In6 = false) := by
  obtain ⟨hl, hb⟩ := h
  rcases hl with hl | hl
  · obtain ⟨a, b, c, d, rfl⟩ := list_of_length_4 ip hl
    have hB := hb
    simp only [List.mem_cons, List.mem_singleton, List.not_mem_nil, or_false, forall_eq_or_imp,
      forall_eq] at hb
    obtain ⟨ha, hb, hc, hd⟩ := hb
    refine Or.inl ⟨a, b, c, d, ha, hb, hc, hd, Or.inl rfl, ?_, ?_⟩
    · have e2 : (AddrFromSlice [a, b, c, d]).1 = AddrFrom4 a b c d := by simp [AddrFromSlice]
      rw [e2, Unmap_AddrFrom4]
    · simp [net.IP.String, net.IP.To4]
  · have e2 : (AddrFromSlice ip).1 = AddrFrom16 ip := by simp [AddrFromSlice, hl]
    by_cases h46 : (AddrFrom16 ip).Is4In6 = true
    · obtain ⟨b0, b1, b2, b3, b4, b5, b6, b7, b8, b9, b10, b11, b12, b13, b14, b15, rfl⟩ :=
        list_of_length_16 ip hl
      simp only [List.mem_cons, List.mem_singleton, List.not_mem_nil, or_false,
        forall_eq_or_imp, forall_eq] at hb
      obtain ⟨h0, h1, h2, h3, h4, h5, h6, h7, h8, h9, h10, h11, h12, h13, h14, h15⟩ := hb
      have hm := (Is4In6_AddrFrom16 b0 b1 b2 b3 b4 b5 b6 b7 b8 b9 b10 b11 b12 b13 b14 b15
        h0 h1 h2 h3 h4 h5 h6 h7 h8 h9 h10 h11 h12 h13 h14 h15).mp h46
      obtain ⟨rfl, rfl, rfl, rfl, rfl, rfl, rfl, rfl, rfl, rfl, rfl, rfl⟩ := hm
      refine Or.inl ⟨b12, b13, b14, b15, h12, h13, h14, h15, Or.inr rfl, ?_, ?_⟩
      · rw [e2]; exact Unmap_AddrFrom16_mapped b12 b13 b14 b15 h12 h13 h14 h15
      · simp [net.IP.String, net.IP.To4]
    · have h46f : (AddrFrom16 ip).Is4In6 = false := by
        rw [Bool.eq_false_iff]; exact h46
      refine Or.inr ⟨hl, hb, ?_, ?_, h46f⟩
      · rw [e2]; unfold Addr.Unmap; rw [if_neg h46]
      · obtain ⟨b0, b1, b2, b3, b4, b5, b6, b7, b8, b9, b10, b11, b12, b13, b14, b15, rfl⟩ :=
          list_of_length_16 ip hl
        simp only [List.mem_cons, List.mem_singleton, List.not_mem_nil, or_false,
          forall_eq_or_imp, forall_eq] at hb
        obtain ⟨h0, h1, h2, h3, h4, h5, h6, h7, h8, h9, h10, h11, h12, h13, h14, h15⟩ := hb
        have hiff := Is4In6_AddrFrom16 b0 b1 b2 b3 b4 b5 b6 b7 b8 b9 b10 b11 b12 b13 b14 b15
          h0 h1 h2 h3 h4 h5 h6 h7 h8 h9 h10 h11 h12 h13 h14 h15
        have hnot2 : ¬ ((b0 = 0 ∧ b1 = 0 ∧ b2 = 0 ∧ b3 = 0 ∧ b4 = 0 ∧ b5 = 0 ∧ b6 = 0 ∧ b7 = 0 ∧
            b8 = 0 ∧ b9 = 0) ∧ b10 = 255 ∧ b11 = 255) := by
          intro hx
          apply h46
          apply hiff.mpr
          obtain ⟨⟨a0, a1, a2, a3, a4, a5, a6, a7, a8, a9⟩, a10, a11⟩ := hx
          exact ⟨a0, a1, a2, a3, a4, a5, a6, a7, a8, a9, a10, a11⟩
        simp [net.IP.String, net.IP.To4, hnot2]

theorem AddrFromSlice_String (ip : net.IP) (h : ip.WF) :
    (AddrFromSlice ip).1.Unmap.String = net.IP.String ip := by
  rcases AddrFromSlice_cases ip h with ⟨a, b, c, d, _, _, _, _, _, e1, e2⟩ | ⟨_, _, e1, e2, _⟩
  · rw [e1, e2]
  · rw [e1, e2]

theorem To16_AsSlice_String (ip : net.IP) (h : ip.WF) :
    net.IP.String (net.IP.To16 (AddrFromSlice ip).1.Unmap.AsSlice) = net.IP.String ip := by
  rcases AddrFromSlice_cases ip h with ⟨a, b, c, d, ha, hb, hc, hd, _, e1, e2⟩ | ⟨hl, hb, e1, _, _⟩
  · rw [e1, e2, AsSlice_AddrFrom4 a b c d ha hb hc hd]
    simp [net.IP.String, net.IP.To4, net.IP.To16, net.IPv4]
  · rw [e1, AsSlice_AddrFrom16 ip hl hb]
    simp [net.IP.To16, hl]

/-- The text of a literal has a colon exactly when its address is not an IPv4
address. -/
theorem ParseAddr_Is4_iff (host : GoString) (ip : Addr) (h : ParseAddr host = (ip, none)) :
    (ip.Is4 = true ∧ (indexByte host 0x3a).isSome = false) ∨
    (ip.Is4 = false ∧ (indexByte host 0x3a).isSome = true) := by
  rcases ParseAddr_ok host ip h with ⟨hz, _, hb⟩ | ⟨⟨zone, hz⟩, hc, _⟩
  · left
    refine ⟨by simp [Addr.Is4, hz], ?_⟩
    have hn : 0x3a ∉ host := fun hm => (isV4Byte_ne _ (hb _ hm)).1 rfl
    rw [(BittorrentDHT.indexByte_eq_none_iff host 0x3a).mpr hn]
    rfl
  · right
    refine ⟨by simp [Addr.Is4, hz, z4], ?_⟩
    exact (BittorrentDHT.indexByte_isSome_iff host 0x3a).mpr hc

end netip

/-- The text of the `AddrPort` made of a canonical literal is the literal joined with
the port. -/
theorem AddrPort_String_canonical (host : GoString) (ip : netip.Addr) (port : Int)
    (h : netip.ParseAddr host = (ip, none)) (hcanon : ip.String = host) (hp1 : 1 ≤ port) :
    netip.AddrPort.String { ip := ip, port := port.toNat } =
      net.JoinHostPort host (strconv.Itoa port) := by
  have hz0 : ip.z ≠ netip.z0 := by
    rcases netip.ParseAddr_ok host ip h with ⟨h4, _, _⟩ | ⟨⟨zone, h6⟩, _, _⟩
    · rw [h4]; decide
    · rw [h6]; simp [netip.z0]
  rw [netip.AddrPort_String_eq ip port.toNat hz0, hcanon, ← strconv.Itoa_of_pos port (by omega)]
  unfold net.JoinHostPort
  rcases netip.ParseAddr_Is4_iff host ip h with ⟨h1, h2⟩ | ⟨h1, h2⟩
  · rw [h1, h2]; simp
  · rw [h1, h2]; simp

theorem netip.AddrFromSlice_Zone (ip : net.IP) (h : ip.WF) :
    (netip.AddrFromSlice ip).1.Unmap.Zone = [] ∧ (netip.AddrFromSlice ip).1.Unmap.z ≠ netip.z0 := by
  rcases netip.AddrFromSlice_cases ip h with ⟨a, b, c, d, _, _, _, _, _, e1, _⟩ | ⟨_, _, e1, _, _⟩
  · rw [e1]; exact ⟨rfl, by simp [netip.AddrFrom4, netip.z4, netip.z0]⟩
  · rw [e1]; exact ⟨rfl, by simp [netip.AddrFrom16, netip.z6noz, netip.z0]⟩

/-- Both builders on the text of an address of four or sixteen bytes: they succeed, and
the text of each result is that text joined with the port. -/
theorem Create_canonical (env : Env) (ip0 : net.IP) (hwf : ip0.WF) (port : Int)
    (hp1 : 1 ≤ port) (hp2 : port ≤ 65535) :
    net.ParseIP (net.IP.String ip0) ≠ none ∧
    CreateAddrPort env (net.IP.String ip0) port =
      Outcome.returns
        ({ ip := (netip.AddrFromSlice ip0).1.Unmap, port := port.toNat }, none) ∧
    netip.AddrPort.String { ip := (netip.AddrFromSlice ip0).1.Unmap, port := port.toNat } =
      net.JoinHostPort (net.IP.String ip0) (strconv.Itoa port) ∧
    CreateUDPAddr env (net.IP.String ip0) port =
      (some { IP := net.IP.To16 (netip.AddrFromSlice ip0).1.Unmap.AsSlice, Port := port,
              Zone := [] }, none) ∧
    net.UDPAddr.String
        { IP := net.IP.To16 (netip.AddrFromSlice ip0).1.Unmap.AsSlice, Port := port,
          Zone := [] } =
      net.JoinHostPort (net.IP.String ip0) (strconv.Itoa port) := by
  have h := netip.ParseAddr_IP_String ip0 hwf
  obtain ⟨hz, hz0⟩ := netip.AddrFromSlice_Zone ip0 hwf
  refine ⟨?_, CreateAddrPort_literal env _ port _ h hz hp1 hp2,
    AddrPort_String_canonical _ _ port h (netip.AddrFromSlice_String ip0 hwf) hp1,
    CreateUDPAddr_literal env _ port _ h hz hp1 hp2, ?_⟩
  · simp [net.ParseIP, h, hz]
  · rw [net.UDPAddr_String_literal _ port hz0, netip.To16_AsSlice_String ip0 hwf]

/-- C5, amended: for every host that `net.ParseIP` accepts (a literal IPv4 address or
a literal IPv6 address without zone) and every port in [1, 65535], both builders
succeed, whatever the resolver would answer. `CreateAddrPort` returns the parsed
address with the port, `CreateUDPAddr` its 16-byte form with the port and no zone.
The textual form of each result is the canonical text of the parsed address, not
the host as written, followed by `:` and the decimal port; the address is in
square brackets when it is IPv6 (`AddrPort`), or when its text has a colon
(`UDPAddr`). When the host is canonical, the text that its own address prints, the
textual form of the `AddrPort` is the host joined with the port, in square brackets
when it has a colon. And for every address of four or sixteen bytes, its text
`IP.String` is such a host, and the textual form of both results is that text joined
with the port. -/
theorem Create_literal (env : Env) (host : GoString) (port : Int)
    (hlit : net.ParseIP host ≠ none) (hp1 : 1 ≤ port) (hp2 : port ≤ 65535) :
    (netip.ParseAddr host).2 = none ∧
    CreateAddrPort env host port =
      Outcome.returns ({ ip := (netip.ParseAddr host).1, port := port.toNat }, none) ∧
    CreateUDPAddr env host port =
      (some { IP := net.IP.To16 (netip.ParseAddr host).1.AsSlice, Port := port, Zone := [] },
        none) ∧
    netip.AddrPort.String { ip := (netip.ParseAddr host).1, port := port.toNat } =
      (if (netip.ParseAddr host).1.Is4 then
        (netip.ParseAddr host).1.String ++ [0x3a] ++ strconv.Itoa port
       else [0x5b] ++ (netip.ParseAddr host).1.String ++ [0x5d, 0x3a] ++ strconv.Itoa port) ∧
    net.UDPAddr.String
        { IP := net.IP.To16 (netip.ParseAddr host).1.AsSlice, Port := port, Zone := [] } =
      net.JoinHostPort (net.IP.String (net.IP.To16 (netip.ParseAddr host).1.AsSlice))
        (strconv.Itoa port) ∧
    ((netip.ParseAddr host).1.String = host →
      netip.AddrPort.String { ip := (netip.ParseAddr host).1, port := port.toNat } =
        net.JoinHostPort host (strconv.Itoa port)) ∧
    (∀ ip0 : net.IP, ip0.WF →
      net.ParseIP (net.IP.String ip0) ≠ none ∧
      (netip.ParseAddr (net.IP.String ip0)).1.String = net.IP.String ip0 ∧
      (∃ ap, CreateAddrPort env (net.IP.String ip0) port = Outcome.returns (ap, none) ∧
        ap.String = net.JoinHostPort (net.IP.String ip0) (strconv.Itoa port)) ∧
      (∃ u, CreateUDPAddr env (net.IP.String ip0) port = (some u, none) ∧
        u.String = net.JoinHostPort (net.IP.String ip0) (strconv.Itoa port))) := by
  obtain ⟨ip, h, hz⟩ := ParseIP_ne_none host hlit
  have hz0 : ip.z ≠ netip.z0 := by
    rcases netip.ParseAddr_ok host ip h with ⟨h4, _, _⟩ | ⟨⟨zone, h6⟩, _, _⟩
    · rw [h4]; decide
    · rw [h6]; simp [netip.z0]
  rw [h]
  refine ⟨rfl, CreateAddrPort_literal env host port ip h hz hp1 hp2,
    CreateUDPAddr_literal env host port ip h hz hp1 hp2, ?_,
    net.UDPAddr_String_literal ip port hz0,
    fun hcanon => AddrPort_String_canonical host ip port h hcanon hp1,
    fun ip0 hwf => ?_⟩
  · rw [strconv.Itoa_of_pos port (by omega)]
    exact netip.AddrPort_String_eq ip port.toNat hz0
  · obtain ⟨c1, c2, c3, c4, c5⟩ := Create_canonical env ip0 hwf port hp1 hp2
    refine ⟨c1, ?_, ⟨_, c2, c3⟩, ⟨_, c4, c5⟩⟩
    rw [netip.ParseAddr_IP_String ip0 hwf]
    exact netip.AddrFromSlice_String ip0 hwf

set_option maxRecDepth 100000 in
theorem Create_literal_witness :
    net.ParseIP (str "2606:4700:4700::1111") ≠ none ∧
    CreateAddrPort Env.offline (str "2606:4700:4700::1111") 6881 =
      Outcome.returns
        ({ ip := (netip.ParseAddr (str "2606:4700:4700::1111")).1, port := (6881 : Int).toNat },
          none) ∧
    netip.AddrPort.String
        { ip := (netip.ParseAddr (str "2606:4700:4700::1111")).1, port := (6881 : Int).toNat } =
      net.JoinHostPort (str "2606:4700:4700::1111") (strconv.Itoa 6881) ∧
    (∃ u, CreateUDPAddr Env.offline (net.IP.String [127, 0, 0, 1]) 6881 = (some u, none) ∧
      u.String = net.JoinHostPort (net.IP.String [127, 0, 0, 1]) (strconv.Itoa 6881)) :=
  ⟨by decide,
    (Create_literal Env.offline (str "2606:4700:4700::1111") 6881 (by decide) (by decide)
      (by decide)).2.1,
    (Create_literal Env.offline (str "2606:4700:4700::1111") 6881 (by decide) (by decide)
      (by decide)).2.2.2.2.2.1 (by decide),
    ((Create_literal Env.offline (str "2606:4700:4700::1111") 6881 (by decide) (by decide)
      (by decide)).2.2.2.2.2.2 [127, 0, 0, 1] (by decide)).2.2.2⟩

end BittorrentDHT
